import Mathlib

/-!
# AFSEIR: the ABC / SMC fitting engine

Shallow embedding of `sort_indexes` and of the member functions `combineResults_basic`,
`combineResults_SMC`, `combineResults`, `simulate`, `evalPrior`, `updateWeights`,
`updateParams`, `updateParams_prior`, `updateParams_SMC` and `sample` of `spatialSEIRModel`
from `src/spatialSEIRModel.cpp`, and of `distanceModel::addDistanceMatrix` from
`src/distanceModel.cpp`.

Conventions of the embedding.

* A `double` is an element of a type `α`.  The plain-ABC merge only compares distances, so it is
  stated over an arbitrary linear order (this covers the rationals as well as the rationals
  extended by `+∞`, the value the sample set is initialised with; a `NaN` is excluded, since the
  comparator handed to `std::sort` is then no strict weak order).  The SMC merge multiplies the
  tolerance by the shrinkage factor, so it is stated over a linearly ordered field.
* `Rcpp::NumericVector` and `std::vector` are lists.  A matrix is a list of rows together with
  its column count.
* Every access outside the bounds of a vector or a matrix (a thrown `index_out_of_bounds` for
  `Rcpp::NumericVector::operator()`, undefined behaviour for `std::vector::operator[]` and for
  the matrix accessors) makes the embedded function return `none`.
* The members of `spatialSEIRModel` that the two merges read or write are the fields of
  `ModelState`; a call returns its result together with the state after the call.  The further
  members used by the fitting loop are the fields of `FitState`.
* A quotient with a zero divisor (an infinity or a NaN in doubles) has no value: `divide?`.
* Library functions (`std::exp`, the densities of R, `Rcpp::sd`), the values of the macros
  `ALG_BasicABC` and `ALG_ModifiedBeaumont2009` and the infinite distance are parameters.
* Random draws and the responses of the workers are inputs: streams of values.
-/

namespace AFSEIR

/-- Dense matrix (`Rcpp::NumericMatrix`, `Eigen::MatrixXd`): the column count and the rows. -/
structure NumericMatrix (α : Type) where
  ncol : Nat
  rows : List (List α)
deriving DecidableEq

/-- Row count, `M.nrow()`. -/
def NumericMatrix.nrow {α : Type} (M : NumericMatrix α) : Nat :=
  M.rows.length

/-- Read `M(i, j)`. -/
def NumericMatrix.get? {α : Type} (M : NumericMatrix α) (i j : Nat) : Option α :=
  if j < M.ncol then (M.rows[i]?).bind (fun r => r[j]?) else none

/-- Write `M(i, j) = v`. -/
def NumericMatrix.set? {α : Type} (M : NumericMatrix α) (i j : Nat) (v : α) :
    Option (NumericMatrix α) :=
  if j < M.ncol then
    match M.rows[i]? with
    | some r =>
      if j < r.length then some { ncol := M.ncol, rows := M.rows.set i (r.set j v) } else none
    | none => none
  else none

/-- The struct `samplingResultSet`: distances and the index-aligned parameter rows. -/
structure samplingResultSet (α : Type) where
  result : List α
  params : NumericMatrix α
deriving DecidableEq

/-- The members of `spatialSEIRModel` read or written by the merges.  `minEps` ranges over `α`
extended by `+∞`, the value `combineResults_SMC` starts its running minimum from. -/
structure ModelState (α : Type) where
  currentSamples : samplingResultSet α
  currentAccepted : List (List α)
  currentAcceptedResult : List α
  currentEps : α
  minEps : WithTop α
  maxEps : α
  updateFraction : ℚ
  reweight : Nat
  shrinkage : α
deriving DecidableEq

/-- The comparator of `sort_indexes`, on positions of `inVec` (non-strict form of
`inVec(i1) < inVec(i2)`). -/
def idxLE {α : Type} [LinearOrder α] (inVec : List α) (i1 i2 : Fin inVec.length) : Prop :=
  inVec.get i1 ≤ inVec.get i2

/-- The comparator of `sort_indexes` is decidable. -/
instance idxLE_decidable {α : Type} [LinearOrder α] (inVec : List α) :
    DecidableRel (idxLE inVec) :=
  fun i1 i2 => inferInstanceAs (Decidable (inVec.get i1 ≤ inVec.get i2))

/-- `sort_indexes`: the positions `0 .. size-1` sorted by ascending value.  `std::sort` leaves
the relative order of positions with equal values unspecified; the embedding keeps them in
position order. -/
def sort_indexes {α : Type} [LinearOrder α] (inVec : List α) : List Nat :=
  ((List.finRange inVec.length).insertionSort (idxLE inVec)).map Fin.val

/-- The loop `for (j = 0; j < ncol; j++) dst(i, j) = read(j)`, started at column `j` with
`remaining` columns to go. -/
def copyRow {α : Type} (read : Nat → Option α) (i : Nat) :
    Nat → Nat → NumericMatrix α → Option (NumericMatrix α)
  | 0, _, dst => some dst
  | remaining + 1, j, dst =>
    match read j with
    | some v =>
      match dst.set? i j v with
      | some dst1 => copyRow read i remaining (j + 1) dst1
      | none => none
    | none => none

/-- Local variables of the zipper merge of `combineResults_basic`. -/
structure ZipperState (α : Type) where
  outResults : List α
  outParams : NumericMatrix α
  idx1 : Nat
  idx2 : Nat
  err : Nat
deriving DecidableEq

/-- One iteration (output slot `i`) of the zipper merge. -/
def zipperStep {α : Type} [LinearOrder α] (currentResults : List α)
    (currentParams : NumericMatrix α) (newResults : List α) (newParams : NumericMatrix α)
    (currentIndex newIndex : List Nat) (i : Nat) (s : ZipperState α) : Option (ZipperState α) :=
  match currentIndex[s.idx1]?, newIndex[s.idx2]? with
  | some k1, some k2 =>
    match currentResults[k1]?, newResults[k2]? with
    | some c, some nw =>
      if c > nw then
        if i < s.outResults.length then
          match copyRow (fun j => newParams.get? k2 j) i currentParams.ncol 0 s.outParams with
          | some P =>
            some { outResults := s.outResults.set i nw, outParams := P,
                   idx1 := s.idx1, idx2 := s.idx2 + 1, err := s.err }
          | none => none
        else none
      else if c ≤ nw then
        if i < s.outResults.length then
          match copyRow (fun j => currentParams.get? k1 j) i currentParams.ncol 0
              s.outParams with
          | some P =>
            some { outResults := s.outResults.set i c, outParams := P,
                   idx1 := s.idx1 + 1, idx2 := s.idx2, err := s.err }
          | none => none
        else none
      else
        some { outResults := s.outResults, outParams := s.outParams,
               idx1 := s.idx1, idx2 := s.idx2, err := s.err + 1 }
    | _, _ => none
  | _, _ => none

/-- The loop `for (i = 0; i < currentIndex.size(); i++)`, at slot `i` with `remaining` slots
to go. -/
def zipperLoop {α : Type} [LinearOrder α] (currentResults : List α)
    (currentParams : NumericMatrix α) (newResults : List α) (newParams : NumericMatrix α)
    (currentIndex newIndex : List Nat) : Nat → Nat → ZipperState α → Option (ZipperState α)
  | 0, _, s => some s
  | remaining + 1, i, s =>
    match zipperStep currentResults currentParams newResults newParams currentIndex newIndex
        i s with
    | some s1 =>
      zipperLoop currentResults currentParams newResults newParams currentIndex newIndex
        remaining (i + 1) s1
    | none => none

/-- The local variables at the start of the zipper merge: the outputs are clones of the current
results and parameters, the cursors and the error counter are zero. -/
def zipperInit {α : Type} (currentResults : List α) (currentParams : NumericMatrix α) :
    ZipperState α :=
  { outResults := currentResults, outParams := currentParams, idx1 := 0, idx2 := 0, err := 0 }

/-- `spatialSEIRModel::combineResults_basic`: the returned sample set and the state after the
call (`minEps`, `maxEps`, `currentEps` and `updateFraction` are written).  The quotient
`(idx2*1.0)/(idx1+idx2+err)` is taken in the rationals. -/
def combineResults_basic {α : Type} [LinearOrder α] (st : ModelState α)
    (currentResults : List α) (currentParams : NumericMatrix α)
    (newResults : List α) (newParams : NumericMatrix α) :
    Option (samplingResultSet α × ModelState α) :=
  let currentIndex := sort_indexes currentResults
  let newIndex := sort_indexes newResults
  match zipperLoop currentResults currentParams newResults newParams currentIndex newIndex
      currentIndex.length 0 (zipperInit currentResults currentParams) with
  | some s =>
    match s.outResults[0]?, s.outResults[s.outResults.length - 1]? with
    | some lo, some hi =>
      some ({ result := s.outResults, params := s.outParams },
            { st with
              minEps := WithTop.some lo
              maxEps := hi
              currentEps := hi
              updateFraction := (s.idx2 : ℚ) / ((s.idx1 + s.idx2 + s.err : Nat) : ℚ) })
    | _, _ => none
  | none => none

/-- The scan `while (idx < nrow && currentAccepted.size() < (size_t) N)` of
`combineResults_SMC`, at batch row `idx` with `remaining = nrow - idx` rows to go; `acc` and
`accR` are `currentAccepted` and `currentAcceptedResult`. -/
def smcScan {α : Type} [LinearOrder α] (newResults : List α) (newParams : NumericMatrix α)
    (currentEps : α) (N : Nat) :
    Nat → Nat → List (List α) → List α → Option (List (List α) × List α)
  | 0, _, acc, accR => some (acc, accR)
  | remaining + 1, idx, acc, accR =>
    if acc.length < N then
      match newResults[idx]? with
      | some r =>
        if r < currentEps then
          match newParams.rows[idx]? with
          | some row =>
            smcScan newResults newParams currentEps N remaining (idx + 1)
              (acc ++ [row]) (accR ++ [r])
          | none => none
        else smcScan newResults newParams currentEps N remaining (idx + 1) acc accR
      | none => none
    else some (acc, accR)

/-- Local variables of the copy loop of `combineResults_SMC`: the output sample set and the
running minimum (started at `+∞`) and maximum of its distances. -/
structure FillState (α : Type) where
  output : samplingResultSet α
  minRslt : WithTop α
  maxRslt : α

/-- The loop `for (i = 0; i < output.params.nrow(); i++)` of `combineResults_SMC`, at row `i`
with `remaining` rows to go. -/
def smcFill {α : Type} [LinearOrder α] (acc : List (List α)) (accR : List α) :
    Nat → Nat → FillState α → Option (FillState α)
  | 0, _, f => some f
  | remaining + 1, i, f =>
    match copyRow (fun j => (acc[i]?).bind (fun v => v[j]?)) i f.output.params.ncol 0
        f.output.params with
    | some P =>
      match accR[i]? with
      | some r =>
        if i < f.output.result.length then
          smcFill acc accR remaining (i + 1)
            { output := { result := f.output.result.set i r, params := P },
              minRslt := min (WithTop.some r) f.minRslt,
              maxRslt := max r f.maxRslt }
        else none
      | none => none
    | none => none

/-- `spatialSEIRModel::combineResults_SMC`: the returned sample set and the state after the
call.  `output` is a copy of `currentSamples` that shares its storage (an Rcpp vector or matrix
is a handle), so after a completed generation the member `currentSamples` holds the contents
of the returned set. -/
def combineResults_SMC {α : Type} [LinearOrderedField α] (st : ModelState α)
    (newResults : List α) (newParams : NumericMatrix α) :
    Option (samplingResultSet α × ModelState α) :=
  let N := st.currentSamples.params.nrow
  match smcScan newResults newParams st.currentEps N newResults.length 0
      st.currentAccepted st.currentAcceptedResult with
  | some (acc, accR) =>
    if acc.length = N then
      match smcFill acc accR st.currentSamples.params.nrow 0
          { output := st.currentSamples, minRslt := ⊤, maxRslt := 0 } with
      | some f =>
        some (f.output,
              { st with
                reweight := 1
                currentSamples := f.output
                minEps := f.minRslt
                maxEps := f.maxRslt
                currentEps := st.shrinkage * st.currentEps
                currentAccepted := []
                currentAcceptedResult := [] })
      | none => none
    else
      some (st.currentSamples,
            { st with currentAccepted := acc, currentAcceptedResult := accR })
  | none => none

/-! ## Notions used to state the properties -/

/-- Distances `results` and parameter rows `params` are index-aligned with `p` columns: one
row per distance, every row of `p` entries. -/
def Aligned {α : Type} (results : List α) (params : NumericMatrix α) (p : Nat) : Prop :=
  params.ncol = p ∧ params.rows.length = results.length ∧ ∀ r ∈ params.rows, r.length = p

/-- The ascending sort of a list of distances. -/
def sortAscending {α : Type} [LinearOrder α] (v : List α) : List α :=
  v.insertionSort (fun a b => a ≤ b)

/-- The two-way merge that takes the head of `ys` when the head of `xs` is strictly greater and
the head of `xs` otherwise. -/
def mergeAscending {α : Type} [LinearOrder α] (xs ys : List α) : List α :=
  List.merge xs ys (fun a b => decide (a ≤ b))

/-- The batch rows, paired with their distances, that pass the tolerance gate
`distance < currentEps`, in batch order. -/
def acceptedRows {α : Type} [LinearOrder α] (newResults : List α) (newParams : NumericMatrix α)
    (currentEps : α) : List (List α × α) :=
  (List.zip newParams.rows newResults).filter (fun e => decide (e.2 < currentEps))

/-- The call `combineResults_SMC st newResults newParams` completes a generation: the scan
leaves exactly `N` accumulated rows. -/
def smcCompletes {α : Type} [LinearOrder α] (st : ModelState α) (newResults : List α)
    (newParams : NumericMatrix α) : Bool :=
  match smcScan newResults newParams st.currentEps st.currentSamples.params.nrow
      newResults.length 0 st.currentAccepted st.currentAcceptedResult with
  | some (acc, _) => decide (acc.length = st.currentSamples.params.nrow)
  | none => false

/-- A sequence of `combineResults_SMC` calls, one per batch, each followed by the assignment
`currentSamples = combineResults(...)` of the fitting loop. -/
def smcRun {α : Type} [LinearOrderedField α] :
    ModelState α → List (List α × NumericMatrix α) → Option (ModelState α)
  | st, [] => some st
  | st, b :: bs =>
    match combineResults_SMC st b.1 b.2 with
    | some (out, st1) => smcRun { st1 with currentSamples := out } bs
    | none => none

/-- Standing assumptions on an SMC state: the shrinkage factor lies in `(0, 1)`, the target
sample size is at least one, and the accumulator holds one non-negative distance below the
tolerance per accumulated row. -/
def SmcInv {α : Type} [LinearOrderedField α] (st : ModelState α) : Prop :=
  0 < st.shrinkage ∧ st.shrinkage < 1 ∧ 1 ≤ st.currentSamples.params.nrow ∧
    st.currentAccepted.length = st.currentAcceptedResult.length ∧
    ∀ r ∈ st.currentAcceptedResult, 0 ≤ r ∧ r < st.currentEps

/-! ## Example data -/

/-- A state as the constructor leaves it (`updateFraction`, `minEps`, `maxEps` zero), with a
shrinkage factor of one half and an empty sample set. -/
def exampleState : ModelState ℚ :=
  { currentSamples := { result := [], params := { ncol := 2, rows := [] } },
    currentAccepted := [], currentAcceptedResult := [], currentEps := 0, minEps := 0,
    maxEps := 0, updateFraction := 0, reweight := 0, shrinkage := 1 / 2 }

/-- Three current distances. -/
def exampleCurrent : List ℚ := [1, 3, 5]

/-- The parameter rows of `exampleCurrent`. -/
def exampleCurrentParams : NumericMatrix ℚ :=
  { ncol := 2, rows := [[10, 11], [30, 31], [50, 51]] }

/-- Three incoming distances. -/
def exampleIncoming : List ℚ := [1 / 2, 4, 6]

/-- The parameter rows of `exampleIncoming`. -/
def exampleIncomingParams : NumericMatrix ℚ :=
  { ncol := 2, rows := [[5, 6], [40, 41], [60, 61]] }

/-- The sample set merged from `exampleCurrent` and `exampleIncoming`. -/
def exampleMerged : samplingResultSet ℚ :=
  { result := [1 / 2, 1, 3], params := { ncol := 2, rows := [[5, 6], [10, 11], [30, 31]] } }

/-- The state after merging `exampleCurrent` and `exampleIncoming` from `exampleState`. -/
def exampleStateMerged : ModelState ℚ :=
  { exampleState with
    minEps := WithTop.some (1 / 2), maxEps := 3, currentEps := 3, updateFraction := 1 / 3 }

/-- An SMC state: target sample size two, tolerance five, shrinkage one half, one row already
accumulated. -/
def exampleSmcState : ModelState ℚ :=
  { currentSamples := { result := [7, 8], params := { ncol := 1, rows := [[70], [80]] } },
    currentAccepted := [[30]], currentAcceptedResult := [3], currentEps := 5, minEps := 0,
    maxEps := 0, updateFraction := 0, reweight := 0, shrinkage := 1 / 2 }

/-- A batch of four distances, three of them below the tolerance five. -/
def exampleBatch : List ℚ := [6, 4, 2, 1]

/-- The parameter rows of `exampleBatch`. -/
def exampleBatchParams : NumericMatrix ℚ :=
  { ncol := 1, rows := [[60], [40], [20], [10]] }

/-- A batch without any distance below the tolerance five. -/
def exampleStalledBatch : List ℚ := [6, 5, 9, 7]

/-- The sample set returned when `exampleBatch` completes the generation of
`exampleSmcState`. -/
def exampleSmcOutput : samplingResultSet ℚ :=
  { result := [3, 4], params := { ncol := 1, rows := [[30], [40]] } }

/-- The state after `exampleBatch` completes the generation of `exampleSmcState`. -/
def exampleSmcCompleted : ModelState ℚ :=
  { currentSamples := exampleSmcOutput, currentAccepted := [], currentAcceptedResult := [],
    currentEps := 5 / 2, minEps := WithTop.some 3, maxEps := 4, updateFraction := 0,
    reweight := 1, shrinkage := 1 / 2 }

/-- Two successive batches: one that stalls and one that completes the generation. -/
def exampleBatches : List (List ℚ × NumericMatrix ℚ) :=
  [(exampleStalledBatch, exampleBatchParams), (exampleBatch, exampleBatchParams)]

/-! ## `simulate`: collecting the tagged responses -/

/-- The request kinds of `simulate` (a `caf::atom_value`): the three atoms it accepts, and any
other value. -/
inductive SimAtom where
  | sim_atom
  | sim_result_atom
  | sample_atom
  | other
deriving DecidableEq

/-- What `simulate` returns (an `Rcpp::List`): the list with `error = true`, the list with the
vector `result`, or the list of full results under the keys `std::to_string(i)`, a key being
given by its number `i`. -/
inductive SimOutput (α β : Type) where
  | error
  | result (outResults : List α)
  | complete (entries : List (Nat × β))
deriving DecidableEq

/-- The loop `for (i = 0; i < nrow; i++) outResults(result_idx[i]) = results_double[i]` of
`simulate`, at arrival `i` with `remaining` arrivals to go; `arrivals` are the received pairs
`(idx, result)` in the order of their arrival. -/
def placeResults {α : Type} (arrivals : List (Nat × α)) :
    Nat → Nat → List α → Option (List α)
  | 0, _, outResults => some outResults
  | remaining + 1, i, outResults =>
    match arrivals[i]? with
    | some (idx, r) =>
      if idx < outResults.length then
        placeResults arrivals remaining (i + 1) (outResults.set idx r)
      else none
    | none => none

/-- The loop `for (i = 0; i < nrow; i++) outList[std::to_string(i)] = subList` of `simulate`
in the full-result mode, where `subList` is built from `results_complete[i]`. -/
def listComplete {β : Type} (arrivals : List (Nat × β)) :
    Nat → Nat → List (Nat × β) → Option (List (Nat × β))
  | 0, _, outList => some outList
  | remaining + 1, i, outList =>
    match arrivals[i]? with
    | some (_, r) => listComplete arrivals remaining (i + 1) (outList ++ [(i, r)])
    | none => none

/-- `spatialSEIRModel::simulate`, from the point of view of the caller: `nrow` jobs are sent,
`nrow` tagged responses are received, and the output is assembled.  The responses are given in
the order of their arrival, `doubles` in the scalar modes and `completes` in the full-result
mode.  Returns the output and the call counter `ncalls`. -/
def simulate {α β : Type} [Zero α] (ncalls nrow : Nat) (sim_type_atom : SimAtom)
    (doubles : List (Nat × α)) (completes : List (Nat × β)) :
    Option (SimOutput α β × Nat) :=
  match sim_type_atom with
  | SimAtom.other => some (SimOutput.error, ncalls)
  | SimAtom.sim_result_atom =>
    (listComplete completes nrow 0 []).map (fun l => (SimOutput.complete l, ncalls + 1))
  | SimAtom.sim_atom =>
    (placeResults doubles nrow 0 (List.replicate nrow 0)).map
      (fun v => (SimOutput.result v, ncalls + 1))
  | SimAtom.sample_atom =>
    (placeResults doubles nrow 0 (List.replicate nrow 0)).map
      (fun v => (SimOutput.result v, ncalls + 1))

/-! ## `evalPrior` -/

/-- The library functions called by the fitting code, taken as parameters: `std::exp`, and
the densities `R::dnorm(x, mu, sigma, 0)`, `R::dbeta(x, a, b, 0)` and
`R::dgamma(x, shape, scale, 0)` (the last argument `0` asks for the density, not its
logarithm). -/
structure Rmath (α : Type) where
  exp : α → α
  dnorm : α → α → α → α
  dbeta : α → α → α → α
  dgamma : α → α → α → α

/-- The fields of the model components that `evalPrior` and `sample` read: the column counts
of the exposure covariates `X`, of the reinfection covariates `X_rs` and of the data `Y`, the
number of distance matrices `dm_list.size()`, and the prior parameters. -/
structure ModelComponents (α : Type) where
  X_cols : Nat
  exposure_betaPriorMean : List α
  exposure_betaPriorPrecision : List α
  X_rs_cols : Nat
  reinfection_betaPriorMean : List α
  reinfection_betaPriorPrecision : List α
  Y_cols : Nat
  dm_list_size : Nat
  spatial_prior : List α
  gamma_ei_params : List α
  gamma_ir_params : List α

/-- A quotient of doubles.  With a zero divisor the double is an infinity or a NaN, which the
field does not have: the embedding then has no value. -/
def divide? {α : Type} [LinearOrderedField α] (a b : α) : Option α :=
  if b = 0 then none else some (a / b)

/-- The flag `hasReinfection = (reinfectionModelInstance -> betaPriorPrecision)(0) > 0`. -/
def hasReinfection {α : Type} [LinearOrderedField α] (M : ModelComponents α) : Option Bool :=
  (M.reinfection_betaPriorPrecision[0]?).map (fun p => decide (p > 0))

/-- The count `nBeta = (exposureModelInstance -> X).cols()`. -/
def nBeta {α : Type} (M : ModelComponents α) : Nat :=
  M.X_cols

/-- The count `nBetaRS = (reinfectionModelInstance -> X_rs).cols()*hasReinfection`. -/
def nBetaRS {α : Type} (M : ModelComponents α) (hasReinf : Bool) : Nat :=
  if hasReinf then M.X_rs_cols else 0

/-- The count `nRho = (distanceModelInstance -> dm_list).size()*hasSpatial`, with
`hasSpatial = (dataModelInstance -> Y).cols() > 1`. -/
def nRho {α : Type} (M : ModelComponents α) : Nat :=
  if M.Y_cols > 1 then M.dm_list_size else 0

/-- The loops `for (i = 0; i < n; i++) { outPrior *= R::dnorm(param_vector(paramIdx),
betaPriorMean(i), 1.0/betaPriorPrecision(i), 0); paramIdx++; }` of `evalPrior`, at coefficient
`i` with `remaining` coefficients to go. -/
def priorNormalLoop {α : Type} [LinearOrderedField α] (L : Rmath α)
    (param_vector betaPriorMean betaPriorPrecision : List α) :
    Nat → Nat → Nat → α → Option α
  | 0, _, _, outPrior => some outPrior
  | remaining + 1, i, paramIdx, outPrior =>
    match param_vector[paramIdx]?, betaPriorMean[i]?, betaPriorPrecision[i]? with
    | some x, some m, some p =>
      match divide? 1 p with
      | some sd =>
        priorNormalLoop L param_vector betaPriorMean betaPriorPrecision remaining (i + 1)
          (paramIdx + 1) (outPrior * L.dnorm x m sd)
      | none => none
    | _, _, _ => none

/-- The loop `for (i = 0; i < nRho; i++) { constr += param_vector(paramIdx); outPrior *=
R::dbeta(param_vector(paramIdx), spatial_prior(0), spatial_prior(1), 0); paramIdx++; }` of
`evalPrior`; returns `outPrior` and `constr`. -/
def priorRhoLoop {α : Type} [LinearOrderedField α] (L : Rmath α)
    (param_vector spatial_prior : List α) : Nat → Nat → α → α → Option (α × α)
  | 0, _, outPrior, constr => some (outPrior, constr)
  | remaining + 1, paramIdx, outPrior, constr =>
    match param_vector[paramIdx]?, spatial_prior[0]?, spatial_prior[1]? with
    | some x, some a, some b =>
      priorRhoLoop L param_vector spatial_prior remaining (paramIdx + 1)
        (outPrior * L.dbeta x a b) (constr + x)
    | _, _, _ => none

/-- The statement `outPrior *= R::dgamma(param_vector(paramIdx), params(0), 1.0/params(1),
0)` of `evalPrior`. -/
def priorGammaFactor {α : Type} [LinearOrderedField α] (L : Rmath α)
    (param_vector params : List α) (paramIdx : Nat) (outPrior : α) : Option α :=
  match param_vector[paramIdx]?, params[0]?, params[1]? with
  | some x, some shape, some rate =>
    match divide? 1 rate with
    | some scale => some (outPrior * L.dgamma x shape scale)
    | none => none
  | _, _, _ => none

/-- `spatialSEIRModel::evalPrior`. -/
def evalPrior {α : Type} [LinearOrderedField α] (L : Rmath α) (M : ModelComponents α)
    (param_vector : List α) : Option α :=
  match hasReinfection M with
  | none => none
  | some hasReinf =>
    match priorNormalLoop L param_vector M.exposure_betaPriorMean
        M.exposure_betaPriorPrecision (nBeta M) 0 0 1 with
    | none => none
    | some out1 =>
      match (if nBetaRS M hasReinf > 0 then
          priorNormalLoop L param_vector M.reinfection_betaPriorMean
            M.reinfection_betaPriorPrecision (nBetaRS M hasReinf) 0 (nBeta M) out1
        else some out1) with
      | none => none
      | some out2 =>
        match (if nRho M > 0 then
            (priorRhoLoop L param_vector M.spatial_prior (nRho M)
              (nBeta M + nBetaRS M hasReinf) out2 0).map
              (fun oc => oc.1 * (if oc.2 ≤ 1 then 1 else 0))
          else some out2) with
        | none => none
        | some out3 =>
          match priorGammaFactor L param_vector M.gamma_ei_params
              (nBeta M + nBetaRS M hasReinf + nRho M) out3 with
          | none => none
          | some out4 =>
            priorGammaFactor L param_vector M.gamma_ir_params
              (nBeta M + nBetaRS M hasReinf + nRho M + 1) out4

/-! ### Notions used to state the properties of `evalPrior` -/

/-- Rational stand-ins for the library functions, to instantiate the statements on the
rationals: `1 + x²` for the exponential, `1 / (1 + (x - μ)²)` for the normal density, the
uniform density on `[0, 1]` for the beta density and `1 / (1 + x)` on `x ≥ 0` for the gamma
density; each is positive exactly on the support of the function it stands for. -/
def exampleRmath : Rmath ℚ :=
  { exp := fun x => 1 + x * x
    dnorm := fun x m _ => 1 / (1 + (x - m) * (x - m))
    dbeta := fun x _ _ => if 0 ≤ x ∧ x ≤ 1 then 1 else 0
    dgamma := fun x _ _ => if 0 ≤ x then 1 / (1 + x) else 0 }

/-- Model components with one exposure coefficient, no reinfection (precision zero), two
locations' worth of data columns and two distance matrices, hence two spatial weights. -/
def exampleComponents : ModelComponents ℚ :=
  { X_cols := 1, exposure_betaPriorMean := [0], exposure_betaPriorPrecision := [1],
    X_rs_cols := 1, reinfection_betaPriorMean := [0], reinfection_betaPriorPrecision := [0],
    Y_cols := 2, dm_list_size := 2, spatial_prior := [1, 1],
    gamma_ei_params := [1, 1], gamma_ir_params := [1, 1] }

/-- A parameter vector `[beta, rho1, rho2, gamma_EI, gamma_IR]` whose spatial weights sum to
`3/4`. -/
def exampleParamVector : List ℚ := [0, 1 / 2, 1 / 4, 1, 1]

/-- A parameter vector whose spatial weights sum to `5/4`. -/
def exampleParamVectorOutside : List ℚ := [0, 1 / 2, 3 / 4, 1, 1]

/-! ## `updateWeights` -/

/-- The values of the macros `ALG_BasicABC` and `ALG_ModifiedBeaumont2009`, whose header is
not among the sources: taken as parameters. -/
structure AlgorithmCodes where
  ALG_BasicABC : Int
  ALG_ModifiedBeaumont2009 : Int
deriving DecidableEq

/-- The fields of the sampling configuration that the fitting loop reads (the shrinkage factor
is the field `shrinkage` of `ModelState`).  The counts are natural numbers. -/
structure samplingControl (α : Type) where
  algorithm : Int
  epochs : Nat
  max_batches : Nat
  batch_size : Nat
  accept_fraction : α

/-- The members of `spatialSEIRModel` that the fitting loop reads or writes, beyond those of
`ModelState`.  `weights` is `none` once the weights are no longer followed by the embedding:
a quotient by zero made one of them an infinity or a NaN, or a read was out of bounds. -/
structure FitState (α : Type) where
  model : ModelState α
  previousSamples : samplingResultSet α
  weights : Option (List α)
  tau : List α
  param_matrix : NumericMatrix α
  batchNum : Nat
  ncalls : Nat
deriving DecidableEq

/-- The loop `for (k = 0; k < nParams; k++) tmpWeightComp *= (1.0/tau[k])` of
`updateWeights`. -/
def tauLoop {α : Type} [LinearOrderedField α] (tau : List α) : Nat → Nat → α → Option α
  | 0, _, tmpWeightComp => some tmpWeightComp
  | remaining + 1, k, tmpWeightComp =>
    match tau[k]? with
    | some t =>
      match divide? 1 t with
      | some q => tauLoop tau remaining (k + 1) (tmpWeightComp * q)
      | none => none
    | none => none

/-- The loop `for (k = 0; k < nParams; k++) tmpWeight *= std::exp(1.0*std::pow(
(currentSamples.params(i,k) - previousSamples.params(j,k)/(2.0*tau[k])), 2))` of
`updateWeights`. -/
def kernelLoop {α : Type} [LinearOrderedField α] (exp : α → α)
    (current previous : NumericMatrix α) (tau : List α) (i j : Nat) : Nat → Nat → α → Option α
  | 0, _, tmpWeight => some tmpWeight
  | remaining + 1, k, tmpWeight =>
    match current.get? i k, previous.get? j k, tau[k]? with
    | some c, some p, some t =>
      match divide? p (2 * t) with
      | some q =>
        kernelLoop exp current previous tau i j remaining (k + 1)
          (tmpWeight * exp (1 * (c - q) ^ 2))
      | none => none
    | _, _, _ => none

/-- The loop `for (j = 0; j < N; j++) { tmpWeight = tmpWeightComp; ...;
newWeights(i) += weights(j)*tmpWeight; }` of `updateWeights`, with `acc` the running value of
`newWeights(i)`. -/
def mixtureLoop {α : Type} [LinearOrderedField α] (exp : α → α)
    (current previous : NumericMatrix α) (tau weights : List α) (tmpWeightComp : α)
    (nParams i : Nat) : Nat → Nat → α → Option α
  | 0, _, acc => some acc
  | remaining + 1, j, acc =>
    match kernelLoop exp current previous tau i j nParams 0 tmpWeightComp, weights[j]? with
    | some tmpWeight, some w =>
      mixtureLoop exp current previous tau weights tmpWeightComp nParams i remaining (j + 1)
        (acc + w * tmpWeight)
    | _, _ => none

/-- The body of the loop over `i` of `updateWeights`: the value given to `newWeights(i)`,
`evalPrior(currentSamples.params(i, _))/newWeights(i)` with `newWeights(i)` the sum computed
by the loop over `j`. -/
def unnormalizedWeight {α : Type} [LinearOrderedField α] (L : Rmath α)
    (M : ModelComponents α) (current previous : NumericMatrix α) (tau weights : List α)
    (tmpWeightComp : α) (N nParams i : Nat) : Option α :=
  match mixtureLoop L.exp current previous tau weights tmpWeightComp nParams i N 0 0,
        current.rows[i]? with
  | some denominator, some row =>
    match evalPrior L M row with
    | some prior => divide? prior denominator
    | none => none
  | _, _ => none

/-- The loop `for (i = 0; i < N; i++) { ...; totalWeight += newWeights(i); }` of
`updateWeights`; returns `newWeights` (its entries `0 .. i-1` so far) and `totalWeight`. -/
def newWeightsLoop {α : Type} [LinearOrderedField α] (L : Rmath α) (M : ModelComponents α)
    (current previous : NumericMatrix α) (tau weights : List α) (tmpWeightComp : α)
    (N nParams : Nat) : Nat → Nat → List α → α → Option (List α × α)
  | 0, _, newWeights, totalWeight => some (newWeights, totalWeight)
  | remaining + 1, i, newWeights, totalWeight =>
    match unnormalizedWeight L M current previous tau weights tmpWeightComp N nParams i with
    | some v =>
      newWeightsLoop L M current previous tau weights tmpWeightComp N nParams remaining (i + 1)
        (newWeights ++ [v]) (totalWeight + v)
    | none => none

/-- The loop `for (i = 0; i < N; i++) weights(i) = newWeights(i)/totalWeight` of
`updateWeights`. -/
def normalizeLoop {α : Type} [LinearOrderedField α] (newWeights : List α) (totalWeight : α) :
    Nat → Nat → List α → Option (List α)
  | 0, _, weights => some weights
  | remaining + 1, i, weights =>
    match newWeights[i]? with
    | some v =>
      match divide? v totalWeight with
      | some q =>
        if i < weights.length then
          normalizeLoop newWeights totalWeight remaining (i + 1) (weights.set i q)
        else none
      | none => none
    | none => none

/-- The reweighting of `updateWeights`: the new contents of `weights`. -/
def reweightValues {α : Type} [LinearOrderedField α] (L : Rmath α) (M : ModelComponents α)
    (currentSamples previousSamples : samplingResultSet α) (tau weights : List α) :
    Option (List α) :=
  let N := currentSamples.params.nrow
  let nParams := currentSamples.params.ncol
  match tauLoop tau nParams 0 1 with
  | some tmpWeightComp =>
    match newWeightsLoop L M currentSamples.params previousSamples.params tau weights
        tmpWeightComp N nParams N 0 [] 0 with
    | some (newWeights, totalWeight) => normalizeLoop newWeights totalWeight N 0 weights
    | none => none
  | none => none

/-- `spatialSEIRModel::updateWeights`. -/
def updateWeights {α : Type} [LinearOrderedField α] (L : Rmath α) (M : ModelComponents α)
    (K : AlgorithmCodes) (control : samplingControl α) (st : FitState α) : FitState α :=
  if control.algorithm = K.ALG_ModifiedBeaumont2009 ∧ st.model.reweight = 1 then
    { st with
      model := { st.model with reweight := 0 }
      weights := st.weights.bind (fun w =>
        reweightValues L M st.model.currentSamples st.previousSamples st.tau w) }
  else st

/-! ### Notions used to state the properties of `updateWeights` -/

/-- The exponent of the kernel factor of dimension `k` as the code computes it: the square
of `current[i,k] - previous[j,k] / (2 * tau[k])`. -/
def kernelExponent {α : Type} [LinearOrderedField α] (c p t : α) : α :=
  (c - p / (2 * t)) ^ 2

/-- The exponent of the kernel factor of dimension `k` in the words of the specification: the
square of `(current[i,k] - previous[j,k] / 2) / tau[k]`. -/
def kernelExponentSpec {α : Type} [LinearOrderedField α] (c p t : α) : α :=
  ((c - p / 2) / t) ^ 2

/-- The mixture-kernel denominator of current particle `ci`, for a given exponent: the sum
over the previous particles `j` of `weights[j] * prod_k exp(exponent) * prod_k (1/tau[k])`. -/
def mixtureDenominator {α : Type} [LinearOrderedField α] (exp : α → α)
    (exponent : α → α → α → α) (ci : List α) (previousRows : List (List α))
    (tau weights : List α) (N nParams : Nat) : α :=
  ((List.range' 0 N).map (fun j =>
    weights.getD j 0 *
      (((List.range' 0 nParams).map (fun k =>
          exp (exponent (ci.getD k 0) ((previousRows.getD j []).getD k 0) (tau.getD k 0)))).prod *
        ((List.range' 0 nParams).map (fun k => 1 / tau.getD k 0)).prod))).sum

/-- The inputs of the reweighting are well formed: the current and the previous parameter
matrix have the same shape `N × nParams`, `tau` has `nParams` entries, none of them zero, and
`weights` has `N` entries. -/
def ReweightWellFormed {α : Type} [LinearOrderedField α] (current previous : NumericMatrix α)
    (tau weights : List α) : Prop :=
  (∀ r ∈ current.rows, r.length = current.ncol) ∧
  previous.ncol = current.ncol ∧ (∀ r ∈ previous.rows, r.length = current.ncol) ∧
  previous.rows.length = current.rows.length ∧
  tau.length = current.ncol ∧ (∀ t ∈ tau, t ≠ 0) ∧
  weights.length = current.rows.length

/-! ### Example data for `updateWeights` -/

/-- Stand-in values of the two algorithm codes. -/
def exampleCodes : AlgorithmCodes :=
  { ALG_BasicABC := 1, ALG_ModifiedBeaumont2009 := 2 }

/-- An SMC configuration: two generations of at most three batches of four simulations. -/
def exampleSmcControl : samplingControl ℚ :=
  { algorithm := 2, epochs := 2, max_batches := 3, batch_size := 4, accept_fraction := 1 / 2 }

/-- A fitting state at the end of a generation of two particles over the five parameters of
`exampleComponents`, with the reweight flag set. -/
def exampleReweightState : FitState ℚ :=
  { model :=
      { currentSamples :=
          { result := [1, 2],
            params := { ncol := 5, rows := [exampleParamVector, [0, 1 / 4, 1 / 4, 1, 2]] } },
        currentAccepted := [], currentAcceptedResult := [], currentEps := 1, minEps := 1,
        maxEps := 2, updateFraction := 0, reweight := 1, shrinkage := 1 / 2 },
    previousSamples :=
      { result := [3, 4],
        params := { ncol := 5, rows := [[0, 1 / 2, 1 / 4, 1, 1], [0, 1 / 4, 1 / 2, 2, 1]] } },
    weights := some [1 / 2, 1 / 2],
    tau := [1, 1, 1, 1, 1],
    param_matrix := { ncol := 5, rows := [] },
    batchNum := 1,
    ncalls := 1 }

/-- The state `exampleReweightState` with a zero bandwidth for the first parameter. -/
def exampleZeroTauState : FitState ℚ :=
  { exampleReweightState with tau := [0, 1, 1, 1, 1] }

/-- The state `exampleReweightState` with both current particles outside the support of the
prior: their spatial weights sum to `5/4`. -/
def exampleZeroPriorState : FitState ℚ :=
  { exampleReweightState with
    model :=
      { exampleReweightState.model with
        currentSamples :=
          { result := [1, 2],
            params :=
              { ncol := 5, rows := [exampleParamVectorOutside, exampleParamVectorOutside] } } } }

/-- Model components without coefficients and without spatial weights: the two parameters are
`gamma_ei` and `gamma_ir`. -/
def exampleGammaComponents : ModelComponents ℚ :=
  { X_cols := 0, exposure_betaPriorMean := [], exposure_betaPriorPrecision := [],
    X_rs_cols := 0, reinfection_betaPriorMean := [0], reinfection_betaPriorPrecision := [0],
    Y_cols := 1, dm_list_size := 0, spatial_prior := [1, 1],
    gamma_ei_params := [1, 1], gamma_ir_params := [1, 1] }

/-- A fitting state at the end of a generation of two particles over the two parameters of
`exampleGammaComponents`, with the reweight flag set. -/
def exampleSmallReweightState : FitState ℚ :=
  { model :=
      { currentSamples :=
          { result := [1, 2], params := { ncol := 2, rows := [[1, 1], [1, 3]] } },
        currentAccepted := [], currentAcceptedResult := [], currentEps := 1, minEps := 1,
        maxEps := 2, updateFraction := 0, reweight := 1, shrinkage := 1 / 2 },
    previousSamples := { result := [3, 4], params := { ncol := 2, rows := [[0, 0], [0, 0]] } },
    weights := some [1 / 2, 1 / 2],
    tau := [1, 1],
    param_matrix := { ncol := 2, rows := [] },
    batchNum := 1,
    ncalls := 1 }

/-- The unnormalised weights that the loop over the current particles computes from
`exampleSmallReweightState`. -/
def exampleNewWeights : List ℚ := [1 / 16, 1 / 1312]

/-- The sum of `exampleNewWeights`. -/
def exampleTotalWeight : ℚ := 83 / 1312

/-! ### Notions used to state the update fraction of `combineResults_basic` -/

/-- The run of the zipper merge from slot `i` on, one entry per iteration: the position in the
sorted incoming batch (`idx2`) whose element was compared against a current element in that
iteration, and whether the incoming element was the one written to the slot (the incoming
cursor advanced). -/
def zipperTrace {α : Type} [LinearOrder α] (currentResults : List α)
    (currentParams : NumericMatrix α) (newResults : List α) (newParams : NumericMatrix α)
    (currentIndex newIndex : List Nat) : Nat → Nat → ZipperState α → List (Nat × Bool)
  | 0, _, _ => []
  | remaining + 1, i, s =>
    match zipperStep currentResults currentParams newResults newParams currentIndex newIndex
        i s with
    | some s1 =>
      (s.idx2, decide (s1.idx2 = s.idx2 + 1)) ::
        zipperTrace currentResults currentParams newResults newParams currentIndex newIndex
          remaining (i + 1) s1
    | none => []

/-- The run of the zipper merge of a call of `combineResults_basic`. -/
def basicTrace {α : Type} [LinearOrder α] (currentResults : List α)
    (currentParams : NumericMatrix α) (newResults : List α) (newParams : NumericMatrix α) :
    List (Nat × Bool) :=
  zipperTrace currentResults currentParams newResults newParams (sort_indexes currentResults)
    (sort_indexes newResults) (sort_indexes currentResults).length 0
    (zipperInit currentResults currentParams)

/-- The number of incoming elements that were selected into the output. -/
def selectedIncoming (trace : List (Nat × Bool)) : Nat :=
  (trace.filter (fun e => e.2)).length

/-- The number of incoming elements that were considered: the distinct positions of the sorted
incoming batch that were compared against a current element. -/
def consideredIncoming (trace : List (Nat × Bool)) : Nat :=
  ((trace.map (fun e => e.1)).dedup).length

/-! ## `sample`: the batch loop -/

/-- The fatal errors raised with `Rcpp::stop` by `sample` and `updateParams`: "Simulation batch
size must be at least as large as final sample size" and "Unknown algorithm number". -/
inductive FatalError where
  | batchSizeTooSmall
  | unknownAlgorithm
deriving DecidableEq

/-- The outcome of a step that may raise a fatal error: a new state, a fatal error raised in a
state, or no outcome (an access out of bounds, an arithmetic result that the field does not
have, or a wait that does not end). -/
inductive Step (σ : Type) where
  | ok (s : σ)
  | fatal (message : FatalError) (s : σ)
  | undefined
deriving DecidableEq

/-- What one round of the batch loop receives from outside.  `drawn` is the batch of parameter
rows that the random draws of the parameter update write to `param_matrix` (in the source it
has the shape of `param_matrix`, `batch_size` rows of `nParams` entries), `none` when the
update does not return (the proposal loop of `updateParams_SMC` only ends with a proposal of
non-zero prior density).  `arrivals` are the tagged responses `(idx, result)` of the workers
in the order of their arrival. -/
structure RoundInput (α : Type) where
  drawn : Option (NumericMatrix α)
  arrivals : List (Nat × α)

/-- The column `M( _, k)` of a list of rows. -/
def columnLoop {α : Type} (k : Nat) : List (List α) → Option (List α)
  | [] => some []
  | r :: rows =>
    match r[k]?, columnLoop k rows with
    | some v, some c => some (v :: c)
    | _, _ => none

/-- The loop `for (i = 0; i < nParams; i++) tau(i) = std::max(updateFraction, 0.01) *
Rcpp::sd(currentSamples.params( _, i))` of `updateParams_SMC`; the library function `Rcpp::sd`
is the parameter `sd`. -/
def bandwidthLoop {α : Type} [LinearOrderedField α] (sd : List α → α) (updateFraction : ℚ)
    (params : NumericMatrix α) : Nat → Nat → List α → Option (List α)
  | 0, _, tau => some tau
  | remaining + 1, i, tau =>
    match columnLoop i params.rows with
    | some c =>
      if i < params.ncol ∧ i < tau.length then
        bandwidthLoop sd updateFraction params remaining (i + 1)
          (tau.set i (max (updateFraction : α) (1 / 100) * sd c))
      else none
    | none => none

/-- The reads `weights(0) .. weights(csSize - 1)` and the writes `cumulativeWeights[0]`,
`cumulativeWeights[csSize-1]` of `updateParams_SMC` are in bounds.  Weights that are no longer
followed are taken to be readable. -/
def weightsReadable {α : Type} (weights : Option (List α)) (csSize : Nat) : Bool :=
  match weights with
  | some w => decide (1 ≤ csSize ∧ csSize ≤ w.length)
  | none => decide (1 ≤ csSize)

/-- `spatialSEIRModel::updateParams_SMC`: the current sample set is backed up in
`previousSamples`, the bandwidths `tau` are recomputed, and `param_matrix` receives the
resampled and perturbed proposals.  The random draws are not modelled: the batch they produce
is the input `drawn`. -/
def updateParams_SMC {α : Type} [LinearOrderedField α] (sd : List α → α)
    (drawn : Option (NumericMatrix α)) (st : FitState α) : Option (FitState α) :=
  let csSize := st.model.currentSamples.params.nrow
  let nParams := st.model.currentSamples.params.ncol
  match bandwidthLoop sd st.model.updateFraction st.model.currentSamples.params nParams 0
      st.tau with
  | some tau =>
    if weightsReadable st.weights csSize then
      drawn.map (fun P =>
        { st with previousSamples := st.model.currentSamples, tau := tau, param_matrix := P })
    else none
  | none => none

/-- `spatialSEIRModel::updateParams`.  The draws of `updateParams_prior` are not modelled: the
batch they write to `param_matrix` is the input `drawn`. -/
def updateParams {α : Type} [LinearOrderedField α] (sd : List α → α) (K : AlgorithmCodes)
    (control : samplingControl α) (input : RoundInput α) (st : FitState α) :
    Step (FitState α) :=
  if st.batchNum = 0 ∨ control.algorithm = K.ALG_BasicABC then
    match input.drawn with
    | some P => Step.ok { st with param_matrix := P }
    | none => Step.undefined
  else if control.algorithm = K.ALG_ModifiedBeaumont2009 then
    match updateParams_SMC sd input.drawn st with
    | some st1 => Step.ok st1
    | none => Step.undefined
  else Step.fatal FatalError.unknownAlgorithm st

/-- `spatialSEIRModel::combineResults`. -/
def combineResults {α : Type} [LinearOrderedField α] (K : AlgorithmCodes)
    (control : samplingControl α) (st : FitState α) (currentResults : List α)
    (currentParams : NumericMatrix α) (newResults : List α) (newParams : NumericMatrix α) :
    Option (samplingResultSet α × ModelState α) :=
  if st.batchNum = 0 ∨ control.algorithm = K.ALG_BasicABC then
    combineResults_basic st.model currentResults currentParams newResults newParams
  else combineResults_SMC st.model newResults newParams

/-- The variables of the batch loop of `sample`: the members of the model and the local
`incompleteBatches`. -/
structure LoopState (α : Type) where
  st : FitState α
  incompleteBatches : Nat
deriving DecidableEq

/-- One round of the loop `while (batchNum < nBatches && incompleteBatches < max_batches)` of
`sample`: parameter update, dispatch, merge, update of the counters, reweighting.  The input
of the round is the one numbered by the dispatch counter `ncalls`.  The progress messages of
the verbose mode and `Rcpp::checkUserInterrupt()` are left out. -/
def sampleRound {α : Type} [LinearOrderedField α] (sd : List α → α) (L : Rmath α)
    (M : ModelComponents α) (K : AlgorithmCodes) (control : samplingControl α)
    (inputs : Nat → RoundInput α) (s : LoopState α) : Step (LoopState α) :=
  match updateParams sd K control (inputs s.st.ncalls) s.st with
  | Step.ok st1 =>
    match simulate st1.ncalls st1.param_matrix.nrow SimAtom.sample_atom
        (inputs s.st.ncalls).arrivals ([] : List (Nat × Unit)) with
    | some (SimOutput.result newResults, ncalls) =>
      let st2 : FitState α := { st1 with ncalls := ncalls }
      match combineResults K control st2 st2.model.currentSamples.result
          st2.model.currentSamples.params newResults st2.param_matrix with
      | some (out, model) =>
        let st3 : FitState α := { st2 with model := { model with currentSamples := out } }
        let s4 : LoopState α :=
          if control.algorithm = K.ALG_ModifiedBeaumont2009 ∧ st3.model.reweight = 0
              ∧ st3.batchNum ≠ 0 then
            { st := st3, incompleteBatches := s.incompleteBatches + 1 }
          else
            { st := { st3 with batchNum := st3.batchNum + 1 }, incompleteBatches := 0 }
        Step.ok { st := updateWeights L M K control s4.st,
                  incompleteBatches := s4.incompleteBatches }
      | none => Step.undefined
    | _ => Step.undefined
  | Step.fatal message st1 =>
    Step.fatal message { st := st1, incompleteBatches := s.incompleteBatches }
  | Step.undefined => Step.undefined

/-- The result of `sample`: the returned sample set with the state of the model, a fatal
error raised in a state, no result, or the loop budget `fuel` of the embedding used up. -/
inductive SampleResult (α : Type) where
  | returned (out : samplingResultSet α) (st : FitState α)
  | fatal (message : FatalError) (st : FitState α)
  | undefined
  | outOfFuel
deriving DecidableEq

/-- The loop `while (batchNum < nBatches && incompleteBatches < max_batches)` of `sample`,
followed by the return of `currentSamples`; `fuel` bounds the number of rounds. -/
def sampleLoop {α : Type} [LinearOrderedField α] (sd : List α → α) (L : Rmath α)
    (M : ModelComponents α) (K : AlgorithmCodes) (control : samplingControl α)
    (inputs : Nat → RoundInput α) (nBatches : Nat) : Nat → LoopState α → SampleResult α
  | 0, s =>
    if s.st.batchNum < nBatches ∧ s.incompleteBatches < control.max_batches then
      SampleResult.outOfFuel
    else SampleResult.returned s.st.model.currentSamples s.st
  | fuel + 1, s =>
    if s.st.batchNum < nBatches ∧ s.incompleteBatches < control.max_batches then
      match sampleRound sd L M K control inputs s with
      | Step.ok s1 => sampleLoop sd L M K control inputs nBatches fuel s1
      | Step.fatal message s1 => SampleResult.fatal message s1.st
      | Step.undefined => SampleResult.undefined
    else SampleResult.returned s.st.model.currentSamples s.st

/-- The local `nBatches` of `sample`: `std::ceil(((1.0*N)/r)/bs)` for the basic algorithm,
`epochs` otherwise.  The counts are natural numbers: a negative ceiling, which lets no round
run, is `0`. -/
def nBatches? {α : Type} [LinearOrderedField α] [FloorRing α] (K : AlgorithmCodes)
    (control : samplingControl α) (N : Nat) : Option Nat :=
  if control.algorithm = K.ALG_BasicABC then
    match divide? (1 * (N : α)) control.accept_fraction with
    | some q =>
      match divide? q (control.batch_size : α) with
      | some b => some (Nat.ceil b)
      | none => none
    | none => none
  else some control.epochs

/-- The state of the model when the batch loop of `sample` starts: `tau` and `param_matrix`
are allocated (uninitialised in the source, zeros here; both are written before they are
read), the counters are reset, the weights of the SMC algorithm are `1/N`, and the current
sample set has `N` infinite distances and zero parameters.  The value
`std::numeric_limits<double>::infinity()`, which the field does not have, is the parameter
`infinity`. -/
def sampleInit {α : Type} [LinearOrderedField α] (K : AlgorithmCodes)
    (control : samplingControl α) (infinity : α) (N nParams : Nat) (st : FitState α) :
    FitState α :=
  { st with
    tau := List.replicate nParams 0
    batchNum := 0
    weights :=
      if control.algorithm = K.ALG_ModifiedBeaumont2009 then
        some (List.replicate N (1 / (N : α)))
      else st.weights
    model :=
      { st.model with
        reweight := 0
        currentSamples :=
          { result := List.replicate N infinity,
            params := { ncol := nParams, rows := List.replicate N (List.replicate nParams 0) } } }
    param_matrix :=
      { ncol := nParams, rows := List.replicate control.batch_size (List.replicate nParams 0) } }

/-- `spatialSEIRModel::sample` with `N = nSamples(0)`, from the state `st` of the model. -/
def sample {α : Type} [LinearOrderedField α] [FloorRing α] (sd : List α → α) (L : Rmath α)
    (M : ModelComponents α) (K : AlgorithmCodes) (control : samplingControl α) (infinity : α)
    (inputs : Nat → RoundInput α) (fuel N : Nat) (st : FitState α) : SampleResult α :=
  match hasReinfection M, nBatches? K control N with
  | some hasReinf, some nBatches =>
    if control.batch_size < N then
      SampleResult.fatal FatalError.batchSizeTooSmall st
    else
      sampleLoop sd L M K control inputs nBatches fuel
        { st := sampleInit K control infinity N (nBeta M + nBetaRS M hasReinf + nRho M + 2) st,
          incompleteBatches := 0 }
  | _, _ => SampleResult.undefined

/-! ### Notions used to state the properties of `sample` -/

/-- The fatal error of a result, if it is one. -/
def SampleResult.fatalError? {α : Type} : SampleResult α → Option FatalError
  | SampleResult.fatal message _ => some message
  | _ => none

/-- The state of the model in which `sample` returned or failed. -/
def SampleResult.state? {α : Type} : SampleResult α → Option (FitState α)
  | SampleResult.returned _ st => some st
  | SampleResult.fatal _ st => some st
  | _ => none

/-- The state after a step, if it produced one. -/
def Step.state? {σ : Type} : Step σ → Option σ
  | Step.ok s => some s
  | Step.fatal _ s => some s
  | Step.undefined => none

/-- A stand-in for `Rcpp::sd`. -/
def exampleSd : List ℚ → ℚ :=
  fun _ => 1

/-- A stand-in for the infinite distance. -/
def exampleInfinity : ℚ := 1000

/-- A batch of four parameter rows over the five parameters of `exampleComponents`. -/
def exampleDrawn : NumericMatrix ℚ :=
  { ncol := 5,
    rows := [exampleParamVector, [0, 1 / 4, 1 / 4, 1, 2], [0, 1 / 4, 1 / 2, 2, 1],
             [1, 1 / 4, 1 / 4, 1, 1]] }

/-- The inputs of the rounds: always the batch `exampleDrawn`; the distances `[3, 1, 4, 2]`
(arriving out of order) in the first round and `[5, 6, 7, 8]` in every later round. -/
def exampleInputs : Nat → RoundInput ℚ :=
  fun k =>
    { drawn := some exampleDrawn,
      arrivals := if k = 0 then [(1, 1), (0, 3), (3, 2), (2, 4)]
                  else [(0, 5), (1, 6), (2, 7), (3, 8)] }

/-- A model before `sample` is called: no dispatch made, nothing accumulated. -/
def exampleFreshState : FitState ℚ :=
  { model := { exampleState with currentSamples := { result := [], params := { ncol := 0, rows := [] } } },
    previousSamples := { result := [], params := { ncol := 0, rows := [] } },
    weights := some [],
    tau := [],
    param_matrix := { ncol := 0, rows := [] },
    batchNum := 0,
    ncalls := 0 }

/-- The pairs (distance, parameter row) of a sample set: position `k` pairs `results[k]` with
row `k` of `params`. -/
def pairedRows {α : Type} (results : List α) (params : NumericMatrix α) : List (α × List α) :=
  List.zip results params.rows

/-! ## `distanceModel` -/

/-- The members of `distanceModel` that `addDistanceMatrix` reads or writes. -/
structure distanceModel (α : Type) where
  numLocations : Int
  dm_list : List (NumericMatrix α)
deriving DecidableEq

/-- The constructor `distanceModel::distanceModel()`: `numLocations = -1`, and `dm_list` is
empty. -/
def distanceModel.new {α : Type} : distanceModel α :=
  { numLocations := -1, dm_list := [] }

/-- The errors raised with `::Rf_error` by `addDistanceMatrix`: "Distance matrix must be
square." and "Dimension does not match previously added distance matrix". -/
inductive DistanceError where
  | notSquare
  | dimensionMismatch
deriving DecidableEq

/-- The outcome of `addDistanceMatrix`: the model after the call, an error raised with the
model as it is then, or no outcome (an access out of bounds). -/
inductive AddResult (α : Type) where
  | ok (m : distanceModel α)
  | error (message : DistanceError) (m : distanceModel α)
  | undefined
deriving DecidableEq

/-- Read `M[k]`, the element `k` of the column-major storage of an `Rcpp::NumericMatrix`: the
entry of row `k % nrow` and column `k / nrow`. -/
def NumericMatrix.linear? {α : Type} (M : NumericMatrix α) (k : Nat) : Option α :=
  if 0 < M.nrow then M.get? (k % M.nrow) (k / M.nrow) else none

/-- The loop `for (j = 0; j < distMat.ncol(); j++) new_mat(i,j) = distMat[i,j]` of
`addDistanceMatrix`, at column `j` with `remaining` columns to go.  The subscript `i,j` is a
comma expression, whose value is `j`: the element read is `distMat[j]`. -/
def addMatrixRow {α : Type} (distMat : NumericMatrix α) (i : Nat) :
    Nat → Nat → NumericMatrix α → Option (NumericMatrix α)
  | 0, _, new_mat => some new_mat
  | remaining + 1, j, new_mat =>
    match distMat.linear? j with
    | some v =>
      match new_mat.set? i j v with
      | some m => addMatrixRow distMat i remaining (j + 1) m
      | none => none
    | none => none

/-- The loop `for (i = 0; i < distMat.nrow(); i++)` of `addDistanceMatrix`, at row `i` with
`remaining` rows to go. -/
def addMatrixRows {α : Type} (distMat : NumericMatrix α) :
    Nat → Nat → NumericMatrix α → Option (NumericMatrix α)
  | 0, _, new_mat => some new_mat
  | remaining + 1, i, new_mat =>
    match addMatrixRow distMat i distMat.ncol 0 new_mat with
    | some m => addMatrixRows distMat remaining (i + 1) m
    | none => none

/-- `distanceModel::addDistanceMatrix`.  The matrix `new_mat` is allocated with the shape of
`distMat` (uninitialised in the source, zeros here; every entry is written by the loops). -/
def addDistanceMatrix {α : Type} [Zero α] (m : distanceModel α) (distMat : NumericMatrix α) :
    AddResult α :=
  if distMat.nrow ≠ distMat.ncol then
    AddResult.error DistanceError.notSquare m
  else if m.numLocations ≠ -1 ∧ (distMat.nrow : Int) ≠ m.numLocations then
    AddResult.error DistanceError.dimensionMismatch m
  else
    match addMatrixRows distMat distMat.nrow 0
        { ncol := distMat.ncol,
          rows := List.replicate distMat.nrow (List.replicate distMat.ncol 0) } with
    | some new_mat =>
      AddResult.ok { numLocations := (distMat.nrow : Int), dm_list := m.dm_list ++ [new_mat] }
    | none => AddResult.undefined

/-! ### Notions used to state the properties of `distanceModel` -/

/-- A sequence of calls of `addDistanceMatrix`: a call that raises an error is abandoned and
the model stays as it is. -/
def addDistanceMatrices {α : Type} [Zero α] :
    distanceModel α → List (NumericMatrix α) → Option (distanceModel α)
  | m, [] => some m
  | m, distMat :: rest =>
    match addDistanceMatrix m distMat with
    | AddResult.ok m1 => addDistanceMatrices m1 rest
    | AddResult.error _ m1 => addDistanceMatrices m1 rest
    | AddResult.undefined => none

/-- The matrix is square of dimension `n`: `n` columns and `n` rows of `n` entries. -/
def IsSquare {α : Type} (M : NumericMatrix α) (n : Nat) : Prop :=
  M.ncol = n ∧ M.rows.length = n ∧ ∀ r ∈ M.rows, r.length = n

/-- Every row of the matrix has `ncol` entries. -/
def WellFormedMatrix {α : Type} (M : NumericMatrix α) : Prop :=
  ∀ r ∈ M.rows, r.length = M.ncol

/-- Every matrix of `dm_list` is square with dimension `numLocations`. -/
def DistanceInv {α : Type} (m : distanceModel α) : Prop :=
  ∀ D ∈ m.dm_list, ∃ n : Nat, (n : Int) = m.numLocations ∧ IsSquare D n

/-! ### Example data for `distanceModel` -/

/-- The distances between two locations that are five apart. -/
def exampleDistances : NumericMatrix ℚ :=
  { ncol := 2, rows := [[0, 5], [5, 0]] }

/-- What `addDistanceMatrix` appends for `exampleDistances`. -/
def exampleDistancesAdded : NumericMatrix ℚ :=
  { ncol := 2, rows := [[0, 5], [0, 5]] }

/-- A matrix of two rows and three columns. -/
def exampleNotSquare : NumericMatrix ℚ :=
  { ncol := 3, rows := [[0, 1, 2], [1, 0, 3]] }

/-- The distances between three locations. -/
def exampleDistancesThree : NumericMatrix ℚ :=
  { ncol := 3, rows := [[0, 1, 2], [1, 0, 3], [2, 3, 0]] }

/-! ## `updateParams_prior` -/

/-- The random draws of `updateParams_prior`: the successive values returned by each of the
four distribution objects `standardNormal`, `rhoDist`, `gammaEIDist` and `gammaIRDist`. -/
structure PriorDraws (α : Type) where
  standardNormal : Nat → α
  rhoDist : Nat → α
  gammaEIDist : Nat → α
  gammaIRDist : Nat → α

/-- The state of `updateParams_prior`: the member `param_matrix` and, for each distribution
object, the number of values drawn from it so far. -/
structure PriorState (α : Type) where
  param_matrix : NumericMatrix α
  nNormal : Nat
  nRhoDraws : Nat
  nGammaEI : Nat
  nGammaIR : Nat
deriving DecidableEq

/-- The reads that set up the samplers of `updateParams_prior`: `spatial_prior(0)`,
`1.0/spatial_prior(1)`, `gamma_ei_params(0)`, `1.0/gamma_ei_params(1)`, `gamma_ir_params(0)`
and `1.0/gamma_ir_params(1)`. -/
def samplerSetup {α : Type} [LinearOrderedField α] (M : ModelComponents α) : Option Unit :=
  match M.spatial_prior[0]?, M.spatial_prior[1]?, M.gamma_ei_params[0]?,
        M.gamma_ei_params[1]?, M.gamma_ir_params[0]?, M.gamma_ir_params[1]? with
  | some _, some b, some _, some e, some _, some g =>
    match divide? 1 b, divide? 1 e, divide? 1 g with
    | some _, some _, some _ => some ()
    | _, _, _ => none
  | _, _, _, _, _, _ => none

/-- The loops `for (j = first; j < last; j++) param_matrix(i, j) = betaPriorMean(j) +
standardNormal(*generator) / betaPriorPrecision(j)` of `updateParams_prior`, at column `j`
with `remaining` columns to go: the loop over the exposure coefficients (`j` from `0`) and
the loop over the reinfection coefficients (`j` from `nBeta`).  Both index the mean and the
precision with the column `j`. -/
def drawBetaLoop {α : Type} [LinearOrderedField α] (betaPriorMean betaPriorPrecision : List α)
    (draws : PriorDraws α) (i : Nat) : Nat → Nat → PriorState α → Option (PriorState α)
  | 0, _, s => some s
  | remaining + 1, j, s =>
    match betaPriorMean[j]?, betaPriorPrecision[j]? with
    | some mean, some precision =>
      match divide? (draws.standardNormal s.nNormal) precision with
      | some q =>
        match s.param_matrix.set? i j (mean + q) with
        | some P =>
          drawBetaLoop betaPriorMean betaPriorPrecision draws i remaining (j + 1)
            { s with param_matrix := P, nNormal := s.nNormal + 1 }
        | none => none
      | none => none
    | _, _ => none

/-- The first loop over the rows of `updateParams_prior`, at row `i` with `remaining` rows to
go: the exposure coefficients, then `gamma_ei` in column `gammaCol = nBeta + nBetaRS + nRho`
and `gamma_ir` in column `gammaCol + 1`. -/
def drawBetaGammaRows {α : Type} [LinearOrderedField α] (M : ModelComponents α)
    (draws : PriorDraws α) (gammaCol : Nat) : Nat → Nat → PriorState α → Option (PriorState α)
  | 0, _, s => some s
  | remaining + 1, i, s =>
    match drawBetaLoop M.exposure_betaPriorMean M.exposure_betaPriorPrecision draws i
        (nBeta M) 0 s with
    | some s1 =>
      match s1.param_matrix.set? i gammaCol (draws.gammaEIDist s1.nGammaEI) with
      | some P1 =>
        match P1.set? i (gammaCol + 1) (draws.gammaIRDist s1.nGammaIR) with
        | some P2 =>
          drawBetaGammaRows M draws gammaCol remaining (i + 1)
            { s1 with param_matrix := P2, nGammaEI := s1.nGammaEI + 1,
                      nGammaIR := s1.nGammaIR + 1 }
        | none => none
      | none => none
    | none => none

/-- The loop over the rows that draws the reinfection coefficients, columns `nBeta` to
`nBeta + nBetaRS - 1`, at row `i` with `remaining` rows to go. -/
def drawReinfectionRows {α : Type} [LinearOrderedField α] (M : ModelComponents α)
    (draws : PriorDraws α) (nBetaRS : Nat) : Nat → Nat → PriorState α → Option (PriorState α)
  | 0, _, s => some s
  | remaining + 1, i, s =>
    match drawBetaLoop M.reinfection_betaPriorMean M.reinfection_betaPriorPrecision draws i
        nBetaRS (nBeta M) s with
    | some s1 => drawReinfectionRows M draws nBetaRS remaining (i + 1) s1
    | none => none

/-- One attempt of the spatial-weight loop: `for (j = first; j < first + nRho; j++)
{ param_matrix(i, j) = rhoDist(*generator); rhoTot += param_matrix(i,j); }`, at column `j`
with `remaining` columns to go; returns the state and `rhoTot`. -/
def drawRhoAttempt {α : Type} [LinearOrderedField α] (draws : PriorDraws α) (i : Nat) :
    Nat → Nat → PriorState α → α → Option (PriorState α × α)
  | 0, _, s, rhoTot => some (s, rhoTot)
  | remaining + 1, j, s, rhoTot =>
    match s.param_matrix.set? i j (draws.rhoDist s.nRhoDraws) with
    | some P =>
      drawRhoAttempt draws i remaining (j + 1)
        { s with param_matrix := P, nRhoDraws := s.nRhoDraws + 1 }
        (rhoTot + draws.rhoDist s.nRhoDraws)
    | none => none

/-- The loop `while (rhoTot > 1.0 && rhoItrs < 100) { rhoTot = 0.0; ...; rhoItrs++; }` of
`updateParams_prior` for row `i`; `fuel` bounds the number of attempts (without fuel left and
with the condition true there is no result).  Returns the state, `rhoTot` and `rhoItrs`. -/
def drawRhoLoop {α : Type} [LinearOrderedField α] (draws : PriorDraws α) (i nRho first : Nat) :
    Nat → Nat → PriorState α → α → Option (PriorState α × α × Nat)
  | 0, rhoItrs, s, rhoTot =>
    if rhoTot > 1 ∧ rhoItrs < 100 then none else some (s, rhoTot, rhoItrs)
  | fuel + 1, rhoItrs, s, rhoTot =>
    if rhoTot > 1 ∧ rhoItrs < 100 then
      match drawRhoAttempt draws i nRho first s 0 with
      | some (s1, rhoTot1) => drawRhoLoop draws i nRho first fuel (rhoItrs + 1) s1 rhoTot1
      | none => none
    else some (s, rhoTot, rhoItrs)

/-- The loop over the rows that draws the spatial weights, at row `i` with `remaining` rows to
go: `rhoTot = 2.0; rhoItrs = 0;` and the loop of attempts.  The message printed when the last
attempt still sums to more than one is left out. -/
def drawRhoRows {α : Type} [LinearOrderedField α] (draws : PriorDraws α) (nRho first : Nat) :
    Nat → Nat → PriorState α → Option (PriorState α)
  | 0, _, s => some s
  | remaining + 1, i, s =>
    match drawRhoLoop draws i nRho first 100 0 s 2 with
    | some (s1, _, _) => drawRhoRows draws nRho first remaining (i + 1) s1
    | none => none

/-- `spatialSEIRModel::updateParams_prior`, on the matrix `param_matrix` of `batch_size` rows
and the draw counters of the state. -/
def updateParams_prior {α : Type} [LinearOrderedField α] (M : ModelComponents α)
    (control : samplingControl α) (draws : PriorDraws α) (s : PriorState α) :
    Option (PriorState α) :=
  match hasReinfection M, samplerSetup M with
  | some hasReinf, some _ =>
    match drawBetaGammaRows M draws (nBeta M + nBetaRS M hasReinf + nRho M)
        control.batch_size 0 s with
    | some s1 =>
      match (if hasReinf then
               drawReinfectionRows M draws (nBetaRS M hasReinf) control.batch_size 0 s1
             else some s1) with
      | some s2 =>
        if M.Y_cols > 1 then
          drawRhoRows draws (nRho M) (nBeta M + nBetaRS M hasReinf) control.batch_size 0 s2
        else some s2
      | none => none
    | none => none
  | _, _ => none

/-! ### Notions used to state the properties of `updateParams_prior` -/

/-- The sum of the `nRho` values of the attempt that starts with the draw number `c` of
`rhoDist`. -/
def attemptSum {α : Type} [LinearOrderedField α] (draws : PriorDraws α) (c nRho : Nat) : α :=
  ((List.range' c nRho).map draws.rhoDist).sum

/-! ### Example data for `updateParams_prior` -/

/-- Model components with one exposure coefficient and one active reinfection coefficient
(precision one), no spatial weights.  The reinfection prior has one mean and one precision. -/
def exampleReinfectionComponents : ModelComponents ℚ :=
  { X_cols := 1, exposure_betaPriorMean := [0], exposure_betaPriorPrecision := [1],
    X_rs_cols := 1, reinfection_betaPriorMean := [7], reinfection_betaPriorPrecision := [1],
    Y_cols := 1, dm_list_size := 0, spatial_prior := [1, 1],
    gamma_ei_params := [1, 1], gamma_ir_params := [1, 1] }

/-- The components `exampleReinfectionComponents` with a second, unused entry in the mean and
in the precision of the reinfection prior. -/
def examplePaddedComponents : ModelComponents ℚ :=
  { exampleReinfectionComponents with
    reinfection_betaPriorMean := [7, 3], reinfection_betaPriorPrecision := [1, 2] }

/-- A configuration with batches of one candidate row. -/
def exampleSingleControl : samplingControl ℚ :=
  { algorithm := 1, epochs := 1, max_batches := 1, batch_size := 1, accept_fraction := 1 }

/-- Draws: the standard-normal values `1, 2, 3, ...`, the spatial weights `3/4, 3/4, 1/4,
1/4, ...` (one quarter from the third draw on), `gamma_ei = 1/2` and `gamma_ir = 1/3`. -/
def exampleDraws : PriorDraws ℚ :=
  { standardNormal := fun k => (k : ℚ) + 1,
    rhoDist := fun k => if k < 2 then 3 / 4 else 1 / 4,
    gammaEIDist := fun _ => 1 / 2,
    gammaIRDist := fun _ => 1 / 3 }

/-- One candidate row of four parameters, nothing drawn yet. -/
def examplePriorState : PriorState ℚ :=
  { param_matrix := { ncol := 4, rows := [[0, 0, 0, 0]] },
    nNormal := 0, nRhoDraws := 0, nGammaEI := 0, nGammaIR := 0 }

/-! ## List facts -/

theorem take_succ_set {α : Type} (v : α) :
    ∀ (l : List α) (i : Nat), i < l.length → (l.set i v).take (i + 1) = l.take i ++ [v]
  | [], _, h => by simp at h
  | _ :: _, 0, _ => by simp
  | a :: l, i + 1, h => by
    have hi : i < l.length := by simpa using h
    simp [take_succ_set v l i hi]

theorem drop_of_getElem? {α : Type} {l : List α} {i : Nat} {a : α} (h : l[i]? = some a) :
    l.drop i = a :: l.drop (i + 1) := by
  obtain ⟨hi, rfl⟩ := List.getElem?_eq_some.mp h
  exact List.drop_eq_getElem_cons hi

/-! ## `sort_indexes` -/

theorem sort_indexes_length {α : Type} [LinearOrder α] (v : List α) :
    (sort_indexes v).length = v.length := by
  simp [sort_indexes, List.length_insertionSort]

theorem sort_indexes_values {α : Type} [LinearOrder α] (v : List α) :
    ((List.finRange v.length).insertionSort (idxLE v)).map v.get
      = v.insertionSort (fun a b => a ≤ b) := by
  have h := List.map_insertionSort (idxLE v) (fun a b : α => a ≤ b) v.get
    (List.finRange v.length) (fun a _ b _ => Iff.rfl)
  rw [h, List.finRange_map_get]

/-- Looking a distance up through the sorted positions reads the sorted distances. -/
theorem sort_indexes_lookup {α : Type} [LinearOrder α] (v : List α) (idx k : Nat)
    (h : (sort_indexes v)[idx]? = some k) :
    v[k]? = (sortAscending v)[idx]? := by
  rw [sortAscending, ← sort_indexes_values v]
  simp only [sort_indexes, List.getElem?_map] at h ⊢
  cases hL : ((List.finRange v.length).insertionSort (idxLE v))[idx]? with
  | none => simp [hL] at h
  | some f =>
    simp only [hL, Option.map_some', Option.some.injEq] at h ⊢
    subst h
    simp

/-! ## The zipper merge, on the distances -/

theorem mergeAscending_cons_gt {α : Type} [LinearOrder α] {a b : α} (xs ys : List α)
    (h : a > b) : mergeAscending (a :: xs) (b :: ys) = b :: mergeAscending (a :: xs) ys := by
  simp [mergeAscending, List.cons_merge_cons, not_le.mpr h]

theorem mergeAscending_cons_le {α : Type} [LinearOrder α] {a b : α} (xs ys : List α)
    (h : a ≤ b) : mergeAscending (a :: xs) (b :: ys) = a :: mergeAscending xs (b :: ys) := by
  simp [mergeAscending, List.cons_merge_cons, h]

/-- One iteration of the zipper merge moves the head of the remaining merge into slot `i`. -/
theorem zipperStep_results {α : Type} [LinearOrder α] (cur : List α) (curP : NumericMatrix α)
    (nw : List α) (nwP : NumericMatrix α) (i : Nat) (s s1 : ZipperState α)
    (h : zipperStep cur curP nw nwP (sort_indexes cur) (sort_indexes nw) i s = some s1) :
    i < s.outResults.length ∧ s1.outResults.length = s.outResults.length ∧ s1.err = s.err ∧
    s1.idx1 + s1.idx2 = s.idx1 + s.idx2 + 1 ∧
    s1.outResults.take (i + 1) ++
        mergeAscending ((sortAscending cur).drop s1.idx1) ((sortAscending nw).drop s1.idx2)
      = s.outResults.take i ++
        mergeAscending ((sortAscending cur).drop s.idx1) ((sortAscending nw).drop s.idx2) := by
  unfold zipperStep at h
  split at h
  · rename_i k1 k2 hk1 hk2
    split at h
    · rename_i c n hc hn
      rw [sort_indexes_lookup cur _ _ hk1] at hc
      rw [sort_indexes_lookup nw _ _ hk2] at hn
      rw [drop_of_getElem? hc, drop_of_getElem? hn]
      split at h
      · rename_i hgt
        split at h
        · rename_i hi
          split at h
          · simp only [Option.some.injEq] at h
            subst h
            simp [take_succ_set, hi, mergeAscending_cons_gt _ _ hgt, drop_of_getElem? hc]
            omega
          · simp at h
        · simp at h
      · rename_i hgt
        split at h
        · rename_i hle
          split at h
          · rename_i hi
            split at h
            · simp only [Option.some.injEq] at h
              subst h
              simp [take_succ_set, hi, mergeAscending_cons_le _ _ hle, drop_of_getElem? hn]
              omega
            · simp at h
          · simp at h
        · exact absurd (le_of_not_lt hgt) ‹_›
    · simp at h
  · simp at h

/-- The whole loop, from slot `i` on: the slots `i .. i + remaining - 1` receive the first
`remaining` elements of the remaining merge, in order. -/
theorem zipperLoop_results {α : Type} [LinearOrder α] (cur : List α) (curP : NumericMatrix α)
    (nw : List α) (nwP : NumericMatrix α) :
    ∀ (remaining i : Nat) (s s1 : ZipperState α),
      zipperLoop cur curP nw nwP (sort_indexes cur) (sort_indexes nw) remaining i s = some s1 →
      (remaining = 0 ∨ i + remaining ≤ s.outResults.length) ∧
      s1.outResults.length = s.outResults.length ∧ s1.err = s.err ∧
      s1.idx1 + s1.idx2 = s.idx1 + s.idx2 + remaining ∧
      s1.outResults.take (i + remaining) ++
          mergeAscending ((sortAscending cur).drop s1.idx1) ((sortAscending nw).drop s1.idx2)
        = s.outResults.take i ++
          mergeAscending ((sortAscending cur).drop s.idx1) ((sortAscending nw).drop s.idx2)
  | 0, i, s, s1, h => by
    simp only [zipperLoop, Option.some.injEq] at h
    subst h
    simp
  | remaining + 1, i, s, s1, h => by
    simp only [zipperLoop] at h
    split at h
    · rename_i s0 hs0
      obtain ⟨hi, hlen, herr, hsum, hmerge⟩ := zipperStep_results cur curP nw nwP i s s0 hs0
      obtain ⟨hb, hlen1, herr1, hsum1, hmerge1⟩ :=
        zipperLoop_results cur curP nw nwP remaining (i + 1) s0 s1 h
      refine ⟨Or.inr ?_, by omega, by omega, by omega, ?_⟩
      · rcases hb with hb | hb <;> omega
      · rw [← hmerge, ← hmerge1]
        congr 2
        omega
    · simp at h

theorem mergeAscending_eq_sort {α : Type} [LinearOrder α] (cur nw : List α) :
    mergeAscending (sortAscending cur) (sortAscending nw) = sortAscending (cur ++ nw) := by
  have hs1 : (sortAscending cur).Sorted (fun a b => a ≤ b) := List.sorted_insertionSort _ _
  have hs2 : (sortAscending nw).Sorted (fun a b => a ≤ b) := List.sorted_insertionSort _ _
  refine List.eq_of_perm_of_sorted ?_ (List.Sorted.merge hs1 hs2)
    (List.sorted_insertionSort _ _)
  refine (List.merge_perm_append _).trans ?_
  refine List.Perm.trans ?_ (List.perm_insertionSort _ _).symm
  exact List.Perm.append (List.perm_insertionSort _ _) (List.perm_insertionSort _ _)

/-- What a returning call of `combineResults_basic` computes. -/
theorem combineResults_basic_spec {α : Type} [LinearOrder α] (st st1 : ModelState α)
    (cur : List α) (curP : NumericMatrix α) (nw : List α) (nwP : NumericMatrix α)
    (out : samplingResultSet α)
    (h : combineResults_basic st cur curP nw nwP = some (out, st1)) :
    ∃ s lo hi,
      zipperLoop cur curP nw nwP (sort_indexes cur) (sort_indexes nw) cur.length 0
        (zipperInit cur curP) = some s ∧
      out.result = s.outResults ∧ out.params = s.outParams ∧
      out.result = (sortAscending (cur ++ nw)).take cur.length ∧
      out.result.length = cur.length ∧
      s.idx1 + s.idx2 = cur.length ∧ s.err = 0 ∧
      out.result[0]? = some lo ∧ out.result[out.result.length - 1]? = some hi ∧
      st1 = { st with
              minEps := WithTop.some lo
              maxEps := hi
              currentEps := hi
              updateFraction := (s.idx2 : ℚ) / ((s.idx1 + s.idx2 + s.err : Nat) : ℚ) } := by
  unfold combineResults_basic at h
  simp only [sort_indexes_length] at h
  split at h
  · rename_i s hs
    split at h
    · rename_i lo hi hlo hhi
      simp only [Option.some.injEq, Prod.mk.injEq] at h
      obtain ⟨hout, hst⟩ := h
      obtain ⟨-, hlen, herr, hsum, hmerge⟩ :=
        zipperLoop_results cur curP nw nwP cur.length 0 (zipperInit cur curP) s hs
      simp only [zipperInit, List.take_zero, List.drop_zero, List.nil_append, Nat.zero_add]
        at hlen herr hsum hmerge
      have hres : s.outResults = (sortAscending (cur ++ nw)).take cur.length := by
        rw [← mergeAscending_eq_sort, ← hmerge, ← hlen, List.take_length, List.take_left]
      subst hout
      exact ⟨s, lo, hi, hs, rfl, rfl, hres, hlen, hsum, herr, hlo, hhi, hst.symm⟩
    · simp at h
  · simp at h

/-! ## Copying a parameter row -/

theorem set_of_getElem? {α : Type} :
    ∀ {l : List α} {i : Nat} {a : α}, l[i]? = some a → l.set i a = l
  | [], _, _, h => by simp at h
  | _ :: _, 0, _, h => by
    simp only [List.getElem?_cons_zero, Option.some.injEq] at h
    simp [h]
  | _ :: l, i + 1, a, h => by
    simp only [List.getElem?_cons_succ] at h
    simp [set_of_getElem? h]

/-- The column loop overwrites the columns `j .. j + remaining - 1` of row `i` of `dst` with
the corresponding entries of the source row. -/
theorem copyRow_eq {α : Type} (srow : List α) (read : Nat → Option α)
    (hread : ∀ j, read j = srow[j]?) (i : Nat) :
    ∀ (remaining j : Nat) (dst : NumericMatrix α) (drow : List α),
      dst.rows[i]? = some drow → j + remaining ≤ dst.ncol → j + remaining ≤ drow.length →
      j + remaining ≤ srow.length →
      copyRow read i remaining j dst
        = some { ncol := dst.ncol,
                 rows := dst.rows.set i
                   (drow.take j ++ (srow.drop j).take remaining ++ drow.drop (j + remaining)) }
  | 0, j, dst, drow, hrow, _, _, _ => by
    simp [copyRow, set_of_getElem? hrow]
  | remaining + 1, j, dst, drow, hrow, hc, hd, hs => by
    have hjs : j < srow.length := by omega
    have hjd : j < drow.length := by omega
    have hjc : j < dst.ncol := by omega
    have hi : i < dst.rows.length := (List.getElem?_eq_some.mp hrow).1
    have hrd : read j = some srow[j] := by rw [hread, List.getElem?_eq_getElem hjs]
    have hset : dst.set? i j srow[j]
        = some { ncol := dst.ncol, rows := dst.rows.set i (drow.set j srow[j]) } := by
      simp [NumericMatrix.set?, hjc, hrow, hjd]
    have ih := copyRow_eq srow read hread i remaining (j + 1)
      { ncol := dst.ncol, rows := dst.rows.set i (drow.set j srow[j]) } (drow.set j srow[j])
      (by simp [hi]) (by simp only []; omega) (by simp only [List.length_set]; omega)
      (by omega)
    simp only [copyRow, hrd, hset, ih, List.set_set, Option.some.injEq,
      NumericMatrix.mk.injEq, true_and]
    congr 1
    rw [take_succ_set _ _ _ hjd, List.drop_eq_getElem_cons hjs, List.take_succ_cons,
      List.drop_set_of_lt _ _ (by omega)]
    simp [Nat.add_assoc, Nat.add_comm 1 remaining]

theorem get?_of_aligned {α : Type} {M : NumericMatrix α} {k : Nat} {srow : List α}
    (hM : ∀ r ∈ M.rows, r.length = M.ncol) (hk : M.rows[k]? = some srow) (j : Nat) :
    M.get? k j = srow[j]? := by
  have hlen : srow.length = M.ncol := hM srow (List.getElem?_mem hk)
  by_cases hj : j < M.ncol
  · simp [NumericMatrix.get?, hj, hk]
  · have : srow.length ≤ j := by omega
    simp [NumericMatrix.get?, hj, List.getElem?_eq_none this]

/-- Copying a whole row between matrices of the same width replaces row `i` by the source
row. -/
theorem copyRow_full {α : Type} (srow drow : List α) (read : Nat → Option α)
    (hread : ∀ j, read j = srow[j]?) (i : Nat) (dst : NumericMatrix α)
    (hrow : dst.rows[i]? = some drow) (hd : drow.length = dst.ncol)
    (hs : srow.length = dst.ncol) :
    copyRow read i dst.ncol 0 dst = some { ncol := dst.ncol, rows := dst.rows.set i srow } := by
  have h1 : (srow.drop 0).take dst.ncol = srow := by rw [← hs]; simp
  have h2 : drow.drop (0 + dst.ncol) = [] := by rw [← hd]; simp
  rw [copyRow_eq srow read hread i dst.ncol 0 dst drow hrow (by omega) (by omega) (by omega),
    h1, h2]
  simp

/-! ## The zipper merge, on aligned sample sets -/

theorem sort_indexes_lt {α : Type} [LinearOrder α] (v : List α) (idx k : Nat)
    (h : (sort_indexes v)[idx]? = some k) : k < v.length := by
  simp only [sort_indexes, List.getElem?_map] at h
  cases hL : ((List.finRange v.length).insertionSort (idxLE v))[idx]? with
  | none => simp [hL] at h
  | some f =>
    simp only [hL, Option.map_some', Option.some.injEq] at h
    subst h
    exact f.isLt

theorem aligned_set {α : Type} {results : List α} {params : NumericMatrix α} {p : Nat}
    (h : Aligned results params p) (i : Nat) (v : α) (row : List α) (hrow : row.length = p) :
    Aligned (results.set i v) { ncol := p, rows := params.rows.set i row } p := by
  obtain ⟨_, hlen, hrows⟩ := h
  refine ⟨rfl, by simpa using hlen, ?_⟩
  intro r hr
  rcases List.mem_or_eq_of_mem_set hr with hr | hr
  · exact hrows r hr
  · exact hr ▸ hrow

/-- One iteration of the zipper merge on aligned data, spelled out: the smaller head is
written with its parameter row, and on equal heads it is the current one. -/
theorem zipperStep_eq {α : Type} [LinearOrder α] (cur : List α) (curP : NumericMatrix α)
    (nw : List α) (nwP : NumericMatrix α) (currentIndex newIndex : List Nat) (p : Nat)
    (hcur : Aligned cur curP p) (hnw : Aligned nw nwP p) (i : Nat) (s : ZipperState α)
    (hs : Aligned s.outResults s.outParams p) (hi : i < s.outResults.length)
    (k1 k2 : Nat) (hk1 : currentIndex[s.idx1]? = some k1) (hk2 : newIndex[s.idx2]? = some k2)
    (c n : α) (hc : cur[k1]? = some c) (hn : nw[k2]? = some n) :
    ∃ crow nrow, curP.rows[k1]? = some crow ∧ nwP.rows[k2]? = some nrow ∧
      zipperStep cur curP nw nwP currentIndex newIndex i s
        = some (if c > n then
            { outResults := s.outResults.set i n,
              outParams := { ncol := p, rows := s.outParams.rows.set i nrow },
              idx1 := s.idx1, idx2 := s.idx2 + 1, err := s.err }
          else
            { outResults := s.outResults.set i c,
              outParams := { ncol := p, rows := s.outParams.rows.set i crow },
              idx1 := s.idx1 + 1, idx2 := s.idx2, err := s.err }) := by
  obtain ⟨hcp, hclen, hcrows⟩ := hcur
  obtain ⟨hnp, hnlen, hnrows⟩ := hnw
  obtain ⟨hsp, hslen, hsrows⟩ := hs
  have hk1lt : k1 < curP.rows.length := hclen ▸ (List.getElem?_eq_some.mp hc).1
  have hk2lt : k2 < nwP.rows.length := hnlen ▸ (List.getElem?_eq_some.mp hn).1
  have hilt : i < s.outParams.rows.length := hslen ▸ hi
  refine ⟨curP.rows[k1], nwP.rows[k2], List.getElem?_eq_getElem hk1lt,
    List.getElem?_eq_getElem hk2lt, ?_⟩
  have hdrow : s.outParams.rows[i]? = some s.outParams.rows[i] := List.getElem?_eq_getElem hilt
  have hdlen : (s.outParams.rows[i]).length = s.outParams.ncol := by
    rw [hsp]; exact hsrows _ (List.getElem_mem _)
  have hcopyN := copyRow_full nwP.rows[k2] s.outParams.rows[i] (fun j => nwP.get? k2 j)
    (get?_of_aligned (fun r hr => by rw [hnp]; exact hnrows r hr)
      (List.getElem?_eq_getElem hk2lt)) i s.outParams hdrow hdlen
    (by rw [hsp]; exact hnrows _ (List.getElem_mem _))
  have hcopyC := copyRow_full curP.rows[k1] s.outParams.rows[i] (fun j => curP.get? k1 j)
    (get?_of_aligned (fun r hr => by rw [hcp]; exact hcrows r hr)
      (List.getElem?_eq_getElem hk1lt)) i s.outParams hdrow hdlen
    (by rw [hsp]; exact hcrows _ (List.getElem_mem _))
  rw [hsp] at hcopyN hcopyC
  unfold zipperStep
  simp only [hk1, hk2, hc, hn, hi, hcp, hcopyN, hcopyC, if_true]
  by_cases hgt : c > n
  · simp [hgt]
  · simp [hgt, le_of_not_lt hgt]

theorem zipperStep_returns {α : Type} [LinearOrder α] (cur : List α) (curP : NumericMatrix α)
    (nw : List α) (nwP : NumericMatrix α) (p : Nat)
    (hcur : Aligned cur curP p) (hnw : Aligned nw nwP p) (i : Nat) (s : ZipperState α)
    (hs : Aligned s.outResults s.outParams p) (hi : i < s.outResults.length)
    (h1 : s.idx1 < cur.length) (h2 : s.idx2 < nw.length) :
    ∃ s1, zipperStep cur curP nw nwP (sort_indexes cur) (sort_indexes nw) i s = some s1 ∧
      Aligned s1.outResults s1.outParams p := by
  have hlt1 : s.idx1 < (sort_indexes cur).length := by rw [sort_indexes_length]; exact h1
  have hlt2 : s.idx2 < (sort_indexes nw).length := by rw [sort_indexes_length]; exact h2
  have hk1 := List.getElem?_eq_getElem hlt1
  have hk2 := List.getElem?_eq_getElem hlt2
  have hc := List.getElem?_eq_getElem (sort_indexes_lt cur _ _ hk1)
  have hn := List.getElem?_eq_getElem (sort_indexes_lt nw _ _ hk2)
  obtain ⟨crow, nrow, hcrow, hnrow, hstep⟩ := zipperStep_eq cur curP nw nwP _ _ p hcur hnw i s
    hs hi _ _ hk1 hk2 _ _ hc hn
  refine ⟨_, hstep, ?_⟩
  split
  · exact aligned_set hs i _ nrow (hnw.2.2 _ (List.getElem?_mem hnrow))
  · exact aligned_set hs i _ crow (hcur.2.2 _ (List.getElem?_mem hcrow))

/-- On aligned sample sets with at least as many incoming as current distances the loop runs
to its end. -/
theorem zipperLoop_returns {α : Type} [LinearOrder α] (cur : List α) (curP : NumericMatrix α)
    (nw : List α) (nwP : NumericMatrix α) (p : Nat)
    (hcur : Aligned cur curP p) (hnw : Aligned nw nwP p) :
    ∀ (remaining i : Nat) (s : ZipperState α),
      Aligned s.outResults s.outParams p → s.idx1 + s.idx2 ≤ i →
      i + remaining ≤ s.outResults.length → i + remaining ≤ cur.length →
      i + remaining ≤ nw.length →
      ∃ s1, zipperLoop cur curP nw nwP (sort_indexes cur) (sort_indexes nw) remaining i s
        = some s1
  | 0, _, s, _, _, _, _, _ => ⟨s, rfl⟩
  | remaining + 1, i, s, hs, hsum, hout, hc, hn => by
    obtain ⟨s0, hstep, hs0⟩ := zipperStep_returns cur curP nw nwP p hcur hnw i s hs
      (by omega) (by omega) (by omega)
    obtain ⟨_, hlen, _, hsum0, _⟩ := zipperStep_results cur curP nw nwP i s s0 hstep
    obtain ⟨s1, hloop⟩ := zipperLoop_returns cur curP nw nwP p hcur hnw remaining (i + 1) s0
      hs0 (by omega) (by omega) (by omega) (by omega)
    exact ⟨s1, by simp only [zipperLoop, hstep, hloop]⟩

/-- `combineResults_basic` returns on aligned sample sets with `1 ≤ N ≤ batch size`. -/
theorem combineResults_basic_returns {α : Type} [LinearOrder α] (st : ModelState α)
    (cur : List α) (curP : NumericMatrix α) (nw : List α) (nwP : NumericMatrix α) (p : Nat)
    (hcur : Aligned cur curP p) (hnw : Aligned nw nwP p)
    (hN : 1 ≤ cur.length) (hbatch : cur.length ≤ nw.length) :
    ∃ out st1, combineResults_basic st cur curP nw nwP = some (out, st1) := by
  obtain ⟨s, hs⟩ := zipperLoop_returns cur curP nw nwP p hcur hnw cur.length 0
    (zipperInit cur curP) hcur (by simp [zipperInit]) (by simp [zipperInit]) (by simp)
    (by simpa using hbatch)
  obtain ⟨-, hlen, -⟩ := zipperLoop_results cur curP nw nwP cur.length 0 _ s hs
  simp only [zipperInit] at hlen
  have h0 : 0 < s.outResults.length := by omega
  have h1 : s.outResults.length - 1 < s.outResults.length := by omega
  unfold combineResults_basic
  simp only [sort_indexes_length, hs, List.getElem?_eq_getElem h0, List.getElem?_eq_getElem h1]
  exact ⟨_, _, rfl⟩

/-- On aligned sample sets the distances and cursors after an iteration are determined by the
two heads alone. -/
theorem zipperStep_heads {α : Type} [LinearOrder α] (cur : List α) (curP : NumericMatrix α)
    (nw : List α) (nwP : NumericMatrix α) (p : Nat)
    (hcur : Aligned cur curP p) (hnw : Aligned nw nwP p) (i : Nat) (s : ZipperState α)
    (hs : Aligned s.outResults s.outParams p) (hi : i < s.outResults.length)
    (h1 : s.idx1 < cur.length) (h2 : s.idx2 < nw.length) :
    ∃ c n t, (sortAscending cur)[s.idx1]? = some c ∧ (sortAscending nw)[s.idx2]? = some n ∧
      zipperStep cur curP nw nwP (sort_indexes cur) (sort_indexes nw) i s = some t ∧
      Aligned t.outResults t.outParams p ∧
      t.outResults = s.outResults.set i (if c > n then n else c) ∧
      t.idx1 = (if c > n then s.idx1 else s.idx1 + 1) ∧
      t.idx2 = (if c > n then s.idx2 + 1 else s.idx2) ∧ t.err = s.err := by
  have hlt1 : s.idx1 < (sort_indexes cur).length := by rw [sort_indexes_length]; exact h1
  have hlt2 : s.idx2 < (sort_indexes nw).length := by rw [sort_indexes_length]; exact h2
  obtain ⟨k1, hk1⟩ : ∃ k1, (sort_indexes cur)[s.idx1]? = some k1 :=
    ⟨_, List.getElem?_eq_getElem hlt1⟩
  obtain ⟨k2, hk2⟩ : ∃ k2, (sort_indexes nw)[s.idx2]? = some k2 :=
    ⟨_, List.getElem?_eq_getElem hlt2⟩
  obtain ⟨c, hc⟩ : ∃ c, cur[k1]? = some c :=
    ⟨_, List.getElem?_eq_getElem (sort_indexes_lt cur _ _ hk1)⟩
  obtain ⟨n, hn⟩ : ∃ n, nw[k2]? = some n :=
    ⟨_, List.getElem?_eq_getElem (sort_indexes_lt nw _ _ hk2)⟩
  obtain ⟨crow, nrow, hcrow, hnrow, hstep⟩ := zipperStep_eq cur curP nw nwP _ _ p hcur hnw i s
    hs hi k1 k2 hk1 hk2 c n hc hn
  refine ⟨c, n, _, ?_, ?_, hstep, ?_⟩
  · rw [← sort_indexes_lookup cur _ _ hk1, hc]
  · rw [← sort_indexes_lookup nw _ _ hk2, hn]
  · by_cases hgt : c > n
    · simp only [hgt, if_true, and_self, and_true]
      exact aligned_set hs i _ nrow (hnw.2.2 _ (List.getElem?_mem hnrow))
    · simp only [hgt, if_false, and_self, and_true]
      exact aligned_set hs i _ crow (hcur.2.2 _ (List.getElem?_mem hcrow))

/-- The distances and cursors computed by the zipper merge do not depend on the parameter
rows, as long as these are aligned. -/
theorem zipperLoop_params_irrelevant {α : Type} [LinearOrder α] (cur nw : List α)
    (curP nwP curQ nwQ : NumericMatrix α) (p q : Nat)
    (hcurP : Aligned cur curP p) (hnwP : Aligned nw nwP p)
    (hcurQ : Aligned cur curQ q) (hnwQ : Aligned nw nwQ q) :
    ∀ (remaining i : Nat) (s t : ZipperState α),
      Aligned s.outResults s.outParams p → Aligned t.outResults t.outParams q →
      s.outResults = t.outResults → s.idx1 = t.idx1 → s.idx2 = t.idx2 → s.err = t.err →
      s.idx1 + s.idx2 ≤ i → i + remaining ≤ s.outResults.length →
      i + remaining ≤ cur.length → i + remaining ≤ nw.length →
      ∃ s1 t1,
        zipperLoop cur curP nw nwP (sort_indexes cur) (sort_indexes nw) remaining i s
          = some s1 ∧
        zipperLoop cur curQ nw nwQ (sort_indexes cur) (sort_indexes nw) remaining i t
          = some t1 ∧
        s1.outResults = t1.outResults ∧ s1.idx1 = t1.idx1 ∧ s1.idx2 = t1.idx2 ∧
        s1.err = t1.err
  | 0, _, s, t, _, _, hres, h1, h2, he, _, _, _, _ => ⟨s, t, rfl, rfl, hres, h1, h2, he⟩
  | remaining + 1, i, s, t, hs, ht, hres, h1, h2, he, hsum, hout, hc, hn => by
    obtain ⟨c, n, s0, hcs, hns, hstepS, hs0, hresS, h1S, h2S, heS⟩ :=
      zipperStep_heads cur curP nw nwP p hcurP hnwP i s hs (by omega) (by omega) (by omega)
    obtain ⟨d, m, t0, hct, hnt, hstepT, ht0, hresT, h1T, h2T, heT⟩ :=
      zipperStep_heads cur curQ nw nwQ q hcurQ hnwQ i t ht (by rw [← hres]; omega)
        (by omega) (by omega)
    rw [← h1, hcs] at hct
    rw [← h2, hns] at hnt
    simp only [Option.some.injEq] at hct hnt
    subst hct hnt
    have hlen0 : s0.outResults.length = s.outResults.length := by rw [hresS]; simp
    have hsum0 : s0.idx1 + s0.idx2 ≤ i + 1 := by
      rw [h1S, h2S]; split <;> omega
    obtain ⟨s1, t1, hS, hT, r1, r2, r3, r4⟩ := zipperLoop_params_irrelevant cur nw curP nwP
      curQ nwQ p q hcurP hnwP hcurQ hnwQ remaining (i + 1) s0 t0 hs0 ht0
      (by rw [hresS, hresT, hres]) (by rw [h1S, h1T, h1]) (by rw [h2S, h2T, h2])
      (by rw [heS, heT, he]) hsum0 (by omega) (by omega) (by omega)
    exact ⟨s1, t1, by simp only [zipperLoop, hstepS, hS], by simp only [zipperLoop, hstepT, hT],
      r1, r2, r3, r4⟩

/-! ## The plain-ABC merge: properties -/

/-- C1: on aligned sample sets with `N ≥ 1` current distances and at least `N` incoming ones,
`combineResults_basic` returns, and the returned distances are the first `N` elements of the
ascending sort of the current distances followed by the incoming ones (the sort being the
sorted rearrangement of that concatenation). -/
theorem combineResults_basic_top_N {α : Type} [LinearOrder α] (st : ModelState α)
    (cur : List α) (curP : NumericMatrix α) (nw : List α) (nwP : NumericMatrix α) (p : Nat)
    (hcur : Aligned cur curP p) (hnw : Aligned nw nwP p)
    (hN : 1 ≤ cur.length) (hbatch : cur.length ≤ nw.length) :
    (∃ out st1, combineResults_basic st cur curP nw nwP = some (out, st1) ∧
      out.result = (sortAscending (cur ++ nw)).take cur.length) ∧
    (sortAscending (cur ++ nw)).Sorted (fun a b => a ≤ b) ∧
    (sortAscending (cur ++ nw)).Perm (cur ++ nw) := by
  obtain ⟨out, st1, h⟩ := combineResults_basic_returns st cur curP nw nwP p hcur hnw hN hbatch
  obtain ⟨_, _, _, _, _, _, htop, _⟩ := combineResults_basic_spec st st1 cur curP nw nwP out h
  exact ⟨⟨out, st1, h, htop⟩, List.sorted_insertionSort _ _, List.perm_insertionSort _ _⟩

/-- Instance of C1 on the example sample sets. -/
theorem combineResults_basic_top_N_witness :
    Aligned exampleCurrent exampleCurrentParams 2 ∧
    Aligned exampleIncoming exampleIncomingParams 2 ∧
    1 ≤ exampleCurrent.length ∧ exampleCurrent.length ≤ exampleIncoming.length ∧
    (∃ out st1, combineResults_basic exampleState exampleCurrent exampleCurrentParams
        exampleIncoming exampleIncomingParams = some (out, st1) ∧
      out.result = (sortAscending (exampleCurrent ++ exampleIncoming)).take
        exampleCurrent.length) ∧
    (sortAscending (exampleCurrent ++ exampleIncoming)).Sorted (fun a b => a ≤ b) ∧
    (sortAscending (exampleCurrent ++ exampleIncoming)).Perm
      (exampleCurrent ++ exampleIncoming) :=
  ⟨by simp [Aligned, exampleCurrent, exampleCurrentParams],
   by simp [Aligned, exampleIncoming, exampleIncomingParams],
   by decide, by decide,
   combineResults_basic_top_N exampleState exampleCurrent exampleCurrentParams
     exampleIncoming exampleIncomingParams 2
     (by simp [Aligned, exampleCurrent, exampleCurrentParams])
     (by simp [Aligned, exampleIncoming, exampleIncomingParams])
     (by decide) (by decide)⟩

/-- C3: scenario B.  Merging the current distances `[1, 3, 5]` with the incoming distances
`[1/2, 4, 6]` (target size three) returns the distances `[1/2, 1, 3]` and leaves
`minEps = 1/2`, `maxEps = 3` and `updateFraction = 1/3`, from every state and for all aligned
parameter rows. -/
theorem combineResults_basic_scenario_B (st : ModelState ℚ) (curP nwP : NumericMatrix ℚ)
    (p : Nat) (hcur : Aligned exampleCurrent curP p) (hnw : Aligned exampleIncoming nwP p) :
    ∃ out st1, combineResults_basic st exampleCurrent curP exampleIncoming nwP
        = some (out, st1) ∧
      out.result = [1 / 2, 1, 3] ∧ st1.minEps = WithTop.some (1 / 2) ∧ st1.maxEps = 3 ∧
      st1.updateFraction = 1 / 3 := by
  obtain ⟨s1, t1, hS, hT, r1, r2, r3, r4⟩ := zipperLoop_params_irrelevant exampleCurrent
    exampleIncoming curP nwP exampleCurrentParams exampleIncomingParams p 2 hcur hnw
    (by simp [Aligned, exampleCurrent, exampleCurrentParams])
    (by simp [Aligned, exampleIncoming, exampleIncomingParams])
    exampleCurrent.length 0 (zipperInit exampleCurrent curP)
    (zipperInit exampleCurrent exampleCurrentParams) hcur
    (by simp [Aligned, zipperInit, exampleCurrent, exampleCurrentParams]) rfl rfl rfl rfl
    (by simp [zipperInit]) (by simp [zipperInit]) (by simp)
    (by simp [exampleCurrent, exampleIncoming])
  have hconcrete : zipperLoop exampleCurrent exampleCurrentParams exampleIncoming
      exampleIncomingParams (sort_indexes exampleCurrent) (sort_indexes exampleIncoming)
      exampleCurrent.length 0 (zipperInit exampleCurrent exampleCurrentParams)
      = some { outResults := [1 / 2, 1, 3],
               outParams := { ncol := 2, rows := [[5, 6], [10, 11], [30, 31]] },
               idx1 := 2, idx2 := 1, err := 0 } := by
    with_unfolding_all decide
  rw [hconcrete] at hT
  simp only [Option.some.injEq] at hT
  subst hT
  simp only [] at r1 r2 r3 r4
  have hcall : combineResults_basic st exampleCurrent curP exampleIncoming nwP
      = some ({ result := s1.outResults, params := s1.outParams },
              { st with
                minEps := WithTop.some (1 / 2)
                maxEps := 3
                currentEps := 3
                updateFraction := (s1.idx2 : ℚ) / ((s1.idx1 + s1.idx2 + s1.err : Nat) : ℚ) }) := by
    unfold combineResults_basic
    simp only [sort_indexes_length, hS, r1]
    rfl
  refine ⟨_, _, hcall, r1, rfl, rfl, ?_⟩
  simp only [r2, r3, r4]
  norm_num

/-- Instance of C3 on the example parameter rows. -/
theorem combineResults_basic_scenario_B_witness :
    Aligned exampleCurrent exampleCurrentParams 2 ∧
    Aligned exampleIncoming exampleIncomingParams 2 ∧
    ∃ out st1, combineResults_basic exampleState exampleCurrent exampleCurrentParams
        exampleIncoming exampleIncomingParams = some (out, st1) ∧
      out.result = [1 / 2, 1, 3] ∧ st1.minEps = WithTop.some (1 / 2) ∧ st1.maxEps = 3 ∧
      st1.updateFraction = 1 / 3 :=
  ⟨by simp [Aligned, exampleCurrent, exampleCurrentParams],
   by simp [Aligned, exampleIncoming, exampleIncomingParams],
   combineResults_basic_scenario_B exampleState exampleCurrentParams exampleIncomingParams 2
     (by simp [Aligned, exampleCurrent, exampleCurrentParams])
     (by simp [Aligned, exampleIncoming, exampleIncomingParams])⟩

/-- C4: after a call of `combineResults_basic` the stored `updateFraction` lies in `[0, 1]`. -/
theorem combineResults_basic_updateFraction_unit_interval {α : Type} [LinearOrder α]
    (st st1 : ModelState α) (cur : List α) (curP : NumericMatrix α) (nw : List α)
    (nwP : NumericMatrix α) (out : samplingResultSet α)
    (h : combineResults_basic st cur curP nw nwP = some (out, st1)) :
    0 ≤ st1.updateFraction ∧ st1.updateFraction ≤ 1 := by
  obtain ⟨s, lo, hi, _, _, _, _, _, hsum, herr, _, _, hst⟩ :=
    combineResults_basic_spec st st1 cur curP nw nwP out h
  subst hst
  simp only []
  constructor
  · positivity
  · apply div_le_one_of_le₀
    · exact_mod_cast (by omega : s.idx2 ≤ s.idx1 + s.idx2 + s.err)
    · positivity

/-- Instance of C4 on the example sample sets. -/
theorem combineResults_basic_updateFraction_unit_interval_witness :
    combineResults_basic exampleState exampleCurrent exampleCurrentParams
        exampleIncoming exampleIncomingParams = some (exampleMerged, exampleStateMerged) ∧
    0 ≤ exampleStateMerged.updateFraction ∧ exampleStateMerged.updateFraction ≤ 1 :=
  ⟨by with_unfolding_all decide,
   combineResults_basic_updateFraction_unit_interval exampleState exampleStateMerged
     exampleCurrent exampleCurrentParams exampleIncoming exampleIncomingParams exampleMerged
     (by with_unfolding_all decide)⟩

/-- C5, counterexample: with the single current distance `1` (parameter row `[10]`) and the
single incoming distance `1` (parameter row `[20]`) the two heads are equal; the iteration
writes the current row `[10]`, not the incoming row `[20]`, advances the current cursor and
leaves the incoming cursor at zero, and the call ends with `updateFraction = 0`. -/
theorem zipperStep_tie_incoming_not_taken :
    (∃ s1, zipperStep [(1 : ℚ)] { ncol := 1, rows := [[10]] } [1] { ncol := 1, rows := [[20]] }
        (sort_indexes [(1 : ℚ)]) (sort_indexes [(1 : ℚ)]) 0
        (zipperInit [1] { ncol := 1, rows := [[10]] }) = some s1 ∧
      s1.outParams.rows = [[10]] ∧ s1.outParams.rows ≠ [[20]] ∧ s1.idx1 = 1 ∧ s1.idx2 = 0) ∧
    combineResults_basic exampleState [1] { ncol := 1, rows := [[10]] }
        [1] { ncol := 1, rows := [[20]] }
      = some ({ result := [1], params := { ncol := 1, rows := [[10]] } },
              { exampleState with
                minEps := WithTop.some 1, maxEps := 1, currentEps := 1, updateFraction := 0 }) :=
  ⟨⟨_, by with_unfolding_all rfl, by with_unfolding_all decide, by with_unfolding_all decide,
    by with_unfolding_all decide, by with_unfolding_all decide⟩,
   by with_unfolding_all decide⟩

/-- C5, amended: in the zipper merge on aligned sample sets, whenever the smallest remaining
current distance equals the smallest remaining incoming distance, the current element and its
parameter row are written to the output slot and the current cursor advances; the incoming
cursor stays (ties go to the current element). -/
theorem zipperStep_tie_takes_current {α : Type} [LinearOrder α] (cur : List α)
    (curP : NumericMatrix α) (nw : List α) (nwP : NumericMatrix α)
    (currentIndex newIndex : List Nat) (p : Nat)
    (hcur : Aligned cur curP p) (hnw : Aligned nw nwP p) (i : Nat) (s : ZipperState α)
    (hs : Aligned s.outResults s.outParams p) (hi : i < s.outResults.length)
    (k1 k2 : Nat) (hk1 : currentIndex[s.idx1]? = some k1) (hk2 : newIndex[s.idx2]? = some k2)
    (c : α) (hc : cur[k1]? = some c) (hn : nw[k2]? = some c) :
    ∃ crow, curP.rows[k1]? = some crow ∧
      zipperStep cur curP nw nwP currentIndex newIndex i s
        = some { outResults := s.outResults.set i c,
                 outParams := { ncol := p, rows := s.outParams.rows.set i crow },
                 idx1 := s.idx1 + 1, idx2 := s.idx2, err := s.err } := by
  obtain ⟨crow, _, hcrow, _, hstep⟩ := zipperStep_eq cur curP nw nwP currentIndex newIndex p
    hcur hnw i s hs hi k1 k2 hk1 hk2 c c hc hn
  exact ⟨crow, hcrow, by simpa using hstep⟩

/-- Instance of the amended C5 on two equal heads. -/
theorem zipperStep_tie_takes_current_witness :
    ∃ crow, (({ ncol := 1, rows := [[10]] } : NumericMatrix ℚ).rows)[0]? = some crow ∧
      zipperStep [(1 : ℚ)] { ncol := 1, rows := [[10]] } [1] { ncol := 1, rows := [[20]] }
          [0] [0] 0 (zipperInit [1] { ncol := 1, rows := [[10]] })
        = some { outResults := ([(1 : ℚ)] : List ℚ).set 0 1,
                 outParams := { ncol := 1, rows := ([[10]] : List (List ℚ)).set 0 crow },
                 idx1 := 0 + 1, idx2 := 0, err := 0 } :=
  zipperStep_tie_takes_current [(1 : ℚ)] { ncol := 1, rows := [[10]] } [1]
    { ncol := 1, rows := [[20]] } [0] [0] 1 (by simp [Aligned]) (by simp [Aligned]) 0
    (zipperInit [1] { ncol := 1, rows := [[10]] }) (by simp [Aligned, zipperInit])
    (by simp [zipperInit]) 0 0 (by simp [zipperInit]) (by simp [zipperInit]) 1
    (by simp) (by simp)

/-- C6: after `combineResults_basic` returns, `minEps` is the first returned distance,
`maxEps` is the last returned distance, and `currentEps` equals `maxEps`. -/
theorem combineResults_basic_eps_bounds {α : Type} [LinearOrder α] (st st1 : ModelState α)
    (cur : List α) (curP : NumericMatrix α) (nw : List α) (nwP : NumericMatrix α)
    (out : samplingResultSet α)
    (h : combineResults_basic st cur curP nw nwP = some (out, st1)) :
    cur ≠ [] ∧
    ∃ lo hi, out.result.head? = some lo ∧ out.result.getLast? = some hi ∧
      st1.minEps = WithTop.some lo ∧ st1.maxEps = hi ∧ st1.currentEps = st1.maxEps := by
  obtain ⟨s, lo, hi, _, _, _, _, hlen, _, _, hlo, hhi, hst⟩ :=
    combineResults_basic_spec st st1 cur curP nw nwP out h
  subst hst
  refine ⟨?_, lo, hi, ?_, ?_, rfl, rfl, rfl⟩
  · intro hnil
    rw [hnil] at hlen
    rw [List.length_eq_zero.mp hlen] at hlo
    simp at hlo
  · rw [List.head?_eq_getElem?, hlo]
  · rw [List.getLast?_eq_getElem?, hhi]

/-- Instance of C6 on the example sample sets. -/
theorem combineResults_basic_eps_bounds_witness :
    combineResults_basic exampleState exampleCurrent exampleCurrentParams
        exampleIncoming exampleIncomingParams = some (exampleMerged, exampleStateMerged) ∧
    exampleCurrent ≠ [] ∧
    ∃ lo hi, exampleMerged.result.head? = some lo ∧ exampleMerged.result.getLast? = some hi ∧
      exampleStateMerged.minEps = WithTop.some lo ∧ exampleStateMerged.maxEps = hi ∧
      exampleStateMerged.currentEps = exampleStateMerged.maxEps :=
  ⟨by with_unfolding_all decide,
   combineResults_basic_eps_bounds exampleState exampleStateMerged exampleCurrent
     exampleCurrentParams exampleIncoming exampleIncomingParams exampleMerged
     (by with_unfolding_all decide)⟩

/-! ## The SMC merge: the scan -/

theorem zip_drop_cons {α β : Type} {l1 : List α} {l2 : List β} {i : Nat} {a : α} {b : β}
    (h1 : l1[i]? = some a) (h2 : l2[i]? = some b) :
    (List.zip l1 l2).drop i = (a, b) :: (List.zip l1 l2).drop (i + 1) :=
  drop_of_getElem? (List.getElem?_zip_eq_some.mpr ⟨h1, h2⟩)

/-- The scan from batch row `idx` on appends the first `N - |acc|` rows that pass the
tolerance gate among the rows `idx, idx + 1, ...`, in batch order. -/
theorem smcScan_eq {α : Type} [LinearOrder α] (newResults : List α)
    (newParams : NumericMatrix α) (currentEps : α) (N : Nat)
    (hal : newParams.rows.length = newResults.length) :
    ∀ (remaining idx : Nat) (acc : List (List α)) (accR : List α),
      idx + remaining = newResults.length →
      smcScan newResults newParams currentEps N remaining idx acc accR
        = some
          (acc ++ ((((List.zip newParams.rows newResults).drop idx).filter
              (fun e => decide (e.2 < currentEps))).take (N - acc.length)).map Prod.fst,
           accR ++ ((((List.zip newParams.rows newResults).drop idx).filter
              (fun e => decide (e.2 < currentEps))).take (N - acc.length)).map Prod.snd)
  | 0, idx, acc, accR, h => by
    have hd : (List.zip newParams.rows newResults).drop idx = [] := by
      apply List.drop_eq_nil_of_le
      simp only [List.length_zip]
      omega
    simp [smcScan, hd]
  | remaining + 1, idx, acc, accR, h => by
    have hi : idx < newResults.length := by omega
    have hr := List.getElem?_eq_getElem hi
    have hrow := List.getElem?_eq_getElem (hal ▸ hi : idx < newParams.rows.length)
    simp only [smcScan, hr, hrow]
    by_cases hN : acc.length < N
    · simp only [hN, if_true]
      rw [zip_drop_cons hrow hr]
      by_cases hlt : newResults[idx] < currentEps
      · rw [if_pos hlt, smcScan_eq newResults newParams currentEps N hal remaining (idx + 1)
          _ _ (by omega)]
        have hsub : N - acc.length = (N - (acc ++ [newParams.rows[idx]]).length) + 1 := by
          simp only [List.length_append, List.length_singleton]
          omega
        rw [List.filter_cons_of_pos (by simpa using hlt), hsub]
        simp
      · rw [if_neg hlt, smcScan_eq newResults newParams currentEps N hal remaining (idx + 1)
          _ _ (by omega)]
        rw [List.filter_cons_of_neg (by simpa using hlt)]
    · have hz : N - acc.length = 0 := by omega
      simp [hN, hz]

/-- Whatever the shapes, a returning scan only appends: the accumulated rows and distances
are kept, as many rows as distances are appended, every appended distance is a batch
distance below the tolerance, and every appended row is a batch row. -/
theorem smcScan_extends {α : Type} [LinearOrder α] (newResults : List α)
    (newParams : NumericMatrix α) (currentEps : α) (N : Nat) :
    ∀ (remaining idx : Nat) (acc : List (List α)) (accR : List α) (acc1 : List (List α))
      (accR1 : List α),
      smcScan newResults newParams currentEps N remaining idx acc accR = some (acc1, accR1) →
      ∃ ext extR, acc1 = acc ++ ext ∧ accR1 = accR ++ extR ∧ ext.length = extR.length ∧
        (∀ r ∈ extR, r ∈ newResults ∧ r < currentEps) ∧ ∀ row ∈ ext, row ∈ newParams.rows
  | 0, idx, acc, accR, acc1, accR1, h => by
    simp only [smcScan, Option.some.injEq, Prod.mk.injEq] at h
    exact ⟨[], [], by simp [h.1], by simp [h.2], rfl, by simp, by simp⟩
  | remaining + 1, idx, acc, accR, acc1, accR1, h => by
    simp only [smcScan] at h
    split at h
    · split at h
      · rename_i r hr
        split at h
        · rename_i hlt
          split at h
          · rename_i row hrow
            obtain ⟨ext, extR, h1, h2, h3, h4, h5⟩ := smcScan_extends newResults newParams
              currentEps N remaining (idx + 1) _ _ acc1 accR1 h
            refine ⟨row :: ext, r :: extR, by simp [h1], by simp [h2], by simp [h3], ?_, ?_⟩
            · intro x hx
              rcases List.mem_cons.mp hx with hx | hx
              · exact hx ▸ ⟨List.getElem?_mem hr, hlt⟩
              · exact h4 x hx
            · intro x hx
              rcases List.mem_cons.mp hx with hx | hx
              · exact hx ▸ List.getElem?_mem hrow
              · exact h5 x hx
          · simp at h
        · exact smcScan_extends newResults newParams currentEps N remaining (idx + 1)
            _ _ acc1 accR1 h
      · simp at h
    · simp only [Option.some.injEq, Prod.mk.injEq] at h
      exact ⟨[], [], by simp [h.1], by simp [h.2], rfl, by simp, by simp⟩

/-- C7: on an index-aligned batch the scan of `combineResults_SMC` leaves the accumulator
equal to what it held, followed by the first `N - |A|` batch rows (all of them if there are
fewer), in batch order, whose distance is strictly below `currentEps`; every appended row has
a distance below `currentEps`, and an accumulator of at most `N` rows never grows beyond
`N` rows. -/
theorem smcScan_accumulates {α : Type} [LinearOrder α] (newResults : List α)
    (newParams : NumericMatrix α) (currentEps : α) (N : Nat) (A : List (List α)) (R : List α)
    (hal : newParams.rows.length = newResults.length) :
    smcScan newResults newParams currentEps N newResults.length 0 A R
      = some
        (A ++ ((acceptedRows newResults newParams currentEps).take (N - A.length)).map Prod.fst,
         R ++ ((acceptedRows newResults newParams currentEps).take (N - A.length)).map Prod.snd)
    ∧ (∀ e ∈ (acceptedRows newResults newParams currentEps).take (N - A.length),
        e.2 < currentEps ∧ e ∈ List.zip newParams.rows newResults)
    ∧ (A.length ≤ N →
        (A ++ ((acceptedRows newResults newParams currentEps).take
          (N - A.length)).map Prod.fst).length ≤ N) := by
  refine ⟨?_, ?_, ?_⟩
  · have h := smcScan_eq newResults newParams currentEps N hal newResults.length 0 A R
      (by omega)
    simpa [acceptedRows] using h
  · intro e he
    have hmem := List.mem_of_mem_take he
    simp only [acceptedRows, List.mem_filter, decide_eq_true_eq] at hmem
    exact ⟨hmem.2, hmem.1⟩
  · intro hA
    simp only [List.length_append, List.length_map, List.length_take]
    omega

/-- Instance of C7: one row accumulated, target size two, a batch with three rows below the
tolerance. -/
theorem smcScan_accumulates_witness :
    exampleBatchParams.rows.length = exampleBatch.length ∧
    smcScan exampleBatch exampleBatchParams 5 2 exampleBatch.length 0 [[30]] [3]
      = some
        ([[30]] ++ ((acceptedRows exampleBatch exampleBatchParams 5).take
            (2 - ([[30]] : List (List ℚ)).length)).map Prod.fst,
         [3] ++ ((acceptedRows exampleBatch exampleBatchParams 5).take
            (2 - ([[30]] : List (List ℚ)).length)).map Prod.snd)
    ∧ (∀ e ∈ (acceptedRows exampleBatch exampleBatchParams 5).take
          (2 - ([[30]] : List (List ℚ)).length),
        e.2 < 5 ∧ e ∈ List.zip exampleBatchParams.rows exampleBatch)
    ∧ (([[30]] : List (List ℚ)).length ≤ 2 →
        ([[30]] ++ ((acceptedRows exampleBatch exampleBatchParams 5).take
          (2 - ([[30]] : List (List ℚ)).length)).map Prod.fst).length ≤ 2) :=
  ⟨by decide, smcScan_accumulates exampleBatch exampleBatchParams 5 2 [[30]] [3] (by decide)⟩

/-! ## The SMC merge: completing a generation -/

theorem copyRow_shape {α : Type} (read : Nat → Option α) (i : Nat) :
    ∀ (remaining j : Nat) (dst dst1 : NumericMatrix α),
      copyRow read i remaining j dst = some dst1 →
      dst1.ncol = dst.ncol ∧ dst1.rows.length = dst.rows.length
  | 0, _, dst, dst1, h => by
    simp only [copyRow, Option.some.injEq] at h
    subst h
    exact ⟨rfl, rfl⟩
  | remaining + 1, j, dst, dst1, h => by
    simp only [copyRow] at h
    split at h
    · split at h
      · rename_i v _ dst0 hset
        obtain ⟨h1, h2⟩ := copyRow_shape read i remaining (j + 1) dst0 dst1 h
        simp only [NumericMatrix.set?] at hset
        split at hset
        · split at hset
          · split at hset
            · simp only [Option.some.injEq] at hset
              subst hset
              simp only [List.length_set] at h2
              exact ⟨h1, h2⟩
            · simp at hset
          · simp at hset
        · simp at hset
      · simp at h
    · simp at h

/-- The copy loop keeps the shape of the output sample set. -/
theorem smcFill_shape {α : Type} [LinearOrder α] (acc : List (List α)) (accR : List α) :
    ∀ (remaining i : Nat) (f f1 : FillState α),
      smcFill acc accR remaining i f = some f1 →
      f1.output.params.ncol = f.output.params.ncol ∧
      f1.output.params.rows.length = f.output.params.rows.length ∧
      f1.output.result.length = f.output.result.length
  | 0, _, f, f1, h => by
    simp only [smcFill, Option.some.injEq] at h
    subst h
    exact ⟨rfl, rfl, rfl⟩
  | remaining + 1, i, f, f1, h => by
    simp only [smcFill] at h
    split at h
    · rename_i P hP
      split at h
      · split at h
        · obtain ⟨h1, h2, h3⟩ := smcFill_shape acc accR remaining (i + 1) _ f1 h
          obtain ⟨h4, h5⟩ := copyRow_shape _ i _ 0 _ P hP
          simp only [List.length_set] at h1 h2 h3
          exact ⟨h1.trans h4, h2.trans h5, h3⟩
        · simp at h
      · simp at h
    · simp at h

theorem splice_step {α : Type} (l src : List α) (i remaining : Nat) (hi : i < l.length)
    (hs : i < src.length) :
    (l.set i src[i]).take (i + 1) ++ (src.drop (i + 1)).take remaining ++
        (l.set i src[i]).drop (i + 1 + remaining)
      = l.take i ++ (src.drop i).take (remaining + 1) ++ l.drop (i + (remaining + 1)) := by
  rw [take_succ_set _ _ _ hi, List.drop_eq_getElem_cons hs, List.take_succ_cons,
    List.drop_set_of_lt _ _ (by omega)]
  simp [Nat.add_assoc, Nat.add_comm 1 remaining]

/-- On aligned data the copy loop overwrites the rows `i .. i + remaining - 1` of the output
sample set with the accumulated distances and rows of the same positions. -/
theorem smcFill_eq {α : Type} [LinearOrder α] (acc : List (List α)) (accR : List α) (p : Nat)
    (hacc : ∀ row ∈ acc, row.length = p) :
    ∀ (remaining i : Nat) (f : FillState α),
      Aligned f.output.result f.output.params p → i + remaining ≤ acc.length →
      i + remaining ≤ accR.length → i + remaining ≤ f.output.result.length →
      ∃ f1, smcFill acc accR remaining i f = some f1 ∧
        f1.output.result = f.output.result.take i ++ (accR.drop i).take remaining ++
          f.output.result.drop (i + remaining) ∧
        f1.output.params = { ncol := p,
                             rows := f.output.params.rows.take i ++ (acc.drop i).take remaining
                               ++ f.output.params.rows.drop (i + remaining) }
  | 0, i, f, hf, _, _, _ => by
    refine ⟨f, rfl, by simp, ?_⟩
    obtain ⟨hp, -, -⟩ := hf
    cases hfp : f.output.params with
    | mk ncol rows =>
      rw [hfp] at hp
      simp only [] at hp
      simp [hp]
  | remaining + 1, i, f, hf, h1, h2, h3 => by
    have hia : i < acc.length := by omega
    have hir : i < accR.length := by omega
    have hio : i < f.output.result.length := by omega
    have hip : i < f.output.params.rows.length := by rw [hf.2.1]; exact hio
    have hcopy := copyRow_full acc[i] f.output.params.rows[i]
      (fun j => (acc[i]?).bind (fun v => v[j]?)) (by simp [List.getElem?_eq_getElem hia]) i
      f.output.params (List.getElem?_eq_getElem hip)
      (by rw [hf.1]; exact hf.2.2 _ (List.getElem_mem _))
      (by rw [hf.1]; exact hacc _ (List.getElem_mem _))
    rw [hf.1] at hcopy
    have hal := aligned_set hf i accR[i] acc[i] (hacc _ (List.getElem_mem _))
    obtain ⟨f1, hf1, hres, hpar⟩ := smcFill_eq acc accR p hacc remaining (i + 1)
      { output := { result := f.output.result.set i accR[i],
                    params := { ncol := p, rows := f.output.params.rows.set i acc[i] } },
        minRslt := min (WithTop.some accR[i]) f.minRslt,
        maxRslt := max accR[i] f.maxRslt }
      hal (by omega) (by omega) (by simp only [List.length_set]; omega)
    refine ⟨f1, ?_, ?_, ?_⟩
    · simp only [smcFill, hf.1, hcopy, List.getElem?_eq_getElem hir, hio, if_true]
      exact hf1
    · rw [hres]
      exact splice_step _ _ i remaining hio hir
    · rw [hpar]
      simp only [NumericMatrix.mk.injEq, true_and]
      exact splice_step _ _ i remaining hip hia

theorem take_all_of_length {α : Type} (l tail : List α) (n : Nat) (hl : l.length = n)
    (ht : tail.length = n) :
    tail.take 0 ++ (l.drop 0).take n ++ tail.drop (0 + n) = l := by
  have h1 : (l.drop 0).take n = l := by rw [← hl]; simp
  have h2 : tail.drop (0 + n) = [] := by rw [← ht]; simp
  rw [h1, h2]
  simp

/-- C8: when the scan leaves exactly `N` accumulated rows (aligned sample set, batch and
accumulator), `combineResults_SMC` returns a sample set whose `i`-th distance and parameter
row are the `i`-th accumulated distance and row for every `i < N`, the accumulator is empty
afterwards, and the reweight flag is set. -/
theorem combineResults_SMC_completes {α : Type} [LinearOrderedField α] (st : ModelState α)
    (newResults : List α) (newParams : NumericMatrix α) (p : Nat) (acc : List (List α))
    (accR : List α)
    (hsamp : Aligned st.currentSamples.result st.currentSamples.params p)
    (hnw : Aligned newResults newParams p)
    (hA : ∀ row ∈ st.currentAccepted, row.length = p)
    (hAR : st.currentAccepted.length = st.currentAcceptedResult.length)
    (hscan : smcScan newResults newParams st.currentEps st.currentSamples.params.nrow
      newResults.length 0 st.currentAccepted st.currentAcceptedResult = some (acc, accR))
    (hfull : acc.length = st.currentSamples.params.nrow) :
    ∃ out st1, combineResults_SMC st newResults newParams = some (out, st1) ∧
      (∀ i, i < st.currentSamples.params.nrow →
        out.result[i]? = accR[i]? ∧ out.params.rows[i]? = acc[i]?) ∧
      out.result = accR ∧ out.params.rows = acc ∧
      st1.currentAccepted = [] ∧ st1.currentAcceptedResult = [] ∧ st1.reweight = 1 := by
  have hnrow : st.currentSamples.params.nrow = st.currentSamples.params.rows.length := rfl
  have hN : st.currentSamples.params.rows.length = st.currentSamples.result.length :=
    hsamp.2.1
  obtain ⟨ext, extR, hacc, haccR, hlen, -, hext⟩ := smcScan_extends _ _ _ _ _ _ _ _ _ _ hscan
  have haccRlen : accR.length = acc.length := by
    rw [hacc, haccR, List.length_append, List.length_append, hlen, hAR]
  have hrows : ∀ row ∈ acc, row.length = p := by
    intro row hrow
    rw [hacc] at hrow
    rcases List.mem_append.mp hrow with hrow | hrow
    · exact hA row hrow
    · exact hnw.2.2 row (hext row hrow)
  obtain ⟨f1, hf1, hres, hpar⟩ := smcFill_eq acc accR p hrows st.currentSamples.params.nrow 0
    { output := st.currentSamples, minRslt := ⊤, maxRslt := 0 } hsamp (by omega) (by omega)
    (by simp only [Nat.zero_add]; omega)
  have hres1 : f1.output.result = accR := by
    rw [hres]
    exact take_all_of_length accR st.currentSamples.result _ (by omega) (by omega)
  have hpar1 : f1.output.params.rows = acc := by
    rw [hpar]
    exact take_all_of_length acc st.currentSamples.params.rows _ hfull rfl
  have hcall : combineResults_SMC st newResults newParams
      = some (f1.output,
              { st with
                reweight := 1
                currentSamples := f1.output
                minEps := f1.minRslt
                maxEps := f1.maxRslt
                currentEps := st.shrinkage * st.currentEps
                currentAccepted := []
                currentAcceptedResult := [] }) := by
    unfold combineResults_SMC
    simp only [hscan, hfull, if_true, hf1]
  refine ⟨_, _, hcall, ?_, hres1, hpar1, rfl, rfl, rfl⟩
  intro i _
  rw [hres1, hpar1]
  exact ⟨rfl, rfl⟩

/-- C9: when the scan leaves fewer than `N` accumulated rows, `combineResults_SMC` returns
the previous sample set, leaves `currentSamples`, `currentEps`, `minEps`, `maxEps` and the
reweight flag as they were, and stores the scanned accumulator, which extends the previous
one. -/
theorem combineResults_SMC_incomplete {α : Type} [LinearOrderedField α] (st : ModelState α)
    (newResults : List α) (newParams : NumericMatrix α) (acc : List (List α)) (accR : List α)
    (hscan : smcScan newResults newParams st.currentEps st.currentSamples.params.nrow
      newResults.length 0 st.currentAccepted st.currentAcceptedResult = some (acc, accR))
    (hlt : acc.length < st.currentSamples.params.nrow) :
    ∃ st1, combineResults_SMC st newResults newParams = some (st.currentSamples, st1) ∧
      st1.currentSamples = st.currentSamples ∧ st1.currentEps = st.currentEps ∧
      st1.minEps = st.minEps ∧ st1.maxEps = st.maxEps ∧ st1.reweight = st.reweight ∧
      st1.currentAccepted = acc ∧ st1.currentAcceptedResult = accR ∧
      (∃ ext extR, acc = st.currentAccepted ++ ext ∧
        accR = st.currentAcceptedResult ++ extR) := by
  obtain ⟨ext, extR, hacc, haccR, -, -⟩ := smcScan_extends _ _ _ _ _ _ _ _ _ _ hscan
  refine ⟨{ st with currentAccepted := acc, currentAcceptedResult := accR }, ?_, rfl, rfl,
    rfl, rfl, rfl, rfl, rfl, ext, extR, hacc, haccR⟩
  unfold combineResults_SMC
  simp only [hscan, Nat.ne_of_lt hlt, if_false]

/-! ## The SMC merge: the tolerance -/

/-- The two ways a call of `combineResults_SMC` returns. -/
theorem combineResults_SMC_cases {α : Type} [LinearOrderedField α] (st st1 : ModelState α)
    (newResults : List α) (newParams : NumericMatrix α) (out : samplingResultSet α)
    (h : combineResults_SMC st newResults newParams = some (out, st1)) :
    ∃ acc accR, smcScan newResults newParams st.currentEps st.currentSamples.params.nrow
        newResults.length 0 st.currentAccepted st.currentAcceptedResult = some (acc, accR) ∧
      ((acc.length = st.currentSamples.params.nrow ∧
          st1.currentEps = st.shrinkage * st.currentEps ∧ st1.currentAccepted = [] ∧
          st1.currentAcceptedResult = [] ∧ st1.shrinkage = st.shrinkage ∧
          out.params.rows.length = st.currentSamples.params.rows.length) ∨
       (acc.length ≠ st.currentSamples.params.nrow ∧ out = st.currentSamples ∧
          st1 = { st with currentAccepted := acc, currentAcceptedResult := accR })) := by
  unfold combineResults_SMC at h
  simp only [] at h
  split at h
  · rename_i acc accR hscan
    refine ⟨acc, accR, hscan, ?_⟩
    split at h
    · rename_i hfull
      split at h
      · rename_i f hf
        simp only [Option.some.injEq, Prod.mk.injEq] at h
        obtain ⟨hout, hst⟩ := h
        subst hout hst
        exact Or.inl ⟨hfull, rfl, rfl, rfl, rfl, (smcFill_shape _ _ _ _ _ _ hf).2.1⟩
      · simp at h
    · rename_i hfull
      simp only [Option.some.injEq, Prod.mk.injEq] at h
      exact Or.inr ⟨hfull, h.1.symm, h.2.symm⟩
  · simp at h

theorem smcCompletes_iff {α : Type} [LinearOrder α] (st : ModelState α) (newResults : List α)
    (newParams : NumericMatrix α) (acc : List (List α)) (accR : List α)
    (hscan : smcScan newResults newParams st.currentEps st.currentSamples.params.nrow
      newResults.length 0 st.currentAccepted st.currentAcceptedResult = some (acc, accR)) :
    smcCompletes st newResults newParams = true ↔
      acc.length = st.currentSamples.params.nrow := by
  unfold smcCompletes
  rw [hscan]
  simp

/-- One call under the standing assumptions: the assumptions persist, a completed generation
multiplies the tolerance by the shrinkage factor, which lowers it strictly, and an
uncompleted one keeps it. -/
theorem combineResults_SMC_inv {α : Type} [LinearOrderedField α] (st st1 : ModelState α)
    (newResults : List α) (newParams : NumericMatrix α) (out : samplingResultSet α)
    (hinv : SmcInv st) (hnn : ∀ r ∈ newResults, 0 ≤ r)
    (h : combineResults_SMC st newResults newParams = some (out, st1)) :
    SmcInv { st1 with currentSamples := out } ∧ st1.shrinkage = st.shrinkage ∧
    st1.currentEps ≤ st.currentEps ∧
    (smcCompletes st newResults newParams = true →
      st1.currentEps = st.shrinkage * st.currentEps ∧ st1.currentEps < st.currentEps) ∧
    (smcCompletes st newResults newParams = false → st1.currentEps = st.currentEps) := by
  obtain ⟨hs0, hs1, hN, hlen, hacc⟩ := hinv
  obtain ⟨acc, accR, hscan, hcase⟩ := combineResults_SMC_cases st st1 newResults newParams out h
  obtain ⟨ext, extR, hext, hextR, hextlen, hextmem, -⟩ :=
    smcScan_extends _ _ _ _ _ _ _ _ _ _ hscan
  have hall : ∀ r ∈ accR, 0 ≤ r ∧ r < st.currentEps := by
    intro r hr
    rw [hextR] at hr
    rcases List.mem_append.mp hr with hr | hr
    · exact hacc r hr
    · exact ⟨hnn r (hextmem r hr).1, (hextmem r hr).2⟩
  have hlens : acc.length = accR.length := by
    rw [hext, hextR, List.length_append, List.length_append, hlen, hextlen]
  rw [← Bool.not_eq_true, smcCompletes_iff st newResults newParams acc accR hscan]
  rcases hcase with ⟨hfull, heps, hA, hR, hshr, hrows⟩ | ⟨hfull, hout, hst⟩
  · have hpos : 0 < st.currentEps := by
      have hne : accR ≠ [] := by
        intro hnil
        rw [hnil] at hlens
        simp only [List.length_nil] at hlens
        omega
      obtain ⟨r, hr⟩ := List.exists_mem_of_ne_nil accR hne
      exact lt_of_le_of_lt (hall r hr).1 (hall r hr).2
    have hlt : st.shrinkage * st.currentEps < st.currentEps := by
      have := mul_lt_mul_of_pos_right hs1 hpos
      simpa using this
    refine ⟨⟨?_, ?_, ?_, ?_, ?_⟩, hshr, ?_, ?_, ?_⟩
    · simpa [hshr] using hs0
    · simpa [hshr] using hs1
    · simpa [NumericMatrix.nrow, hrows] using hN
    · simp [hA, hR]
    · simp [hR]
    · rw [heps]; exact le_of_lt hlt
    · intro _; exact ⟨heps, heps ▸ hlt⟩
    · intro hno; exact absurd hfull hno
  · subst hst hout
    refine ⟨⟨hs0, hs1, hN, hlens, hall⟩, rfl, le_refl _, ?_, ?_⟩
    · intro hyes; exact absurd hyes hfull
    · intro _; rfl

/-- Along a sequence of calls the standing assumptions persist, the shrinkage factor stays
and the tolerance does not increase. -/
theorem smcRun_inv {α : Type} [LinearOrderedField α] :
    ∀ (batches : List (List α × NumericMatrix α)) (st st1 : ModelState α),
      SmcInv st → (∀ b ∈ batches, ∀ r ∈ b.1, 0 ≤ r) → smcRun st batches = some st1 →
      SmcInv st1 ∧ st1.shrinkage = st.shrinkage ∧ st1.currentEps ≤ st.currentEps
  | [], st, st1, hinv, _, h => by
    simp only [smcRun, Option.some.injEq] at h
    subst h
    exact ⟨hinv, rfl, le_refl _⟩
  | b :: bs, st, st1, hinv, hnn, h => by
    simp only [smcRun] at h
    split at h
    · rename_i out st0 hcall
      obtain ⟨hinv0, hshr0, hle0, -, -⟩ := combineResults_SMC_inv st st0 b.1 b.2 out hinv
        (hnn b (List.mem_cons_self _ _)) hcall
      obtain ⟨hinv1, hshr1, hle1⟩ := smcRun_inv bs _ st1 hinv0
        (fun c hc => hnn c (List.mem_cons_of_mem _ hc)) h
      exact ⟨hinv1, hshr1.trans hshr0, le_trans hle1 hle0⟩
    · simp at h

/-! ## The SMC merge: properties -/

/-- Instance of C8: the example batch completes the generation of the example state. -/
theorem combineResults_SMC_completes_witness :
    Aligned exampleSmcState.currentSamples.result exampleSmcState.currentSamples.params 1 ∧
    Aligned exampleBatch exampleBatchParams 1 ∧
    smcScan exampleBatch exampleBatchParams exampleSmcState.currentEps
        exampleSmcState.currentSamples.params.nrow exampleBatch.length 0
        exampleSmcState.currentAccepted exampleSmcState.currentAcceptedResult
      = some ([[30], [40]], [3, 4]) ∧
    ∃ out st1, combineResults_SMC exampleSmcState exampleBatch exampleBatchParams
        = some (out, st1) ∧
      (∀ i, i < exampleSmcState.currentSamples.params.nrow →
        out.result[i]? = ([3, 4] : List ℚ)[i]? ∧
        out.params.rows[i]? = ([[30], [40]] : List (List ℚ))[i]?) ∧
      out.result = [3, 4] ∧ out.params.rows = [[30], [40]] ∧
      st1.currentAccepted = [] ∧ st1.currentAcceptedResult = [] ∧ st1.reweight = 1 :=
  ⟨by simp [Aligned, exampleSmcState], by simp [Aligned, exampleBatch, exampleBatchParams],
   by with_unfolding_all decide,
   combineResults_SMC_completes exampleSmcState exampleBatch exampleBatchParams 1
     [[30], [40]] [3, 4] (by simp [Aligned, exampleSmcState])
     (by simp [Aligned, exampleBatch, exampleBatchParams]) (by simp [exampleSmcState])
     (by simp [exampleSmcState]) (by with_unfolding_all decide) (by decide)⟩

/-- Instance of C9: the stalled batch leaves the example state one row short. -/
theorem combineResults_SMC_incomplete_witness :
    smcScan exampleStalledBatch exampleBatchParams exampleSmcState.currentEps
        exampleSmcState.currentSamples.params.nrow exampleStalledBatch.length 0
        exampleSmcState.currentAccepted exampleSmcState.currentAcceptedResult
      = some ([[30]], [3]) ∧
    ([[30]] : List (List ℚ)).length < exampleSmcState.currentSamples.params.nrow ∧
    ∃ st1, combineResults_SMC exampleSmcState exampleStalledBatch exampleBatchParams
        = some (exampleSmcState.currentSamples, st1) ∧
      st1.currentSamples = exampleSmcState.currentSamples ∧
      st1.currentEps = exampleSmcState.currentEps ∧
      st1.minEps = exampleSmcState.minEps ∧ st1.maxEps = exampleSmcState.maxEps ∧
      st1.reweight = exampleSmcState.reweight ∧
      st1.currentAccepted = [[30]] ∧ st1.currentAcceptedResult = [3] ∧
      (∃ ext extR, [[30]] = exampleSmcState.currentAccepted ++ ext ∧
        [3] = exampleSmcState.currentAcceptedResult ++ extR) :=
  ⟨by with_unfolding_all decide, by decide,
   combineResults_SMC_incomplete exampleSmcState exampleStalledBatch exampleBatchParams
     [[30]] [3] (by with_unfolding_all decide) (by decide)⟩

/-- C10: a call of `combineResults_SMC` that completes a generation replaces `currentEps` by
exactly `shrinkage * currentEps`, and a call that does not complete a generation leaves it
unchanged.  Along any sequence of calls on batches of non-negative distances, started from a
state with a shrinkage factor in `(0, 1)`, a target sample size of at least one and an
accumulator of non-negative distances below the tolerance, `currentEps` never increases, and
every completed generation lowers it strictly. -/
theorem combineResults_SMC_currentEps_never_increases {α : Type} [LinearOrderedField α]
    (pre post : ModelState α) (b : List α × NumericMatrix α) (out : samplingResultSet α)
    (hcall : combineResults_SMC pre b.1 b.2 = some (out, post)) :
    (smcCompletes pre b.1 b.2 = true → post.currentEps = pre.shrinkage * pre.currentEps) ∧
    (smcCompletes pre b.1 b.2 = false → post.currentEps = pre.currentEps) ∧
    (∀ (st : ModelState α) (batches : List (List α × NumericMatrix α)) (k : Nat),
      SmcInv st → (∀ c ∈ batches, ∀ r ∈ c.1, 0 ≤ r) →
      smcRun st (batches.take k) = some pre → batches[k]? = some b →
      pre.currentEps ≤ st.currentEps ∧ post.currentEps ≤ pre.currentEps ∧
      pre.shrinkage = st.shrinkage ∧ 0 < pre.shrinkage ∧ pre.shrinkage < 1 ∧
      (smcCompletes pre b.1 b.2 = true → post.currentEps < pre.currentEps)) := by
  obtain ⟨acc, accR, hscan, hcase⟩ := combineResults_SMC_cases pre post b.1 b.2 out hcall
  refine ⟨?_, ?_, ?_⟩
  · rw [smcCompletes_iff pre b.1 b.2 acc accR hscan]
    intro hfull
    rcases hcase with ⟨-, heps, -⟩ | ⟨hne, -, -⟩
    · exact heps
    · exact absurd hfull hne
  · rw [← Bool.not_eq_true, smcCompletes_iff pre b.1 b.2 acc accR hscan]
    intro hne
    rcases hcase with ⟨hfull, -⟩ | ⟨-, -, hst⟩
    · exact absurd hfull hne
    · rw [hst]
  · intro st batches k hinv hnn hpre hb
    obtain ⟨hinvpre, hshr, hle⟩ := smcRun_inv (batches.take k) st pre hinv
      (fun c hc => hnn c (List.mem_of_mem_take hc)) hpre
    obtain ⟨-, -, hle1, hyes, -⟩ := combineResults_SMC_inv pre post b.1 b.2 out hinvpre
      (hnn b (List.getElem?_mem hb)) hcall
    exact ⟨hle, hle1, hshr, hinvpre.1, hinvpre.2.1, fun hc => (hyes hc).2⟩

/-- Instance of C10: a stalled call followed by a completing call, which halves the
tolerance five. -/
theorem combineResults_SMC_currentEps_never_increases_witness :
    combineResults_SMC exampleSmcState exampleBatch exampleBatchParams
      = some (exampleSmcOutput, exampleSmcCompleted) ∧
    SmcInv exampleSmcState ∧ (∀ c ∈ exampleBatches, ∀ r ∈ c.1, 0 ≤ r) ∧
    smcRun exampleSmcState (exampleBatches.take 1) = some exampleSmcState ∧
    exampleBatches[1]? = some (exampleBatch, exampleBatchParams) ∧
    smcCompletes exampleSmcState exampleBatch exampleBatchParams = true ∧
    exampleSmcCompleted.currentEps = exampleSmcState.shrinkage * exampleSmcState.currentEps ∧
    exampleSmcCompleted.currentEps ≤ exampleSmcState.currentEps ∧
    exampleSmcCompleted.currentEps < exampleSmcState.currentEps :=
  have hinv : SmcInv exampleSmcState := by
    norm_num [SmcInv, exampleSmcState, NumericMatrix.nrow]
  have hnn : ∀ c ∈ exampleBatches, ∀ r ∈ c.1, (0 : ℚ) ≤ r := by
    norm_num [exampleBatches, exampleStalledBatch, exampleBatch]
  have hrun : smcRun exampleSmcState (exampleBatches.take 1) = some exampleSmcState := by
    with_unfolding_all decide
  have hk : exampleBatches[1]? = some (exampleBatch, exampleBatchParams) := by
    with_unfolding_all decide
  have hyes : smcCompletes exampleSmcState exampleBatch exampleBatchParams = true := by
    with_unfolding_all decide
  have h := combineResults_SMC_currentEps_never_increases exampleSmcState
    exampleSmcCompleted (exampleBatch, exampleBatchParams) exampleSmcOutput
    (by with_unfolding_all decide)
  have h2 := h.2.2 exampleSmcState exampleBatches 1 hinv hnn hrun hk
  ⟨by with_unfolding_all decide, hinv, hnn, hrun, hk, hyes, h.1 hyes, h2.2.1,
    h2.2.2.2.2.2 hyes⟩

/-! ## `simulate`: properties -/

/-- The placement loop writes every remaining arrival at its own index and leaves the other
positions as they were, when the remaining indices are distinct and in range. -/
theorem placeResults_spec {α : Type} (arrivals : List (Nat × α)) :
    ∀ (remaining i : Nat) (out : List α), i + remaining = arrivals.length →
      (∀ e ∈ arrivals.drop i, e.1 < out.length) → ((arrivals.drop i).map Prod.fst).Nodup →
      ∃ v, placeResults arrivals remaining i out = some v ∧ v.length = out.length ∧
        (∀ e ∈ arrivals.drop i, v[e.1]? = some e.2) ∧
        (∀ j, j ∉ (arrivals.drop i).map Prod.fst → v[j]? = out[j]?)
  | 0, i, out, _, _, _ => by
    refine ⟨out, rfl, rfl, ?_, fun _ _ => rfl⟩
    intro e he
    rw [List.drop_eq_nil_of_le (by omega)] at he
    simp at he
  | remaining + 1, i, out, hlen, hidx, hnd => by
    have hi : i < arrivals.length := by omega
    have hdrop := List.drop_eq_getElem_cons hi
    rw [hdrop] at hidx hnd
    have hin : arrivals[i].1 < out.length := hidx _ (List.mem_cons_self _ _)
    simp only [List.map_cons, List.nodup_cons] at hnd
    obtain ⟨v, hv, hvlen, hvmem, hvframe⟩ := placeResults_spec arrivals remaining (i + 1)
      (out.set arrivals[i].1 arrivals[i].2) (by omega)
      (fun e he => by simpa using hidx e (List.mem_cons_of_mem _ he)) hnd.2
    refine ⟨v, ?_, by simpa using hvlen, ?_, ?_⟩
    · simp only [placeResults, List.getElem?_eq_getElem hi]
      exact (if_pos hin).trans hv
    · intro e he
      rw [hdrop] at he
      rcases List.mem_cons.mp he with he | he
      · subst he
        rw [hvframe _ hnd.1]
        simp [hin]
      · exact hvmem e he
    · intro j hj
      rw [hdrop] at hj
      simp only [List.map_cons, List.mem_cons, not_or] at hj
      rw [hvframe j hj.2]
      exact List.getElem?_set_ne (fun h => hj.1 h.symm)

/-- C14: in the scalar-distance modes of `simulate`, for every arrival order of `k` tagged
responses whose indices are a permutation of `0 .. k-1`, the returned vector has `k` entries
and its entry `idx` is the value that arrived tagged with `idx`; hence every other arrival
order of the same responses returns the same vector. -/
theorem simulate_scalar_by_index {α β : Type} [Zero α] (ncalls k : Nat)
    (sim_type_atom : SimAtom)
    (hatom : sim_type_atom = SimAtom.sim_atom ∨ sim_type_atom = SimAtom.sample_atom)
    (doubles : List (Nat × α)) (completes : List (Nat × β))
    (hperm : (doubles.map Prod.fst).Perm (List.range k)) :
    ∃ v, simulate ncalls k sim_type_atom doubles completes
        = some (SimOutput.result v, ncalls + 1) ∧
      v.length = k ∧ (∀ e ∈ doubles, v[e.1]? = some e.2) ∧
      (∀ doubles2 : List (Nat × α), doubles2.Perm doubles →
        simulate ncalls k sim_type_atom doubles2 completes
          = some (SimOutput.result v, ncalls + 1)) := by
  have key : ∀ l : List (Nat × α), (l.map Prod.fst).Perm (List.range k) →
      ∃ v, placeResults l k 0 (List.replicate k 0) = some v ∧ v.length = k ∧
        ∀ e ∈ l, v[e.1]? = some e.2 := by
    intro l hl
    have hlen : l.length = k := by simpa using hl.length_eq
    obtain ⟨v, hv, hvlen, hvmem, -⟩ := placeResults_spec l k 0 (List.replicate k 0)
      (by omega)
      (fun e he => by
        have : e.1 ∈ List.range k := hl.subset (List.mem_map_of_mem _ (by simpa using he))
        simpa using this)
      (by simpa using hl.nodup_iff.mpr (List.nodup_range k))
    exact ⟨v, hv, by simpa using hvlen, by simpa using hvmem⟩
  obtain ⟨v, hv, hvlen, hvmem⟩ := key doubles hperm
  have hsim : ∀ (l : List (Nat × α)) (w : List α),
      placeResults l k 0 (List.replicate k 0) = some w →
      simulate ncalls k sim_type_atom l completes = some (SimOutput.result w, ncalls + 1) := by
    intro l w hw
    rcases hatom with h | h <;> subst h <;> simp [simulate, hw]
  refine ⟨v, hsim doubles v hv, hvlen, hvmem, ?_⟩
  intro doubles2 h2
  obtain ⟨w, hw, hwlen, hwmem⟩ := key doubles2 ((h2.map Prod.fst).trans hperm)
  have hvw : w = v := by
    apply List.ext_getElem?
    intro j
    by_cases hj : j < k
    · have hjmem : j ∈ doubles.map Prod.fst := hperm.symm.subset (List.mem_range.mpr hj)
      obtain ⟨e, he, rfl⟩ := List.mem_map.mp hjmem
      rw [hvmem e he, hwmem e (h2.symm.subset he)]
    · rw [List.getElem?_eq_none (by omega), List.getElem?_eq_none (by omega)]
  rw [← hvw]
  exact hsim doubles2 w hw

/-- Instance of C14: three responses arriving in the order of the indices `2, 0, 1`. -/
theorem simulate_scalar_by_index_witness :
    ((([(2, 5), (0, 7), (1, 9)] : List (Nat × ℚ))).map Prod.fst).Perm (List.range 3) ∧
    ∃ v, simulate 0 3 SimAtom.sample_atom ([(2, 5), (0, 7), (1, 9)] : List (Nat × ℚ))
          ([] : List (Nat × Nat)) = some (SimOutput.result v, 0 + 1) ∧
      v.length = 3 ∧ (∀ e ∈ ([(2, 5), (0, 7), (1, 9)] : List (Nat × ℚ)), v[e.1]? = some e.2) ∧
      (∀ doubles2 : List (Nat × ℚ), doubles2.Perm [(2, 5), (0, 7), (1, 9)] →
        simulate 0 3 SimAtom.sample_atom doubles2 ([] : List (Nat × Nat))
          = some (SimOutput.result v, 0 + 1)) :=
  ⟨by decide,
   simulate_scalar_by_index 0 3 SimAtom.sample_atom (Or.inr rfl) [(2, 5), (0, 7), (1, 9)] []
     (by decide)⟩

/-- C15, the code at a failing input: in the full-result mode with two jobs, when the response
of origin index `1` (here the outcome `101`) arrives before the response of origin index `0`
(the outcome `100`), key `0` of the returned list holds the outcome of origin index `1` and
key `1` the outcome of origin index `0`: the list is in arrival order, `result_idx` is not
consulted. -/
theorem simulate_complete_in_arrival_order :
    simulate 0 2 SimAtom.sim_result_atom ([] : List (Nat × ℚ))
        ([(1, 101), (0, 100)] : List (Nat × Nat))
      = some (SimOutput.complete [(0, 101), (1, 100)], 1) := by
  decide

/-! ## `evalPrior`: properties -/

theorem getElem?_eq_some_getD {α : Type} (l : List α) (i : Nat) (d : α) (h : i < l.length) :
    l[i]? = some (l.getD i d) := by
  simp [List.getD, List.getElem?_eq_getElem h]

theorem divide?_of_ne_zero {α : Type} [LinearOrderedField α] (a b : α) (h : b ≠ 0) :
    divide? a b = some (a / b) := by
  simp [divide?, h]

theorem getD_ne_zero_of_forall {α : Type} [LinearOrderedField α] (l : List α)
    (h : ∀ t ∈ l, t ≠ 0) (k : Nat) (hk : k < l.length) : l.getD k 0 ≠ 0 :=
  h _ (List.getElem?_mem (getElem?_eq_some_getD l k 0 hk))

/-- The first loop of `updateWeights` multiplies `tmpWeightComp` by the inverse
bandwidths. -/
theorem tauLoop_eq {α : Type} [LinearOrderedField α] (tau : List α)
    (hne : ∀ t ∈ tau, t ≠ 0) :
    ∀ (remaining k : Nat) (acc : α), k + remaining ≤ tau.length →
      tauLoop tau remaining k acc
        = some (acc * ((List.range' k remaining).map (fun t => 1 / tau.getD t 0)).prod)
  | 0, _, acc, _ => by simp [tauLoop]
  | remaining + 1, k, acc, h => by
    have hk : k < tau.length := by omega
    simp only [tauLoop, getElem?_eq_some_getD tau k 0 hk,
      divide?_of_ne_zero _ _ (getD_ne_zero_of_forall tau hne k hk)]
    rw [tauLoop_eq tau hne remaining (k + 1) _ (by omega), List.range'_succ, List.map_cons,
      List.prod_cons, mul_assoc]

/-- The loop over the dimensions multiplies `tmpWeight` by the exponentials of the kernel
exponents. -/
theorem kernelLoop_eq {α : Type} [LinearOrderedField α] (exp : α → α)
    (current previous : NumericMatrix α) (tau : List α) (i j : Nat) (ci pj : List α)
    (hne : ∀ t ∈ tau, t ≠ 0)
    (hc : ∀ k, k < tau.length → current.get? i k = some (ci.getD k 0))
    (hp : ∀ k, k < tau.length → previous.get? j k = some (pj.getD k 0)) :
    ∀ (remaining k : Nat) (w : α), k + remaining ≤ tau.length →
      kernelLoop exp current previous tau i j remaining k w
        = some (w * ((List.range' k remaining).map (fun t =>
            exp (kernelExponent (ci.getD t 0) (pj.getD t 0) (tau.getD t 0)))).prod)
  | 0, _, w, _ => by simp [kernelLoop]
  | remaining + 1, k, w, h => by
    have hk : k < tau.length := by omega
    have h2 : 2 * tau.getD k 0 ≠ 0 :=
      mul_ne_zero two_ne_zero (getD_ne_zero_of_forall tau hne k hk)
    simp only [kernelLoop, hc k hk, hp k hk, getElem?_eq_some_getD tau k 0 hk,
      divide?_of_ne_zero _ _ h2]
    rw [kernelLoop_eq exp current previous tau i j ci pj hne hc hp remaining (k + 1) _
      (by omega), List.range'_succ, List.map_cons, List.prod_cons, mul_assoc, one_mul,
      kernelExponent]

/-- The loop over the previous particles adds the weighted kernel values. -/
theorem mixtureLoop_eq {α : Type} [LinearOrderedField α] (exp : α → α)
    (current previous : NumericMatrix α) (tau weights : List α) (tmpWeightComp : α)
    (nParams i : Nat) (kv : Nat → α) :
    ∀ (remaining j : Nat) (acc : α), j + remaining ≤ weights.length →
      (∀ t, j ≤ t → t < j + remaining →
        kernelLoop exp current previous tau i t nParams 0 tmpWeightComp = some (kv t)) →
      mixtureLoop exp current previous tau weights tmpWeightComp nParams i remaining j acc
        = some (acc + ((List.range' j remaining).map (fun t =>
            weights.getD t 0 * kv t)).sum)
  | 0, _, acc, _, _ => by simp [mixtureLoop]
  | remaining + 1, j, acc, h, hkv => by
    have hj : j < weights.length := by omega
    simp only [mixtureLoop, hkv j (le_refl _) (by omega),
      getElem?_eq_some_getD weights j 0 hj]
    rw [mixtureLoop_eq exp current previous tau weights tmpWeightComp nParams i kv remaining
      (j + 1) _ (by omega) (fun t h1 h2 => hkv t (by omega) (by omega)), List.range'_succ,
      List.map_cons, List.sum_cons, add_assoc]

theorem get?_eq_getD_of_rows {α : Type} [LinearOrderedField α] (P : NumericMatrix α)
    (n : Nat) (hncol : P.ncol = n) (hrows : ∀ r ∈ P.rows, r.length = n) (i : Nat)
    (hi : i < P.rows.length) (k : Nat) (hk : k < n) :
    P.get? i k = some (((P.rows.getD i [])).getD k 0) := by
  have hrow : P.rows[i]? = some (P.rows.getD i []) := getElem?_eq_some_getD _ _ _ hi
  have hlen : (P.rows.getD i []).length = n := hrows _ (List.getElem?_mem hrow)
  rw [get?_of_aligned (fun r hr => by rw [hncol]; exact hrows r hr) hrow k]
  exact getElem?_eq_some_getD _ _ _ (by omega)

/-- On well-formed inputs the sum computed for current particle `i` is the mixture-kernel
denominator with the exponent `(current[i,k] - previous[j,k] / (2 * tau[k]))²`. -/
theorem mixtureLoop_denominator {α : Type} [LinearOrderedField α] (exp : α → α)
    (current previous : NumericMatrix α) (tau weights : List α)
    (hwf : ReweightWellFormed current previous tau weights) (i : Nat)
    (hi : i < current.rows.length) :
    ∃ tmpWeightComp, tauLoop tau current.ncol 0 1 = some tmpWeightComp ∧
      mixtureLoop exp current previous tau weights tmpWeightComp current.ncol i
          current.rows.length 0 0
        = some (mixtureDenominator exp kernelExponent (current.rows.getD i []) previous.rows
            tau weights current.rows.length current.ncol) := by
  obtain ⟨hcur, hpcol, hprows, hplen, htau, hne, hw⟩ := hwf
  refine ⟨_, tauLoop_eq tau hne current.ncol 0 1 (by omega), ?_⟩
  have hkv : ∀ t, 0 ≤ t → t < 0 + current.rows.length →
      kernelLoop exp current previous tau i t current.ncol 0
          (1 * ((List.range' 0 current.ncol).map (fun t => 1 / tau.getD t 0)).prod)
        = some ((1 * ((List.range' 0 current.ncol).map (fun t => 1 / tau.getD t 0)).prod) *
            ((List.range' 0 current.ncol).map (fun k =>
              exp (kernelExponent ((current.rows.getD i []).getD k 0)
                ((previous.rows.getD t []).getD k 0) (tau.getD k 0)))).prod) := by
    intro t _ ht
    exact kernelLoop_eq exp current previous tau i t _ _ hne
      (fun k hk => get?_eq_getD_of_rows current _ rfl hcur i hi k (by omega))
      (fun k hk => get?_eq_getD_of_rows previous _ hpcol hprows t (by omega) k (by omega))
      current.ncol 0 _ (by omega)
  rw [mixtureLoop_eq exp current previous tau weights _ current.ncol i _ current.rows.length 0
    0 (by omega) hkv, zero_add, mixtureDenominator]
  refine congrArg some (congrArg List.sum (List.map_congr_left ?_))
  intro j _
  ring

/-- C12, counterexample: with one current particle `1`, one previous particle `0` of weight
`1` and the bandwidth `2` (over the reals, with the real exponential), the sum computed by
`updateWeights` is `exp(1) / 2`: the exponent is `(1 - 0 / (2 * 2))² = 1`.  The formula of the
claim, with the exponent `((1 - 0 / 2) / 2)² = 1/4`, gives `exp(1/4) / 2`, and the two
quotients `prior / sum` differ for every non-zero prior density. -/
theorem updateWeights_exponent_not_as_claimed :
    ∃ tmpWeightComp d, tauLoop ([2] : List ℝ) 1 0 1 = some tmpWeightComp ∧
      mixtureLoop Real.exp { ncol := 1, rows := [[1]] } { ncol := 1, rows := [[0]] } [2] [1]
        tmpWeightComp 1 0 1 0 0 = some d ∧
      d = Real.exp 1 / 2 ∧
      mixtureDenominator Real.exp kernelExponentSpec [1] [[0]] [2] [1] 1 1
        = Real.exp (1 / 4) / 2 ∧
      d ≠ mixtureDenominator Real.exp kernelExponentSpec [1] [[0]] [2] [1] 1 1 ∧
      ∀ prior : ℝ, prior ≠ 0 →
        prior / d ≠ prior / mixtureDenominator Real.exp kernelExponentSpec [1] [[0]] [2] [1] 1 1 := by
  have hwf : ReweightWellFormed ({ ncol := 1, rows := [[1]] } : NumericMatrix ℝ)
      { ncol := 1, rows := [[0]] } [2] [1] := by
    simp [ReweightWellFormed]
  obtain ⟨twc, htwc, hmix⟩ := mixtureLoop_denominator Real.exp
    ({ ncol := 1, rows := [[1]] } : NumericMatrix ℝ) { ncol := 1, rows := [[0]] } [2] [1] hwf 0
    (by simp)
  have hcode : mixtureDenominator Real.exp kernelExponent [1] [[0]] ([2] : List ℝ) [1] 1 1
      = Real.exp 1 / 2 := by
    simp [mixtureDenominator, kernelExponent, List.range']
    ring
  have hspec : mixtureDenominator Real.exp kernelExponentSpec [1] [[0]] ([2] : List ℝ) [1] 1 1
      = Real.exp (1 / 4) / 2 := by
    simp [mixtureDenominator, kernelExponentSpec, List.range']
    norm_num
    ring
  have hne : Real.exp 1 / 2 ≠ Real.exp (1 / 4) / 2 := by
    intro h
    have h1 : Real.exp 1 = Real.exp (1 / 4) := by linarith
    have h2 := Real.exp_injective h1
    norm_num at h2
  simp only [List.length_cons, List.length_nil, List.getD_cons_zero] at hmix
  refine ⟨twc, _, htwc, hmix, hcode, hspec, ?_, ?_⟩
  · rw [hcode, hspec]; exact hne
  · intro prior hprior h
    rw [hcode, hspec] at h
    have hpos1 : (0 : ℝ) < Real.exp 1 / 2 := by positivity
    have hpos2 : (0 : ℝ) < Real.exp (1 / 4) / 2 := by positivity
    rw [div_eq_div_iff (ne_of_gt hpos1) (ne_of_gt hpos2)] at h
    exact hne (mul_left_cancel₀ hprior h).symm

/-- On well-formed inputs the unnormalised weight of current particle `i` is its prior
density divided by the mixture-kernel denominator with the exponent of the code. -/
theorem unnormalizedWeight_eq {α : Type} [LinearOrderedField α] (L : Rmath α)
    (M : ModelComponents α) (current previous : NumericMatrix α) (tau weights : List α)
    (hwf : ReweightWellFormed current previous tau weights) (i : Nat)
    (hi : i < current.rows.length) (prior : α)
    (hprior : evalPrior L M (current.rows.getD i []) = some prior)
    (hden : mixtureDenominator L.exp kernelExponent (current.rows.getD i []) previous.rows
      tau weights current.rows.length current.ncol ≠ 0)
    (tmpWeightComp : α) (htau : tauLoop tau current.ncol 0 1 = some tmpWeightComp) :
    unnormalizedWeight L M current previous tau weights tmpWeightComp current.rows.length
        current.ncol i
      = some (prior / mixtureDenominator L.exp kernelExponent (current.rows.getD i [])
          previous.rows tau weights current.rows.length current.ncol) := by
  obtain ⟨twc, htwc, hmix⟩ := mixtureLoop_denominator L.exp current previous tau weights hwf i hi
  rw [htau] at htwc
  rw [← Option.some.inj htwc] at hmix
  simp only [unnormalizedWeight, hmix, getElem?_eq_some_getD current.rows i [] hi, hprior,
    divide?_of_ne_zero _ _ hden]

/-- C12, amended: on well-formed inputs, for every current particle `i` the unnormalised new
weight computed by `updateWeights` is `evalPrior(current[i])` divided by the sum over every
previous particle `j` of `weights[j] * prod_k exp((current[i,k] - previous[j,k] / (2 *
tau[k]))²) * prod_k (1 / tau[k])`, when that sum is not zero: the exponent for dimension `k`
is the square of `current[i,k] - previous[j,k] / (2 * tau[k])`. -/
theorem unnormalizedWeight_formula {α : Type} [LinearOrderedField α] (L : Rmath α)
    (M : ModelComponents α) (current previous : NumericMatrix α) (tau weights : List α)
    (hwf : ReweightWellFormed current previous tau weights) (i : Nat)
    (hi : i < current.rows.length) (prior : α)
    (hprior : evalPrior L M (current.rows.getD i []) = some prior)
    (hden : mixtureDenominator L.exp kernelExponent (current.rows.getD i []) previous.rows
      tau weights current.rows.length current.ncol ≠ 0) :
    ∃ tmpWeightComp, tauLoop tau current.ncol 0 1 = some tmpWeightComp ∧
      unnormalizedWeight L M current previous tau weights tmpWeightComp current.rows.length
          current.ncol i
        = some (prior / mixtureDenominator L.exp kernelExponent (current.rows.getD i [])
            previous.rows tau weights current.rows.length current.ncol) ∧
      mixtureDenominator L.exp kernelExponent (current.rows.getD i []) previous.rows
          tau weights current.rows.length current.ncol
        = ((List.range' 0 current.rows.length).map (fun j =>
            weights.getD j 0 *
              (((List.range' 0 current.ncol).map (fun k =>
                  L.exp ((((current.rows.getD i []).getD k 0)
                    - ((previous.rows.getD j []).getD k 0) / (2 * tau.getD k 0)) ^ 2))).prod *
                ((List.range' 0 current.ncol).map (fun k => 1 / tau.getD k 0)).prod))).sum := by
  obtain ⟨twc, htwc, -⟩ := mixtureLoop_denominator L.exp current previous tau weights hwf i hi
  exact ⟨twc, htwc, unnormalizedWeight_eq L M current previous tau weights hwf i hi prior hprior
    hden twc htwc, rfl⟩

/-! ## `updateWeights`: the normalisation -/

theorem sum_map_div {α : Type} [LinearOrderedField α] (c : α) :
    ∀ l : List α, (l.map (fun v => v / c)).sum = l.sum / c
  | [] => by simp
  | a :: l => by simp [sum_map_div c l, add_div]

/-- The loop over the current particles appends one unnormalised weight per particle and adds
it to `totalWeight`. -/
theorem newWeightsLoop_spec {α : Type} [LinearOrderedField α] (L : Rmath α)
    (M : ModelComponents α) (current previous : NumericMatrix α) (tau weights : List α)
    (tmpWeightComp : α) (N nParams : Nat) :
    ∀ (remaining i : Nat) (nw : List α) (total : α) (nw1 : List α) (total1 : α),
      newWeightsLoop L M current previous tau weights tmpWeightComp N nParams remaining i nw
        total = some (nw1, total1) →
      ∃ ext, nw1 = nw ++ ext ∧ ext.length = remaining ∧ total1 = total + ext.sum ∧
        ∀ t, t < remaining →
          unnormalizedWeight L M current previous tau weights tmpWeightComp N nParams (i + t)
            = ext[t]?
  | 0, _, nw, total, nw1, total1, h => by
    simp only [newWeightsLoop, Option.some.injEq, Prod.mk.injEq] at h
    exact ⟨[], by simp [h.1], rfl, by simp [h.2], fun t ht => absurd ht (Nat.not_lt_zero t)⟩
  | remaining + 1, i, nw, total, nw1, total1, h => by
    simp only [newWeightsLoop] at h
    split at h
    · rename_i v hv
      obtain ⟨ext, h1, h2, h3, h4⟩ := newWeightsLoop_spec L M current previous tau weights
        tmpWeightComp N nParams remaining (i + 1) _ _ nw1 total1 h
      refine ⟨v :: ext, by simp [h1], by simp [h2], by rw [h3, List.sum_cons, add_assoc], ?_⟩
      intro t ht
      cases t with
      | zero => simpa using hv
      | succ t =>
        have := h4 t (by omega)
        simpa [Nat.add_assoc, Nat.add_comm 1 t] using this
    · simp at h

/-- The normalisation loop replaces the weights `i .. i + remaining - 1` by the quotients
`newWeights / totalWeight`; it only returns with a non-zero `totalWeight` when it has a
weight to write. -/
theorem normalizeLoop_spec {α : Type} [LinearOrderedField α] (nw : List α) (total : α) :
    ∀ (remaining i : Nat) (w ws : List α),
      normalizeLoop nw total remaining i w = some ws →
      (0 < remaining →
        total ≠ 0 ∧ i + remaining ≤ nw.length ∧ i + remaining ≤ w.length) ∧
      ws = w.take i ++ ((nw.map (fun v => v / total)).drop i).take remaining ++
        w.drop (i + remaining)
  | 0, i, w, ws, h => by
    simp only [normalizeLoop, Option.some.injEq] at h
    subst h
    exact ⟨fun h0 => absurd h0 (Nat.lt_irrefl 0), by simp⟩
  | remaining + 1, i, w, ws, h => by
    simp only [normalizeLoop] at h
    split at h
    · rename_i v hv
      split at h
      · rename_i q hq
        split at h
        · rename_i hi
          have htot : total ≠ 0 := by
            intro h0
            simp [divide?, h0] at hq
          have hqv : q = v / total := by
            simp [divide?, htot] at hq
            exact hq.symm
          obtain ⟨hrest, hws⟩ := normalizeLoop_spec nw total remaining (i + 1) _ ws h
          have hinw : i < nw.length := (List.getElem?_eq_some.mp hv).1
          have hsrc : i < (nw.map (fun v => v / total)).length := by simpa using hinw
          have hval : (nw.map (fun v => v / total))[i] = q := by
            rw [hqv]
            obtain ⟨_, hv2⟩ := List.getElem?_eq_some.mp hv
            simp [hv2]
          have hlens : i + (remaining + 1) ≤ nw.length ∧ i + (remaining + 1) ≤ w.length := by
            rcases Nat.eq_zero_or_pos remaining with h0 | h0
            · omega
            · have h1 := (hrest h0).2
              simp only [List.length_set] at h1
              omega
          refine ⟨fun _ => ⟨htot, hlens.1, hlens.2⟩, ?_⟩
          rw [hws, ← hval]
          simpa [Nat.add_assoc, Nat.add_comm 1 remaining] using
            splice_step w (nw.map (fun v => v / total)) i remaining hi hsrc
        · simp at h
      · simp at h
    · simp at h

/-- Whenever the reweighting yields weights for `N ≥ 1` particles, the first `N` of them sum
to one. -/
theorem reweightValues_sum {α : Type} [LinearOrderedField α] (L : Rmath α)
    (M : ModelComponents α) (cs ps : samplingResultSet α) (tau w ws : List α)
    (h : reweightValues L M cs ps tau w = some ws) (hN : 1 ≤ cs.params.nrow) :
    (ws.take cs.params.nrow).sum = 1 ∧ ws.length = w.length := by
  unfold reweightValues at h
  simp only [] at h
  split at h
  · rename_i twc _
    split at h
    · rename_i nw total hloop
      obtain ⟨ext, hnw, hlen, htot, -⟩ := newWeightsLoop_spec L M _ _ _ _ _ _ _ _ _ _ _ _ _ hloop
      obtain ⟨hrest, hws⟩ := normalizeLoop_spec nw total cs.params.nrow 0 w ws h
      obtain ⟨htot0, -, hwlen⟩ := hrest (by omega)
      simp only [List.nil_append] at hnw
      subst hnw
      have hmaplen : (nw.map (fun v => v / total)).length = cs.params.nrow := by
        simpa using hlen
      have htake : ((nw.map (fun v => v / total)).drop 0).take cs.params.nrow
          = nw.map (fun v => v / total) := by
        rw [List.drop_zero, ← hmaplen, List.take_length]
      rw [htake, List.take_zero, List.nil_append, Nat.zero_add] at hws
      constructor
      · rw [hws, List.take_append_of_le_length (by omega), ← hmaplen, List.take_length,
          sum_map_div, htot, zero_add]
        rw [htot, zero_add] at htot0
        exact div_self htot0
      · rw [hws, List.length_append, List.length_drop, hmaplen]
        omega
    · simp at h
  · simp at h

theorem normalizeLoop_returns {α : Type} [LinearOrderedField α] (nw : List α) (total : α)
    (htot : total ≠ 0) :
    ∀ (remaining i : Nat) (w : List α), i + remaining ≤ nw.length → i + remaining ≤ w.length →
      ∃ ws, normalizeLoop nw total remaining i w = some ws
  | 0, _, w, _, _ => ⟨w, rfl⟩
  | remaining + 1, i, w, h1, h2 => by
    obtain ⟨ws, hws⟩ := normalizeLoop_returns nw total htot remaining (i + 1)
      (w.set i (nw.getD i 0 / total)) (by omega) (by simp only [List.length_set]; omega)
    refine ⟨ws, ?_⟩
    simp only [normalizeLoop, getElem?_eq_some_getD nw i 0 (by omega),
      divide?_of_ne_zero _ _ htot]
    rw [if_pos (by omega)]
    exact hws

/-- C12, instance of the amended formula on the example state: the first particle has the
prior density `1/4`. -/
theorem unnormalizedWeight_formula_witness :
    ReweightWellFormed exampleReweightState.model.currentSamples.params
      exampleReweightState.previousSamples.params exampleReweightState.tau [1 / 2, 1 / 2] ∧
    ∃ tmpWeightComp, tauLoop exampleReweightState.tau 5 0 1 = some tmpWeightComp ∧
      unnormalizedWeight exampleRmath exampleComponents
          exampleReweightState.model.currentSamples.params
          exampleReweightState.previousSamples.params exampleReweightState.tau [1 / 2, 1 / 2]
          tmpWeightComp 2 5 0
        = some ((1 / 4) / mixtureDenominator exampleRmath.exp kernelExponent exampleParamVector
            exampleReweightState.previousSamples.params.rows exampleReweightState.tau
            [1 / 2, 1 / 2] 2 5) :=
  have hwf : ReweightWellFormed exampleReweightState.model.currentSamples.params
      exampleReweightState.previousSamples.params exampleReweightState.tau [1 / 2, 1 / 2] := by
    unfold ReweightWellFormed
    with_unfolding_all decide
  ⟨hwf,
    let ⟨t, h1, h2, _⟩ := unnormalizedWeight_formula exampleRmath exampleComponents
      exampleReweightState.model.currentSamples.params
      exampleReweightState.previousSamples.params exampleReweightState.tau [1 / 2, 1 / 2] hwf 0
      (by decide) (1 / 4) (by with_unfolding_all decide) (by with_unfolding_all decide)
    ⟨t, h1, h2⟩⟩

/-- The weights after `updateWeights` whenever the reweighting is performed. -/
theorem updateWeights_weights {α : Type} [LinearOrderedField α] (L : Rmath α)
    (M : ModelComponents α) (K : AlgorithmCodes) (control : samplingControl α)
    (st : FitState α) (halg : control.algorithm = K.ALG_ModifiedBeaumont2009)
    (hre : st.model.reweight = 1) :
    (updateWeights L M K control st).weights
      = st.weights.bind (fun w =>
          reweightValues L M st.model.currentSamples st.previousSamples st.tau w) ∧
    (updateWeights L M K control st).model.reweight = 0 := by
  unfold updateWeights
  rw [if_pos ⟨halg, hre⟩]
  exact ⟨rfl, rfl⟩

/-- C11, counterexample: with a zero bandwidth (`tau[0] = 0`), and likewise with every current
particle outside the support of the prior (all prior densities `0`, so that `totalWeight` is
`0`), the reweighting divides by zero and leaves no weights that sum to one: the weights
after `updateWeights` are undefined. -/
theorem updateWeights_sum_not_always_one :
    exampleSmcControl.algorithm = exampleCodes.ALG_ModifiedBeaumont2009 ∧
    exampleZeroTauState.model.reweight = 1 ∧ exampleZeroPriorState.model.reweight = 1 ∧
    exampleZeroTauState.weights = some [1 / 2, 1 / 2] ∧
    exampleZeroPriorState.weights = some [1 / 2, 1 / 2] ∧
    (updateWeights exampleRmath exampleComponents exampleCodes exampleSmcControl
      exampleZeroTauState).weights = none ∧
    (updateWeights exampleRmath exampleComponents exampleCodes exampleSmcControl
      exampleZeroPriorState).weights = none := by
  refine ⟨rfl, rfl, rfl, rfl, rfl, ?_, ?_⟩
  · with_unfolding_all decide
  · with_unfolding_all decide

/-- C11, amended: when `updateWeights` performs a reweight (SMC algorithm, reweight flag set)
for `N ≥ 1` particles, the flag is cleared, and the weights it leaves, whenever they are
numbers, sum to one.  They are the quotients `newWeights(i) / totalWeight` of the values
computed by the loop over the current particles, `totalWeight` being the sum of the
`newWeights(i)`: with `totalWeight` non-zero the `N` weights are these quotients and sum to
one, and with `totalWeight` zero they are quotients by zero.  The values are elements of the
field: an infinity, as left by an overflow of `std::exp`, is not one of them. -/
theorem updateWeights_weights_sum_one {α : Type} [LinearOrderedField α] (L : Rmath α)
    (M : ModelComponents α) (K : AlgorithmCodes) (control : samplingControl α)
    (st : FitState α) (halg : control.algorithm = K.ALG_ModifiedBeaumont2009)
    (hre : st.model.reweight = 1) (hN : 1 ≤ st.model.currentSamples.params.nrow) :
    (updateWeights L M K control st).model.reweight = 0 ∧
    (∀ ws, (updateWeights L M K control st).weights = some ws →
      (ws.take st.model.currentSamples.params.nrow).sum = 1) ∧
    (∀ w tmpWeightComp newWeights totalWeight, st.weights = some w →
      st.model.currentSamples.params.nrow ≤ w.length →
      tauLoop st.tau st.model.currentSamples.params.ncol 0 1 = some tmpWeightComp →
      newWeightsLoop L M st.model.currentSamples.params st.previousSamples.params st.tau w
          tmpWeightComp st.model.currentSamples.params.nrow
          st.model.currentSamples.params.ncol st.model.currentSamples.params.nrow 0 [] 0
        = some (newWeights, totalWeight) →
      totalWeight = newWeights.sum ∧
      (totalWeight ≠ 0 →
        ∃ ws, (updateWeights L M K control st).weights = some ws ∧
          ws.take st.model.currentSamples.params.nrow
            = newWeights.map (fun v => v / totalWeight) ∧
          (ws.take st.model.currentSamples.params.nrow).sum = 1) ∧
      (totalWeight = 0 → (updateWeights L M K control st).weights = none)) := by
  obtain ⟨hweights, hflag⟩ := updateWeights_weights L M K control st halg hre
  refine ⟨hflag, ?_, ?_⟩
  · intro ws hws
    rw [hweights] at hws
    obtain ⟨w, -, hw⟩ := Option.bind_eq_some.mp hws
    exact (reweightValues_sum L M _ _ _ w ws hw hN).1
  · intro w twc nw total hw hwlen htau hloop
    obtain ⟨ext, hnw, hlen, htot, -⟩ := newWeightsLoop_spec L M _ _ _ _ _ _ _ _ _ _ _ _ _ hloop
    simp only [List.nil_append] at hnw
    subst hnw
    rw [zero_add] at htot
    have hcall : (updateWeights L M K control st).weights
        = normalizeLoop nw total st.model.currentSamples.params.nrow 0 w := by
      rw [hweights, hw]
      simp only [Option.some_bind, reweightValues, htau, hloop]
    refine ⟨htot, ?_, ?_⟩
    · intro hne
      obtain ⟨ws, hws⟩ := normalizeLoop_returns nw total hne
        st.model.currentSamples.params.nrow 0 w (by omega) (by omega)
      have hsum := (reweightValues_sum L M st.model.currentSamples st.previousSamples st.tau w
        ws (by simp only [reweightValues, htau, hloop]; exact hws) hN).1
      obtain ⟨-, hform⟩ := normalizeLoop_spec nw total _ 0 w ws hws
      have hmaplen : (nw.map (fun v => v / total)).length
          = st.model.currentSamples.params.nrow := by simpa using hlen
      refine ⟨ws, by rw [hcall, hws], ?_, hsum⟩
      rw [hform, List.take_zero, List.nil_append, List.drop_zero, Nat.zero_add,
        ← hmaplen, List.take_length, List.take_append_of_le_length (le_refl _),
        List.take_length]
    · intro hzero
      rw [hcall]
      obtain ⟨n, hn⟩ : ∃ n, st.model.currentSamples.params.nrow = n + 1 :=
        ⟨st.model.currentSamples.params.nrow - 1, by omega⟩
      rw [hn]
      cases hv : nw[0]? with
      | none => simp only [normalizeLoop, hv]
      | some v => simp only [normalizeLoop, hv, divide?, hzero, if_true]

/-- C11, instance of the amended property on a state of two particles whose unnormalised
weights `1/16` and `1/1312` have the non-zero sum `83/1312`: the weights left are `82/83` and
`1/83`. -/
theorem updateWeights_weights_sum_one_witness :
    exampleSmcControl.algorithm = exampleCodes.ALG_ModifiedBeaumont2009 ∧
    exampleSmallReweightState.model.reweight = 1 ∧
    1 ≤ exampleSmallReweightState.model.currentSamples.params.nrow ∧
    tauLoop exampleSmallReweightState.tau 2 0 1 = some 1 ∧
    newWeightsLoop exampleRmath exampleGammaComponents
        exampleSmallReweightState.model.currentSamples.params
        exampleSmallReweightState.previousSamples.params exampleSmallReweightState.tau
        [1 / 2, 1 / 2] 1 2 2 2 0 [] 0
      = some (exampleNewWeights, exampleTotalWeight) ∧
    (updateWeights exampleRmath exampleGammaComponents exampleCodes exampleSmcControl
        exampleSmallReweightState).weights = some [82 / 83, 1 / 83] ∧
    exampleTotalWeight = exampleNewWeights.sum ∧
    (exampleTotalWeight ≠ 0 →
      ∃ ws, (updateWeights exampleRmath exampleGammaComponents exampleCodes exampleSmcControl
          exampleSmallReweightState).weights = some ws ∧
        ws.take exampleSmallReweightState.model.currentSamples.params.nrow
          = exampleNewWeights.map (fun v => v / exampleTotalWeight) ∧
        (ws.take exampleSmallReweightState.model.currentSamples.params.nrow).sum = 1) ∧
    (exampleTotalWeight = 0 →
      (updateWeights exampleRmath exampleGammaComponents exampleCodes exampleSmcControl
        exampleSmallReweightState).weights = none) :=
  have hN : 1 ≤ exampleSmallReweightState.model.currentSamples.params.nrow := by decide
  have htau : tauLoop exampleSmallReweightState.tau 2 0 1 = some 1 := by
    with_unfolding_all decide
  have hloop : newWeightsLoop exampleRmath exampleGammaComponents
      exampleSmallReweightState.model.currentSamples.params
      exampleSmallReweightState.previousSamples.params exampleSmallReweightState.tau
      [1 / 2, 1 / 2] 1 2 2 2 0 [] 0 = some (exampleNewWeights, exampleTotalWeight) := by
    set_option maxRecDepth 4000 in with_unfolding_all decide
  have hweights : (updateWeights exampleRmath exampleGammaComponents exampleCodes
      exampleSmcControl exampleSmallReweightState).weights = some [82 / 83, 1 / 83] := by
    with_unfolding_all decide
  ⟨rfl, rfl, hN, htau, hloop, hweights,
    (updateWeights_weights_sum_one exampleRmath exampleGammaComponents exampleCodes
      exampleSmcControl exampleSmallReweightState rfl rfl hN).2.2 [1 / 2, 1 / 2] 1
      exampleNewWeights exampleTotalWeight rfl (by decide) htau hloop⟩

/-! ## The update fraction of `combineResults_basic` -/

/-- One iteration of the zipper merge leaves the incoming cursor or advances it by one. -/
theorem zipperStep_idx2 {α : Type} [LinearOrder α] (cur : List α) (curP : NumericMatrix α)
    (nw : List α) (nwP : NumericMatrix α) (currentIndex newIndex : List Nat) (i : Nat)
    (s s1 : ZipperState α)
    (h : zipperStep cur curP nw nwP currentIndex newIndex i s = some s1) :
    s1.idx2 = s.idx2 ∨ s1.idx2 = s.idx2 + 1 := by
  unfold zipperStep at h
  split at h
  · split at h
    · split at h
      · split at h
        · split at h
          · simp only [Option.some.injEq] at h
            subst h
            exact Or.inr rfl
          · simp at h
        · simp at h
      · split at h
        · split at h
          · split at h
            · simp only [Option.some.injEq] at h
              subst h
              exact Or.inl rfl
            · simp at h
          · simp at h
        · simp only [Option.some.injEq] at h
          subst h
          exact Or.inl rfl
    · simp at h
  · simp at h

/-- A returning zipper merge has one trace entry per iteration, and its incoming cursor has
advanced by the number of incoming elements selected. -/
theorem zipperTrace_spec {α : Type} [LinearOrder α] (cur : List α) (curP : NumericMatrix α)
    (nw : List α) (nwP : NumericMatrix α) (currentIndex newIndex : List Nat) :
    ∀ (remaining i : Nat) (s t : ZipperState α),
      zipperLoop cur curP nw nwP currentIndex newIndex remaining i s = some t →
      (zipperTrace cur curP nw nwP currentIndex newIndex remaining i s).length = remaining ∧
      t.idx2 = s.idx2 +
        selectedIncoming (zipperTrace cur curP nw nwP currentIndex newIndex remaining i s)
  | 0, _, s, t, h => by
    simp only [zipperLoop, Option.some.injEq] at h
    subst h
    simp [zipperTrace, selectedIncoming]
  | remaining + 1, i, s, t, h => by
    simp only [zipperLoop] at h
    split at h
    · rename_i s1 hs1
      obtain ⟨hlen, hidx⟩ := zipperTrace_spec cur curP nw nwP currentIndex newIndex remaining
        (i + 1) s1 t h
      simp only [zipperTrace, hs1, List.length_cons, hlen, true_and]
      rcases zipperStep_idx2 cur curP nw nwP currentIndex newIndex i s s1 hs1 with h2 | h2
      · have hne : ¬ s1.idx2 = s.idx2 + 1 := by omega
        rw [hidx, h2]
        simp [selectedIncoming, hne]
      · rw [hidx, h2]
        simp [selectedIncoming]
        omega
    · simp at h

/-- C20, counterexample: scenario B.  Merging the current distances `[1, 3, 5]` with the
incoming distances `[1/2, 4, 6]` compares two incoming elements against a current element
(`1/2` in the first iteration, `4` in the second and the third) and selects one of them, yet
leaves `updateFraction = 1/3`, not `1/2`. -/
theorem combineResults_basic_updateFraction_not_over_considered :
    combineResults_basic exampleState exampleCurrent exampleCurrentParams exampleIncoming
      exampleIncomingParams = some (exampleMerged, exampleStateMerged) ∧
    basicTrace exampleCurrent exampleCurrentParams exampleIncoming exampleIncomingParams
      = [(0, true), (1, false), (1, false)] ∧
    selectedIncoming (basicTrace exampleCurrent exampleCurrentParams exampleIncoming
      exampleIncomingParams) = 1 ∧
    consideredIncoming (basicTrace exampleCurrent exampleCurrentParams exampleIncoming
      exampleIncomingParams) = 2 ∧
    exampleStateMerged.updateFraction = 1 / 3 ∧
    exampleStateMerged.updateFraction ≠
      (selectedIncoming (basicTrace exampleCurrent exampleCurrentParams exampleIncoming
        exampleIncomingParams) : ℚ) /
      (consideredIncoming (basicTrace exampleCurrent exampleCurrentParams exampleIncoming
        exampleIncomingParams) : ℚ) := by
  have htrace : basicTrace exampleCurrent exampleCurrentParams exampleIncoming
      exampleIncomingParams = [(0, true), (1, false), (1, false)] := by
    with_unfolding_all decide
  refine ⟨by with_unfolding_all decide, htrace, ?_, ?_, rfl, ?_⟩
  · rw [htrace]; decide
  · rw [htrace]; decide
  · rw [htrace]
    have h1 : selectedIncoming [(0, true), (1, false), (1, false)] = 1 := by decide
    have h2 : consideredIncoming [(0, true), (1, false), (1, false)] = 2 := by decide
    rw [h1, h2]
    show (1 / 3 : ℚ) ≠ _
    norm_num

/-- C20, amended: after a returning call of `combineResults_basic`, `updateFraction` equals
the number of incoming elements that were selected into the output divided by the number of
output slots, which is the length of the current sample set and the number of iterations
(comparisons) of the merge. -/
theorem combineResults_basic_updateFraction_over_slots {α : Type} [LinearOrder α]
    (st st1 : ModelState α) (cur : List α) (curP : NumericMatrix α) (nw : List α)
    (nwP : NumericMatrix α) (out : samplingResultSet α)
    (h : combineResults_basic st cur curP nw nwP = some (out, st1)) :
    st1.updateFraction = (selectedIncoming (basicTrace cur curP nw nwP) : ℚ) / (cur.length : ℚ) ∧
    (basicTrace cur curP nw nwP).length = cur.length ∧ out.result.length = cur.length := by
  obtain ⟨s, lo, hi, hloop, -, -, -, hlen, hsum, herr, -, -, hst⟩ :=
    combineResults_basic_spec st st1 cur curP nw nwP out h
  obtain ⟨htl, hidx⟩ := zipperTrace_spec cur curP nw nwP (sort_indexes cur) (sort_indexes nw)
    cur.length 0 (zipperInit cur curP) s hloop
  have hbt : basicTrace cur curP nw nwP = zipperTrace cur curP nw nwP (sort_indexes cur)
      (sort_indexes nw) cur.length 0 (zipperInit cur curP) := by
    unfold basicTrace
    rw [sort_indexes_length]
  rw [hbt]
  refine ⟨?_, htl, hlen⟩
  rw [hst]
  have hidx0 : s.idx2 = selectedIncoming (zipperTrace cur curP nw nwP (sort_indexes cur)
      (sort_indexes nw) cur.length 0 (zipperInit cur curP)) := by
    rw [hidx]
    exact Nat.zero_add _
  show (s.idx2 : ℚ) / ((s.idx1 + s.idx2 + s.err : Nat) : ℚ) = _
  rw [herr, Nat.add_zero, hsum, ← hidx0]

/-- C20, instance of the amended property on scenario B: one of three slots. -/
theorem combineResults_basic_updateFraction_over_slots_witness :
    combineResults_basic exampleState exampleCurrent exampleCurrentParams exampleIncoming
      exampleIncomingParams = some (exampleMerged, exampleStateMerged) ∧
    exampleStateMerged.updateFraction
      = (selectedIncoming (basicTrace exampleCurrent exampleCurrentParams exampleIncoming
          exampleIncomingParams) : ℚ) / (exampleCurrent.length : ℚ) ∧
    (basicTrace exampleCurrent exampleCurrentParams exampleIncoming
      exampleIncomingParams).length = exampleCurrent.length ∧
    exampleMerged.result.length = exampleCurrent.length :=
  have h : combineResults_basic exampleState exampleCurrent exampleCurrentParams
      exampleIncoming exampleIncomingParams = some (exampleMerged, exampleStateMerged) := by
    with_unfolding_all decide
  ⟨h, combineResults_basic_updateFraction_over_slots exampleState exampleStateMerged
    exampleCurrent exampleCurrentParams exampleIncoming exampleIncomingParams exampleMerged h⟩

/-! ## `sample`: the rounds of the batch loop -/

/-- A parameter update that returns leaves the counters and the merge state as they are. -/
theorem updateParams_ok {α : Type} [LinearOrderedField α] (sd : List α → α)
    (K : AlgorithmCodes) (control : samplingControl α) (input : RoundInput α)
    (st st1 : FitState α) (h : updateParams sd K control input st = Step.ok st1) :
    st1.batchNum = st.batchNum ∧ st1.ncalls = st.ncalls ∧ st1.model = st.model := by
  unfold updateParams at h
  split at h
  · split at h
    · simp only [Step.ok.injEq] at h
      subst h
      exact ⟨rfl, rfl, rfl⟩
    · simp at h
  · split at h
    · split at h
      · rename_i st2 hsmc
        simp only [Step.ok.injEq] at h
        subst h
        unfold updateParams_SMC at hsmc
        simp only [] at hsmc
        split at hsmc
        · split at hsmc
          · obtain ⟨P, -, hP⟩ := Option.map_eq_some'.mp hsmc
            subst hP
            exact ⟨rfl, rfl, rfl⟩
          · simp at hsmc
        · simp at hsmc
      · simp at h
    · simp at h

/-- The only fatal error of a parameter update is "Unknown algorithm number"; it is raised
after the first batch, for an algorithm code that is neither of the two known ones, with the
state untouched. -/
theorem updateParams_fatal {α : Type} [LinearOrderedField α] (sd : List α → α)
    (K : AlgorithmCodes) (control : samplingControl α) (input : RoundInput α)
    (st st1 : FitState α) (message : FatalError)
    (h : updateParams sd K control input st = Step.fatal message st1) :
    message = FatalError.unknownAlgorithm ∧ st1 = st ∧ st.batchNum ≠ 0 ∧
    control.algorithm ≠ K.ALG_BasicABC ∧ control.algorithm ≠ K.ALG_ModifiedBeaumont2009 := by
  unfold updateParams at h
  split at h
  · split at h <;> simp at h
  · rename_i h1
    split at h
    · split at h <;> simp at h
    · rename_i h2
      simp only [Step.fatal.injEq] at h
      exact ⟨h.1.symm, h.2.symm, fun h0 => h1 (Or.inl h0), fun hb => h1 (Or.inr hb), h2⟩

/-- The reweighting leaves the counters as they are. -/
theorem updateWeights_counters {α : Type} [LinearOrderedField α] (L : Rmath α)
    (M : ModelComponents α) (K : AlgorithmCodes) (control : samplingControl α)
    (st : FitState α) :
    (updateWeights L M K control st).batchNum = st.batchNum ∧
    (updateWeights L M K control st).ncalls = st.ncalls := by
  unfold updateWeights
  split <;> exact ⟨rfl, rfl⟩

/-- A dispatch in the sampling mode that returns has advanced the dispatch counter by one. -/
theorem simulate_sample_ncalls {α β : Type} [Zero α] (ncalls nrow : Nat)
    (doubles : List (Nat × α)) (completes : List (Nat × β)) (out : SimOutput α β) (n : Nat)
    (h : simulate ncalls nrow SimAtom.sample_atom doubles completes = some (out, n)) :
    n = ncalls + 1 ∧ ∃ v, out = SimOutput.result v := by
  simp only [simulate] at h
  obtain ⟨v, -, hv⟩ := Option.map_eq_some'.mp h
  simp only [Prod.mk.injEq] at hv
  exact ⟨hv.2.symm, v, hv.1.symm⟩

/-- A round that completes has made one dispatch, and has either advanced the batch counter
and reset the stall counter, or (in the SMC algorithm, after the first batch) advanced the
stall counter and left the batch counter. -/
theorem sampleRound_ok {α : Type} [LinearOrderedField α] (sd : List α → α) (L : Rmath α)
    (M : ModelComponents α) (K : AlgorithmCodes) (control : samplingControl α)
    (inputs : Nat → RoundInput α) (s s1 : LoopState α)
    (h : sampleRound sd L M K control inputs s = Step.ok s1) :
    s1.st.ncalls = s.st.ncalls + 1 ∧
    ((s1.st.batchNum = s.st.batchNum + 1 ∧ s1.incompleteBatches = 0) ∨
     (s1.st.batchNum = s.st.batchNum ∧ s1.incompleteBatches = s.incompleteBatches + 1 ∧
      control.algorithm = K.ALG_ModifiedBeaumont2009 ∧ s.st.batchNum ≠ 0)) := by
  unfold sampleRound at h
  split at h
  · rename_i st1 hup
    obtain ⟨hb, hn, -⟩ := updateParams_ok sd K control _ s.st st1 hup
    split at h
    · rename_i newResults ncalls hsim
      obtain ⟨hnc, -⟩ := simulate_sample_ncalls _ _ _ _ _ _ hsim
      dsimp only at h
      split at h
      · rename_i out model hcomb
        simp only [Step.ok.injEq] at h
        subst h
        simp only [(updateWeights_counters L M K control _).1,
          (updateWeights_counters L M K control _).2]
        split
        · rename_i hc
          refine ⟨by simp only [hnc, hn], Or.inr ⟨hb, rfl, hc.1, ?_⟩⟩
          have := hc.2.2
          simpa [hb] using this
        · exact ⟨by simp only [hnc, hn], Or.inl ⟨by simp only [hb], rfl⟩⟩
      · simp at h
    · simp at h
  · simp at h
  · simp at h

/-- The only fatal error of a round is "Unknown algorithm number", raised by the parameter
update before the dispatch of the round, with the state untouched. -/
theorem sampleRound_fatal {α : Type} [LinearOrderedField α] (sd : List α → α) (L : Rmath α)
    (M : ModelComponents α) (K : AlgorithmCodes) (control : samplingControl α)
    (inputs : Nat → RoundInput α) (s s1 : LoopState α) (message : FatalError)
    (h : sampleRound sd L M K control inputs s = Step.fatal message s1) :
    message = FatalError.unknownAlgorithm ∧ s1 = s ∧ s.st.batchNum ≠ 0 ∧
    control.algorithm ≠ K.ALG_BasicABC ∧ control.algorithm ≠ K.ALG_ModifiedBeaumont2009 := by
  unfold sampleRound at h
  split at h
  · split at h
    · dsimp only at h
      split at h <;> simp at h
    · simp at h
  · rename_i m st1 hup
    obtain ⟨hm, hst, hrest⟩ := updateParams_fatal sd K control _ s.st st1 m hup
    simp only [Step.fatal.injEq] at h
    obtain ⟨h1, h2⟩ := h
    subst h1 h2 hst
    exact ⟨hm, rfl, hrest⟩
  · simp at h

/-! ## `sample`: the batch loop -/

/-- With the loop condition false the loop is over and the current sample set is returned. -/
theorem sampleLoop_exit {α : Type} [LinearOrderedField α] (sd : List α → α) (L : Rmath α)
    (M : ModelComponents α) (K : AlgorithmCodes) (control : samplingControl α)
    (inputs : Nat → RoundInput α) (nBatches fuel : Nat) (s : LoopState α)
    (h : ¬ (s.st.batchNum < nBatches ∧ s.incompleteBatches < control.max_batches)) :
    sampleLoop sd L M K control inputs nBatches fuel s
      = SampleResult.returned s.st.model.currentSamples s.st := by
  cases fuel with
  | zero => simp only [sampleLoop, if_neg h]
  | succ fuel => simp only [sampleLoop, if_neg h]

/-- The only fatal error of the batch loop is "Unknown algorithm number", raised after the
first batch for an algorithm code that is neither of the two known ones. -/
theorem sampleLoop_fatal {α : Type} [LinearOrderedField α] (sd : List α → α) (L : Rmath α)
    (M : ModelComponents α) (K : AlgorithmCodes) (control : samplingControl α)
    (inputs : Nat → RoundInput α) (nBatches : Nat) :
    ∀ (fuel : Nat) (s : LoopState α) (message : FatalError) (st1 : FitState α),
      sampleLoop sd L M K control inputs nBatches fuel s = SampleResult.fatal message st1 →
      message = FatalError.unknownAlgorithm ∧ st1.batchNum ≠ 0 ∧
      control.algorithm ≠ K.ALG_BasicABC ∧ control.algorithm ≠ K.ALG_ModifiedBeaumont2009
  | 0, s, message, st1, h => by
    simp only [sampleLoop] at h
    split at h <;> simp at h
  | fuel + 1, s, message, st1, h => by
    simp only [sampleLoop] at h
    split at h
    · split at h
      · rename_i s1 _
        exact sampleLoop_fatal sd L M K control inputs nBatches fuel s1 message st1 h
      · rename_i m s1 hround
        obtain ⟨hm, hs, hb, hrest⟩ := sampleRound_fatal sd L M K control inputs s s1 m hround
        simp only [SampleResult.fatal.injEq] at h
        obtain ⟨h1, h2⟩ := h
        subst h1 h2 hs
        exact ⟨hm, hb, hrest⟩
      · simp at h
    · simp at h

/-- The batch loop ends within `(nBatches - batchNum) * max_batches - incompleteBatches`
rounds: with that much fuel it does not run out of fuel, and the state in which it returns or
fails has seen at most that many dispatches more. -/
theorem sampleLoop_bound {α : Type} [LinearOrderedField α] (sd : List α → α) (L : Rmath α)
    (M : ModelComponents α) (K : AlgorithmCodes) (control : samplingControl α)
    (inputs : Nat → RoundInput α) (nBatches : Nat) :
    ∀ (fuel : Nat) (s : LoopState α),
      (nBatches - s.st.batchNum) * control.max_batches ≤ fuel + s.incompleteBatches →
      sampleLoop sd L M K control inputs nBatches fuel s ≠ SampleResult.outOfFuel ∧
      ∀ st1, (sampleLoop sd L M K control inputs nBatches fuel s).state? = some st1 →
        st1.ncalls ≤ s.st.ncalls +
          ((nBatches - s.st.batchNum) * control.max_batches - s.incompleteBatches)
  | 0, s, hfuel => by
    by_cases hc : s.st.batchNum < nBatches ∧ s.incompleteBatches < control.max_batches
    · exfalso
      have hX : control.max_batches ≤ (nBatches - s.st.batchNum) * control.max_batches :=
        Nat.le_mul_of_pos_left _ (by omega)
      omega
    · rw [sampleLoop_exit sd L M K control inputs nBatches 0 s hc]
      refine ⟨by simp, ?_⟩
      intro st1 hst1
      simp only [SampleResult.state?, Option.some.injEq] at hst1
      subst hst1
      omega
  | fuel + 1, s, hfuel => by
    by_cases hc : s.st.batchNum < nBatches ∧ s.incompleteBatches < control.max_batches
    · have hX : control.max_batches ≤ (nBatches - s.st.batchNum) * control.max_batches :=
        Nat.le_mul_of_pos_left _ (by omega)
      have hX1 : (nBatches - (s.st.batchNum + 1)) * control.max_batches + control.max_batches
          = (nBatches - s.st.batchNum) * control.max_batches := by
        have hsplit : nBatches - s.st.batchNum = (nBatches - (s.st.batchNum + 1)) + 1 := by
          omega
        rw [hsplit, Nat.add_mul, Nat.one_mul]
      simp only [sampleLoop, if_pos hc]
      cases hround : sampleRound sd L M K control inputs s with
      | ok s1 =>
        obtain ⟨hn, hcase⟩ := sampleRound_ok sd L M K control inputs s s1 hround
        have hfuel1 : (nBatches - s1.st.batchNum) * control.max_batches
            ≤ fuel + s1.incompleteBatches := by
          rcases hcase with ⟨hb, hi⟩ | ⟨hb, hi, -, -⟩
          · rw [hb, hi]; omega
          · rw [hb, hi]; omega
        obtain ⟨hne, hbound⟩ := sampleLoop_bound sd L M K control inputs nBatches fuel s1 hfuel1
        refine ⟨hne, ?_⟩
        intro st1 hst1
        have := hbound st1 hst1
        rcases hcase with ⟨hb, hi⟩ | ⟨hb, hi, -, -⟩
        · rw [hb, hi] at this; omega
        · rw [hb, hi] at this; omega
      | fatal message s1 =>
        obtain ⟨-, hs, -⟩ := sampleRound_fatal sd L M K control inputs s s1 message hround
        refine ⟨by simp, ?_⟩
        intro st1 hst1
        simp only [SampleResult.state?, Option.some.injEq] at hst1
        subst hst1 hs
        omega
      | undefined =>
        exact ⟨by simp, fun st1 hst1 => by simp [SampleResult.state?] at hst1⟩
    · rw [sampleLoop_exit sd L M K control inputs nBatches (fuel + 1) s hc]
      refine ⟨by simp, ?_⟩
      intro st1 hst1
      simp only [SampleResult.state?, Option.some.injEq] at hst1
      subst hst1
      omega

/-- The state from which the batch loop of `sample` starts has the counters of the state in
which `sample` was called, but for the batch counter, which is zero. -/
theorem sampleInit_counters {α : Type} [LinearOrderedField α] (K : AlgorithmCodes)
    (control : samplingControl α) (infinity : α) (N nParams : Nat) (st : FitState α) :
    (sampleInit K control infinity N nParams st).batchNum = 0 ∧
    (sampleInit K control infinity N nParams st).ncalls = st.ncalls :=
  ⟨rfl, rfl⟩

/-- What `sample` computes once its reads before the batch-size check are defined. -/
theorem sample_eq {α : Type} [LinearOrderedField α] [FloorRing α] (sd : List α → α)
    (L : Rmath α) (M : ModelComponents α) (K : AlgorithmCodes) (control : samplingControl α)
    (infinity : α) (inputs : Nat → RoundInput α) (fuel N : Nat) (st : FitState α)
    (hasReinf : Bool) (nBatches : Nat) (hr : hasReinfection M = some hasReinf)
    (hnb : nBatches? K control N = some nBatches) :
    sample sd L M K control infinity inputs fuel N st
      = if control.batch_size < N then SampleResult.fatal FatalError.batchSizeTooSmall st
        else sampleLoop sd L M K control inputs nBatches fuel
          { st := sampleInit K control infinity N
              (nBeta M + nBetaRS M hasReinf + nRho M + 2) st,
            incompleteBatches := 0 } := by
  unfold sample
  rw [hr, hnb]

/-- A fatal error of `sample` is either the batch-size error, raised in the state in which
`sample` was called, or a fatal error of the batch loop. -/
theorem sample_fatal {α : Type} [LinearOrderedField α] [FloorRing α] (sd : List α → α)
    (L : Rmath α) (M : ModelComponents α) (K : AlgorithmCodes) (control : samplingControl α)
    (infinity : α) (inputs : Nat → RoundInput α) (fuel N : Nat) (st st1 : FitState α)
    (message : FatalError)
    (h : sample sd L M K control infinity inputs fuel N st = SampleResult.fatal message st1) :
    (message = FatalError.batchSizeTooSmall ∧ st1 = st ∧ control.batch_size < N) ∨
    (¬ control.batch_size < N ∧ ∃ hasReinf nBatches, hasReinfection M = some hasReinf ∧
      nBatches? K control N = some nBatches ∧
      sampleLoop sd L M K control inputs nBatches fuel
          { st := sampleInit K control infinity N
              (nBeta M + nBetaRS M hasReinf + nRho M + 2) st,
            incompleteBatches := 0 }
        = SampleResult.fatal message st1) := by
  cases hr : hasReinfection M with
  | none => simp [sample, hr] at h
  | some hasReinf =>
    cases hnb : nBatches? K control N with
    | none => simp [sample, hr, hnb] at h
    | some nBatches =>
      rw [sample_eq sd L M K control infinity inputs fuel N st hasReinf nBatches hr hnb] at h
      by_cases hbs : control.batch_size < N
      · rw [if_pos hbs] at h
        simp only [SampleResult.fatal.injEq] at h
        exact Or.inl ⟨h.1.symm, h.2.symm, hbs⟩
      · rw [if_neg hbs] at h
        exact Or.inr ⟨hbs, hasReinf, nBatches, rfl, rfl, h⟩

/-- C17: the batch loop of `sample` never loops indefinitely.  Every round that completes
makes one dispatch and either advances the batch counter and resets the stall counter, or
advances the stall counter; and with fuel for `nBatches * max_batches` rounds `sample` does
not run out of fuel, the state in which it returns or fails having seen at most
`nBatches * max_batches` dispatches (rounds) more than the state in which it was called. -/
theorem sample_batch_loop_terminates {α : Type} [LinearOrderedField α] [FloorRing α]
    (sd : List α → α) (L : Rmath α) (M : ModelComponents α) (K : AlgorithmCodes)
    (control : samplingControl α) (infinity : α) (inputs : Nat → RoundInput α) (N : Nat)
    (st : FitState α) (nBatches : Nat) (hnb : nBatches? K control N = some nBatches) :
    (∀ s s1, sampleRound sd L M K control inputs s = Step.ok s1 →
      s1.st.ncalls = s.st.ncalls + 1 ∧
      ((s1.st.batchNum = s.st.batchNum + 1 ∧ s1.incompleteBatches = 0) ∨
       (s1.st.batchNum = s.st.batchNum ∧ s1.incompleteBatches = s.incompleteBatches + 1))) ∧
    (∀ fuel, nBatches * control.max_batches ≤ fuel →
      sample sd L M K control infinity inputs fuel N st ≠ SampleResult.outOfFuel ∧
      ∀ st1, (sample sd L M K control infinity inputs fuel N st).state? = some st1 →
        st1.ncalls ≤ st.ncalls + nBatches * control.max_batches) := by
  constructor
  · intro s s1 h
    obtain ⟨hn, hcase⟩ := sampleRound_ok sd L M K control inputs s s1 h
    refine ⟨hn, ?_⟩
    rcases hcase with h1 | ⟨hb, hi, -, -⟩
    · exact Or.inl h1
    · exact Or.inr ⟨hb, hi⟩
  · intro fuel hfuel
    cases hr : hasReinfection M with
    | none =>
      have hu : sample sd L M K control infinity inputs fuel N st = SampleResult.undefined := by
        simp [sample, hr]
      rw [hu]
      exact ⟨by simp, fun st1 h => by simp [SampleResult.state?] at h⟩
    | some hasReinf =>
      rw [sample_eq sd L M K control infinity inputs fuel N st hasReinf nBatches hr hnb]
      by_cases hbs : control.batch_size < N
      · rw [if_pos hbs]
        refine ⟨by simp, ?_⟩
        intro st1 h
        simp only [SampleResult.state?, Option.some.injEq] at h
        subst h
        omega
      · rw [if_neg hbs]
        obtain ⟨hne, hbound⟩ := sampleLoop_bound sd L M K control inputs nBatches fuel
          { st := sampleInit K control infinity N
              (nBeta M + nBetaRS M hasReinf + nRho M + 2) st,
            incompleteBatches := 0 }
          (by
            show (nBatches - 0) * control.max_batches ≤ fuel + 0
            simpa using hfuel)
        refine ⟨hne, ?_⟩
        intro st1 h
        have := hbound st1 h
        simpa [sampleInit] using this

/-- C17, instance on the example SMC run (two generations of at most three batches): with
fuel for six rounds `sample` does not run out of fuel. -/
theorem sample_batch_loop_terminates_witness :
    nBatches? exampleCodes exampleSmcControl 2 = some 2 ∧
    sample exampleSd exampleRmath exampleComponents exampleCodes exampleSmcControl
      exampleInfinity exampleInputs 6 2 exampleFreshState ≠ SampleResult.outOfFuel ∧
    ∀ st1, (sample exampleSd exampleRmath exampleComponents exampleCodes exampleSmcControl
        exampleInfinity exampleInputs 6 2 exampleFreshState).state? = some st1 →
      st1.ncalls ≤ exampleFreshState.ncalls + 2 * exampleSmcControl.max_batches :=
  have hnb : nBatches? exampleCodes exampleSmcControl 2 = some 2 := by
    with_unfolding_all decide
  ⟨hnb,
   (sample_batch_loop_terminates exampleSd exampleRmath exampleComponents exampleCodes
     exampleSmcControl exampleInfinity exampleInputs 2 exampleFreshState 2 hnb).2 6
     (by decide)⟩

/-- C18: once the reads before the check are defined, a batch size smaller than the target
sample size `N` makes `sample` fail with the batch-size error in the very state in which it
was called, whatever the inputs of the rounds and the fuel: no parameter batch is drawn, no
dispatch is made, and sample set, weights, tolerance and counters are unchanged.  With a batch
size of at least `N` the batch-size error is not raised. -/
theorem sample_batch_size_check {α : Type} [LinearOrderedField α] [FloorRing α]
    (sd : List α → α) (L : Rmath α) (M : ModelComponents α) (K : AlgorithmCodes)
    (control : samplingControl α) (infinity : α) (inputs : Nat → RoundInput α)
    (fuel N : Nat) (st : FitState α) :
    (control.batch_size < N →
      ∀ hasReinf nBatches, hasReinfection M = some hasReinf →
        nBatches? K control N = some nBatches →
        sample sd L M K control infinity inputs fuel N st
          = SampleResult.fatal FatalError.batchSizeTooSmall st) ∧
    (N ≤ control.batch_size →
      (sample sd L M K control infinity inputs fuel N st).fatalError?
        ≠ some FatalError.batchSizeTooSmall) := by
  constructor
  · intro hbs hasReinf nBatches hr hnb
    rw [sample_eq sd L M K control infinity inputs fuel N st hasReinf nBatches hr hnb,
      if_pos hbs]
  · intro hbs hfe
    cases hres : sample sd L M K control infinity inputs fuel N st with
    | fatal message st1 =>
      rw [hres] at hfe
      simp only [SampleResult.fatalError?, Option.some.injEq] at hfe
      rcases sample_fatal sd L M K control infinity inputs fuel N st st1 message hres with
        ⟨-, -, hlt⟩ | ⟨-, hasReinf, nBatches, -, -, hloop⟩
      · omega
      · have := (sampleLoop_fatal sd L M K control inputs nBatches fuel _ message st1 hloop).1
        rw [hfe] at this
        exact absurd this (by decide)
    | returned out st1 => rw [hres] at hfe; simp [SampleResult.fatalError?] at hfe
    | undefined => rw [hres] at hfe; simp [SampleResult.fatalError?] at hfe
    | outOfFuel => rw [hres] at hfe; simp [SampleResult.fatalError?] at hfe

/-- C18, instance on the example configuration (batch size four): the target sample size five
is refused in the state of the call, the target sample size two is not. -/
theorem sample_batch_size_check_witness :
    exampleSmcControl.batch_size < 5 ∧
    hasReinfection exampleComponents = some false ∧
    nBatches? exampleCodes exampleSmcControl 5 = some 2 ∧
    sample exampleSd exampleRmath exampleComponents exampleCodes exampleSmcControl
        exampleInfinity exampleInputs 6 5 exampleFreshState
      = SampleResult.fatal FatalError.batchSizeTooSmall exampleFreshState ∧
    2 ≤ exampleSmcControl.batch_size ∧
    (sample exampleSd exampleRmath exampleComponents exampleCodes exampleSmcControl
        exampleInfinity exampleInputs 6 2 exampleFreshState).fatalError?
      ≠ some FatalError.batchSizeTooSmall :=
  have h1 : exampleSmcControl.batch_size < 5 := by decide
  have h2 : hasReinfection exampleComponents = some false := by with_unfolding_all decide
  have h3 : nBatches? exampleCodes exampleSmcControl 5 = some 2 := by
    with_unfolding_all decide
  have h4 : 2 ≤ exampleSmcControl.batch_size := by decide
  ⟨h1, h2, h3,
   (sample_batch_size_check exampleSd exampleRmath exampleComponents exampleCodes
     exampleSmcControl exampleInfinity exampleInputs 6 5 exampleFreshState).1 h1 false 2 h2 h3,
   h4,
   (sample_batch_size_check exampleSd exampleRmath exampleComponents exampleCodes
     exampleSmcControl exampleInfinity exampleInputs 6 2 exampleFreshState).2 h4⟩

/-- An iteration of the zipper merge that returns has read both index vectors and both
distance vectors in bounds, and its slot exists. -/
theorem zipperStep_inv {α : Type} [LinearOrder α] (cur : List α) (curP : NumericMatrix α)
    (nw : List α) (nwP : NumericMatrix α) (currentIndex newIndex : List Nat) (i : Nat)
    (s t : ZipperState α)
    (h : zipperStep cur curP nw nwP currentIndex newIndex i s = some t) :
    ∃ k1 k2 c n, currentIndex[s.idx1]? = some k1 ∧ newIndex[s.idx2]? = some k2 ∧
      cur[k1]? = some c ∧ nw[k2]? = some n ∧ i < s.outResults.length := by
  unfold zipperStep at h
  split at h
  · rename_i k1 k2 hk1 hk2
    split at h
    · rename_i c n hc hn
      refine ⟨k1, k2, c, n, hk1, hk2, hc, hn, ?_⟩
      split at h
      · split at h
        · assumption
        · simp at h
      · rename_i hgt
        split at h
        · split at h
          · assumption
          · simp at h
        · rename_i hle
          exact absurd (le_of_not_lt hgt) hle
    · simp at h
  · simp at h

/-- A position of a zip holds the pair of the entries of that position. -/
theorem mem_pairedRows {α : Type} (results : List α) (params : NumericMatrix α) (k : Nat)
    (d : α) (row : List α) (hd : results[k]? = some d) (hrow : params.rows[k]? = some row) :
    (d, row) ∈ pairedRows results params :=
  List.getElem?_mem (List.getElem?_zip_eq_some.mpr ⟨hd, hrow⟩)

/-- On aligned sample sets an iteration of the zipper merge that returns writes to slot `i` a
distance together with the parameter row paired with it in its source set, keeps the other
slots, and keeps the output aligned. -/
theorem zipperStep_paired {α : Type} [LinearOrder α] (cur : List α) (curP : NumericMatrix α)
    (nw : List α) (nwP : NumericMatrix α) (p : Nat)
    (hcur : Aligned cur curP p) (hnw : Aligned nw nwP p) (i : Nat) (s t : ZipperState α)
    (hs : Aligned s.outResults s.outParams p)
    (h : zipperStep cur curP nw nwP (sort_indexes cur) (sort_indexes nw) i s = some t) :
    Aligned t.outResults t.outParams p ∧
    ∃ d row, t.outResults = s.outResults.set i d ∧
      t.outParams.rows = s.outParams.rows.set i row ∧ i < s.outResults.length ∧
      ((d, row) ∈ pairedRows cur curP ∨ (d, row) ∈ pairedRows nw nwP) := by
  obtain ⟨k1, k2, c, n, hk1, hk2, hc, hn, hi⟩ :=
    zipperStep_inv cur curP nw nwP _ _ i s t h
  obtain ⟨crow, nrow, hcrow, hnrow, hstep⟩ := zipperStep_eq cur curP nw nwP _ _ p hcur hnw i s
    hs hi k1 k2 hk1 hk2 c n hc hn
  rw [h] at hstep
  simp only [Option.some.injEq] at hstep
  by_cases hgt : c > n
  · rw [if_pos hgt] at hstep
    subst hstep
    exact ⟨aligned_set hs i _ nrow (hnw.2.2 _ (List.getElem?_mem hnrow)),
      n, nrow, rfl, rfl, hi, Or.inr (mem_pairedRows nw nwP k2 n nrow hn hnrow)⟩
  · rw [if_neg hgt] at hstep
    subst hstep
    exact ⟨aligned_set hs i _ crow (hcur.2.2 _ (List.getElem?_mem hcrow)),
      c, crow, rfl, rfl, hi, Or.inl (mem_pairedRows cur curP k1 c crow hc hcrow)⟩

/-- On aligned sample sets a zipper merge that returns keeps the output aligned, and every
slot it went through holds a distance together with the parameter row paired with it in its
source set. -/
theorem zipperLoop_paired {α : Type} [LinearOrder α] (cur : List α) (curP : NumericMatrix α)
    (nw : List α) (nwP : NumericMatrix α) (p : Nat)
    (hcur : Aligned cur curP p) (hnw : Aligned nw nwP p) :
    ∀ (remaining i : Nat) (s s1 : ZipperState α),
      Aligned s.outResults s.outParams p →
      zipperLoop cur curP nw nwP (sort_indexes cur) (sort_indexes nw) remaining i s
        = some s1 →
      (∀ k, k < i → ∃ d row, s.outResults[k]? = some d ∧ s.outParams.rows[k]? = some row ∧
        ((d, row) ∈ pairedRows cur curP ∨ (d, row) ∈ pairedRows nw nwP)) →
      Aligned s1.outResults s1.outParams p ∧
      ∀ k, k < i + remaining →
        ∃ d row, s1.outResults[k]? = some d ∧ s1.outParams.rows[k]? = some row ∧
          ((d, row) ∈ pairedRows cur curP ∨ (d, row) ∈ pairedRows nw nwP)
  | 0, i, s, s1, hs, h, hinv => by
    simp only [zipperLoop, Option.some.injEq] at h
    subst h
    exact ⟨hs, fun k hk => hinv k (by omega)⟩
  | remaining + 1, i, s, s1, hs, h, hinv => by
    simp only [zipperLoop] at h
    split at h
    · rename_i t ht
      obtain ⟨hta, d, row, hres, hrows, hi, hmem⟩ :=
        zipperStep_paired cur curP nw nwP p hcur hnw i s t hs ht
      have hirows : i < s.outParams.rows.length := by rw [hs.2.1]; exact hi
      obtain ⟨h1, h2⟩ := zipperLoop_paired cur curP nw nwP p hcur hnw remaining (i + 1) t s1
        hta h (by
          intro k hk
          by_cases hki : k = i
          · subst hki
            refine ⟨d, row, ?_, ?_, hmem⟩
            · rw [hres, List.getElem?_set_self hi]
            · rw [hrows, List.getElem?_set_self hirows]
          · obtain ⟨d0, row0, hd0, hrow0, hmem0⟩ := hinv k (by omega)
            refine ⟨d0, row0, ?_, ?_, hmem0⟩
            · rw [hres, List.getElem?_set_ne (fun h => hki h.symm)]
              exact hd0
            · rw [hrows, List.getElem?_set_ne (fun h => hki h.symm)]
              exact hrow0)
      exact ⟨h1, fun k hk => h2 k (by omega)⟩
    · simp at h

/-- C21: on index-aligned sample sets, every call of `combineResults_basic` that returns has
written to every output slot `i` a distance together with the parameter row that is paired
with that distance in its source set (current or incoming), and the returned results and
parameter rows are index-aligned; with `1 ≤ N ≤ batch size` the call returns. -/
theorem combineResults_basic_rows_paired {α : Type} [LinearOrder α] (st : ModelState α)
    (cur : List α) (curP : NumericMatrix α) (nw : List α) (nwP : NumericMatrix α) (p : Nat)
    (hcur : Aligned cur curP p) (hnw : Aligned nw nwP p) :
    (∀ out st1, combineResults_basic st cur curP nw nwP = some (out, st1) →
      Aligned out.result out.params p ∧
      ∀ i, i < cur.length →
        ∃ d row, out.result[i]? = some d ∧ out.params.rows[i]? = some row ∧
          ((d, row) ∈ pairedRows cur curP ∨ (d, row) ∈ pairedRows nw nwP)) ∧
    (1 ≤ cur.length → cur.length ≤ nw.length →
      ∃ out st1, combineResults_basic st cur curP nw nwP = some (out, st1)) := by
  constructor
  · intro out st1 h
    obtain ⟨s, -, -, hloop, hres, hpar, -⟩ :=
      combineResults_basic_spec st st1 cur curP nw nwP out h
    obtain ⟨h1, h2⟩ := zipperLoop_paired cur curP nw nwP p hcur hnw cur.length 0
      (zipperInit cur curP) s hcur hloop (fun k hk => absurd hk (Nat.not_lt_zero k))
    rw [hres, hpar]
    exact ⟨h1, fun i hi => h2 i (by omega)⟩
  · intro hN hbatch
    exact combineResults_basic_returns st cur curP nw nwP p hcur hnw hN hbatch

/-- C21, instance on scenario B: the output pairs `1/2` with the incoming row `[5, 6]` and `1`,
`3` with the current rows `[10, 11]`, `[30, 31]`. -/
theorem combineResults_basic_rows_paired_witness :
    Aligned exampleCurrent exampleCurrentParams 2 ∧
    Aligned exampleIncoming exampleIncomingParams 2 ∧
    combineResults_basic exampleState exampleCurrent exampleCurrentParams exampleIncoming
      exampleIncomingParams = some (exampleMerged, exampleStateMerged) ∧
    Aligned exampleMerged.result exampleMerged.params 2 ∧
    ∀ i, i < exampleCurrent.length →
      ∃ d row, exampleMerged.result[i]? = some d ∧ exampleMerged.params.rows[i]? = some row ∧
        ((d, row) ∈ pairedRows exampleCurrent exampleCurrentParams ∨
         (d, row) ∈ pairedRows exampleIncoming exampleIncomingParams) :=
  have hcur : Aligned exampleCurrent exampleCurrentParams 2 := by
    simp [Aligned, exampleCurrent, exampleCurrentParams]
  have hnw : Aligned exampleIncoming exampleIncomingParams 2 := by
    simp [Aligned, exampleIncoming, exampleIncomingParams]
  have h : combineResults_basic exampleState exampleCurrent exampleCurrentParams
      exampleIncoming exampleIncomingParams = some (exampleMerged, exampleStateMerged) := by
    with_unfolding_all decide
  ⟨hcur, hnw, h,
   (combineResults_basic_rows_paired exampleState exampleCurrent exampleCurrentParams
     exampleIncoming exampleIncomingParams 2 hcur hnw).1 exampleMerged exampleStateMerged h⟩

/-- Running `a + b` iterations is running `a` iterations and then `b` more. -/
theorem zipperLoop_append {α : Type} [LinearOrder α] (cur : List α) (curP : NumericMatrix α)
    (nw : List α) (nwP : NumericMatrix α) (currentIndex newIndex : List Nat) (b : Nat) :
    ∀ (a i : Nat) (s : ZipperState α),
      zipperLoop cur curP nw nwP currentIndex newIndex (a + b) i s
        = (zipperLoop cur curP nw nwP currentIndex newIndex a i s).bind
            (fun t => zipperLoop cur curP nw nwP currentIndex newIndex b (i + a) t)
  | 0, i, s => by simp [zipperLoop]
  | a + 1, i, s => by
    rw [Nat.add_right_comm]
    simp only [zipperLoop]
    cases hstep : zipperStep cur curP nw nwP currentIndex newIndex i s with
    | none => simp
    | some t =>
      simp only []
      rw [zipperLoop_append cur curP nw nwP currentIndex newIndex b a (i + 1) t]
      simp [Nat.add_assoc, Nat.add_comm 1 a]

/-- C25: on index-aligned sample sets with `1 ≤ N ≤ batch size`, the merge reaches every step
`i < N`; at the start of step `i` the cursors satisfy `idx1 + idx2 = i` and `err = 0`, the
reads `currentIndex[idx1]` and `newIndex[idx2]` are in bounds, the step writes slot `i` and
leaves `err = 0` (the error branch is not taken), and the whole merge is the continuation of
that state; hence `combineResults_basic` returns. -/
theorem combineResults_basic_cursor_invariant {α : Type} [LinearOrder α] (st : ModelState α)
    (cur : List α) (curP : NumericMatrix α) (nw : List α) (nwP : NumericMatrix α) (p : Nat)
    (hcur : Aligned cur curP p) (hnw : Aligned nw nwP p)
    (hN : 1 ≤ cur.length) (hbatch : cur.length ≤ nw.length) :
    (∀ i, i < cur.length →
      ∃ s t, zipperLoop cur curP nw nwP (sort_indexes cur) (sort_indexes nw) i 0
          (zipperInit cur curP) = some s ∧
        s.idx1 + s.idx2 = i ∧ s.err = 0 ∧
        s.idx1 < (sort_indexes cur).length ∧ s.idx2 < (sort_indexes nw).length ∧
        zipperStep cur curP nw nwP (sort_indexes cur) (sort_indexes nw) i s = some t ∧
        t.err = 0 ∧ t.idx1 + t.idx2 = i + 1 ∧
        (∃ d row, i < s.outResults.length ∧ t.outResults = s.outResults.set i d ∧
          t.outParams.rows = s.outParams.rows.set i row) ∧
        zipperLoop cur curP nw nwP (sort_indexes cur) (sort_indexes nw) cur.length 0
            (zipperInit cur curP)
          = zipperLoop cur curP nw nwP (sort_indexes cur) (sort_indexes nw) (cur.length - i) i
              s) ∧
    ∃ out st1, combineResults_basic st cur curP nw nwP = some (out, st1) := by
  refine ⟨?_, combineResults_basic_returns st cur curP nw nwP p hcur hnw hN hbatch⟩
  intro i hi
  obtain ⟨s, hs⟩ := zipperLoop_returns cur curP nw nwP p hcur hnw i 0 (zipperInit cur curP)
    hcur (by simp [zipperInit]) (by simp only [zipperInit]; omega) (by omega) (by omega)
  obtain ⟨-, hlen, herr, hsum, -⟩ := zipperLoop_results cur curP nw nwP i 0 _ s hs
  simp only [zipperInit, Nat.zero_add] at hlen herr hsum
  obtain ⟨hsa, -⟩ := zipperLoop_paired cur curP nw nwP p hcur hnw i 0 (zipperInit cur curP) s
    hcur hs (fun k hk => absurd hk (Nat.not_lt_zero k))
  obtain ⟨t, ht, -⟩ := zipperStep_returns cur curP nw nwP p hcur hnw i s hsa (by omega)
    (by omega) (by omega)
  obtain ⟨-, -, herr1, hsum1, -⟩ := zipperStep_results cur curP nw nwP i s t ht
  obtain ⟨-, d, row, hres, hrows, hilt, -⟩ :=
    zipperStep_paired cur curP nw nwP p hcur hnw i s t hsa ht
  refine ⟨s, t, hs, hsum, herr, ?_, ?_, ht, by rw [herr1, herr], by omega,
    ⟨d, row, hilt, hres, hrows⟩, ?_⟩
  · rw [sort_indexes_length]; omega
  · rw [sort_indexes_length]; omega
  · have hsplit : cur.length = i + (cur.length - i) := by omega
    conv_lhs => rw [hsplit]
    rw [zipperLoop_append, hs]
    simp

/-- C25, instance on scenario B (three current and three incoming distances). -/
theorem combineResults_basic_cursor_invariant_witness :
    Aligned exampleCurrent exampleCurrentParams 2 ∧
    Aligned exampleIncoming exampleIncomingParams 2 ∧
    1 ≤ exampleCurrent.length ∧ exampleCurrent.length ≤ exampleIncoming.length ∧
    (∀ i, i < exampleCurrent.length →
      ∃ s t, zipperLoop exampleCurrent exampleCurrentParams exampleIncoming
          exampleIncomingParams (sort_indexes exampleCurrent) (sort_indexes exampleIncoming) i 0
          (zipperInit exampleCurrent exampleCurrentParams) = some s ∧
        s.idx1 + s.idx2 = i ∧ s.err = 0 ∧
        s.idx1 < (sort_indexes exampleCurrent).length ∧
        s.idx2 < (sort_indexes exampleIncoming).length ∧
        zipperStep exampleCurrent exampleCurrentParams exampleIncoming exampleIncomingParams
          (sort_indexes exampleCurrent) (sort_indexes exampleIncoming) i s = some t ∧
        t.err = 0 ∧ t.idx1 + t.idx2 = i + 1 ∧
        (∃ d row, i < s.outResults.length ∧ t.outResults = s.outResults.set i d ∧
          t.outParams.rows = s.outParams.rows.set i row) ∧
        zipperLoop exampleCurrent exampleCurrentParams exampleIncoming exampleIncomingParams
            (sort_indexes exampleCurrent) (sort_indexes exampleIncoming) exampleCurrent.length 0
            (zipperInit exampleCurrent exampleCurrentParams)
          = zipperLoop exampleCurrent exampleCurrentParams exampleIncoming
              exampleIncomingParams (sort_indexes exampleCurrent)
              (sort_indexes exampleIncoming) (exampleCurrent.length - i) i s) ∧
    ∃ out st1, combineResults_basic exampleState exampleCurrent exampleCurrentParams
      exampleIncoming exampleIncomingParams = some (out, st1) :=
  have hcur : Aligned exampleCurrent exampleCurrentParams 2 := by
    simp [Aligned, exampleCurrent, exampleCurrentParams]
  have hnw : Aligned exampleIncoming exampleIncomingParams 2 := by
    simp [Aligned, exampleIncoming, exampleIncomingParams]
  have hN : 1 ≤ exampleCurrent.length := by decide
  have hbatch : exampleCurrent.length ≤ exampleIncoming.length := by decide
  ⟨hcur, hnw, hN, hbatch,
   combineResults_basic_cursor_invariant exampleState exampleCurrent exampleCurrentParams
     exampleIncoming exampleIncomingParams 2 hcur hnw hN hbatch⟩

/-! ## The SMC merge: the bounds of a completed generation -/

/-- What a returning copy loop leaves in the output distances, the running minimum and the
running maximum: the distances `i .. i + remaining - 1` of the accumulator are written, and
the running values are combined with their minimum and maximum. -/
theorem smcFill_minmax {α : Type} [LinearOrder α] (acc : List (List α)) (accR : List α) :
    ∀ (remaining i : Nat) (f f1 : FillState α),
      smcFill acc accR remaining i f = some f1 →
      f1.output.result = f.output.result.take i ++ (accR.drop i).take remaining ++
        f.output.result.drop (i + remaining) ∧
      ((accR.drop i).take remaining).length = remaining ∧
      f1.minRslt = min ((accR.drop i).take remaining).minimum f.minRslt ∧
      (f1.maxRslt : WithBot α) = max ((accR.drop i).take remaining).maximum f.maxRslt
  | 0, i, f, f1, h => by
    simp only [smcFill, Option.some.injEq] at h
    subst h
    simp
  | remaining + 1, i, f, f1, h => by
    simp only [smcFill] at h
    split at h
    · rename_i P _
      split at h
      · rename_i r hr
        split at h
        · rename_i hi
          obtain ⟨h1, h2, h3, h4⟩ := smcFill_minmax acc accR remaining (i + 1) _ f1 h
          obtain ⟨hir, hrv⟩ := List.getElem?_eq_some.mp hr
          simp only [] at h1 h3 h4
          rw [drop_of_getElem? hr, List.take_succ_cons, List.minimum_cons, List.maximum_cons]
          refine ⟨?_, by simp [h2], ?_, ?_⟩
          · rw [h1, ← hrv, splice_step _ _ i remaining hi hir, List.drop_eq_getElem_cons hir,
              List.take_succ_cons]
          · rw [h3, min_left_comm, min_assoc]
          · rw [h4, WithBot.coe_max, max_left_comm, max_assoc]
        · simp at h
      · simp at h
    · simp at h

/-- The bounds left by a completed generation: for every returning call of
`combineResults_SMC` that completes a generation on an aligned current sample set, the
returned distances are the first `N` accumulated distances, `minEps` is their minimum, and
`maxEps` is the result of the running maximum, which starts at `0`. -/
theorem combineResults_SMC_eps_fold {α : Type} [LinearOrderedField α]
    (st st1 : ModelState α) (newResults : List α) (newParams : NumericMatrix α)
    (out : samplingResultSet α) (p : Nat)
    (hsamp : Aligned st.currentSamples.result st.currentSamples.params p)
    (h : combineResults_SMC st newResults newParams = some (out, st1))
    (hdone : smcCompletes st newResults newParams = true) :
    (∃ acc accR, smcScan newResults newParams st.currentEps st.currentSamples.params.nrow
        newResults.length 0 st.currentAccepted st.currentAcceptedResult = some (acc, accR) ∧
      out.result = accR.take st.currentSamples.params.nrow) ∧
    out.result.length = st.currentSamples.params.nrow ∧
    st1.minEps = out.result.minimum ∧
    (st1.maxEps : WithBot α) = max out.result.maximum 0 := by
  have hNlen : st.currentSamples.result.length = st.currentSamples.params.nrow :=
    hsamp.2.1.symm
  unfold combineResults_SMC at h
  simp only [] at h
  split at h
  · rename_i acc accR hscan
    have hfull := (smcCompletes_iff st newResults newParams acc accR hscan).mp hdone
    rw [if_pos hfull] at h
    split at h
    · rename_i f hf
      simp only [Option.some.injEq, Prod.mk.injEq] at h
      obtain ⟨hout, hst⟩ := h
      subst hout hst
      obtain ⟨hres, hlen, hmin, hmax⟩ := smcFill_minmax acc accR _ 0 _ f hf
      simp only [List.drop_zero, List.take_zero, List.nil_append, Nat.zero_add] at hres
      simp only [List.drop_zero] at hlen hmin hmax
      have hres1 : f.output.result = accR.take st.currentSamples.params.nrow := by
        rw [hres, List.drop_eq_nil_of_le (by omega), List.append_nil]
      have hmax1 : (f.maxRslt : WithBot α) = max f.output.result.maximum 0 := by
        rw [hres1, hmax]
        rfl
      refine ⟨⟨acc, accR, hscan, hres1⟩, by rw [hres1, hlen], ?_, hmax1⟩
      show f.minRslt = _
      rw [hres1, hmin, min_top_right]
    · simp at h
  · simp at h

/-- C24: for every generation of `N ≥ 1` particles completed by a returning call of
`combineResults_SMC` (aligned current sample set, non-negative distances in the batch and in
the accumulator), the returned distances are the `N` accepted distances, `minEps` equals
their minimum and `maxEps` equals their maximum. -/
theorem combineResults_SMC_eps_bounds {α : Type} [LinearOrderedField α]
    (st st1 : ModelState α) (newResults : List α) (newParams : NumericMatrix α)
    (out : samplingResultSet α) (p : Nat)
    (hsamp : Aligned st.currentSamples.result st.currentSamples.params p)
    (hN : 1 ≤ st.currentSamples.params.nrow)
    (hbatch : ∀ r ∈ newResults, 0 ≤ r)
    (hacc : ∀ r ∈ st.currentAcceptedResult, 0 ≤ r)
    (h : combineResults_SMC st newResults newParams = some (out, st1))
    (hdone : smcCompletes st newResults newParams = true) :
    (∃ acc accR, smcScan newResults newParams st.currentEps st.currentSamples.params.nrow
        newResults.length 0 st.currentAccepted st.currentAcceptedResult = some (acc, accR) ∧
      out.result = accR.take st.currentSamples.params.nrow) ∧
    out.result.length = st.currentSamples.params.nrow ∧
    st1.minEps = out.result.minimum ∧
    (st1.maxEps : WithBot α) = out.result.maximum := by
  obtain ⟨⟨acc, accR, hscan, hres⟩, hlen, hmin, hmax⟩ :=
    combineResults_SMC_eps_fold st st1 newResults newParams out p hsamp h hdone
  refine ⟨⟨acc, accR, hscan, hres⟩, hlen, hmin, ?_⟩
  obtain ⟨ext, extR, -, haccR, -, hext, -⟩ := smcScan_extends _ _ _ _ _ _ _ _ _ _ hscan
  have hnn : ∀ r ∈ out.result, 0 ≤ r := by
    intro r hr
    rw [hres] at hr
    have hr1 : r ∈ accR := List.mem_of_mem_take hr
    rw [haccR] at hr1
    rcases List.mem_append.mp hr1 with hr1 | hr1
    · exact hacc r hr1
    · exact hbatch r (hext r hr1).1
  obtain ⟨r, hr⟩ : ∃ r, r ∈ out.result :=
    List.exists_mem_of_ne_nil _ (fun hnil => by rw [hnil] at hlen; simp at hlen; omega)
  rw [hmax]
  apply max_eq_left
  exact le_trans (WithBot.coe_le_coe.mpr (hnn r hr)) (List.le_maximum_of_mem' hr)

/-- C24, instance on the example batch that completes the generation of the example state
with the distances `3` and `4`. -/
theorem combineResults_SMC_eps_bounds_witness :
    Aligned exampleSmcState.currentSamples.result exampleSmcState.currentSamples.params 1 ∧
    1 ≤ exampleSmcState.currentSamples.params.nrow ∧
    (∀ r ∈ exampleBatch, 0 ≤ r) ∧
    (∀ r ∈ exampleSmcState.currentAcceptedResult, 0 ≤ r) ∧
    combineResults_SMC exampleSmcState exampleBatch exampleBatchParams
      = some (exampleSmcOutput, exampleSmcCompleted) ∧
    smcCompletes exampleSmcState exampleBatch exampleBatchParams = true ∧
    exampleSmcOutput.result.length = exampleSmcState.currentSamples.params.nrow ∧
    exampleSmcCompleted.minEps = exampleSmcOutput.result.minimum ∧
    (exampleSmcCompleted.maxEps : WithBot ℚ) = exampleSmcOutput.result.maximum :=
  have hsamp : Aligned exampleSmcState.currentSamples.result
      exampleSmcState.currentSamples.params 1 := by simp [Aligned, exampleSmcState]
  have hN : 1 ≤ exampleSmcState.currentSamples.params.nrow := by decide
  have hbatch : ∀ r ∈ exampleBatch, 0 ≤ r := by with_unfolding_all decide
  have hacc : ∀ r ∈ exampleSmcState.currentAcceptedResult, 0 ≤ r := by
    with_unfolding_all decide
  have h : combineResults_SMC exampleSmcState exampleBatch exampleBatchParams
      = some (exampleSmcOutput, exampleSmcCompleted) := by with_unfolding_all decide
  have hdone : smcCompletes exampleSmcState exampleBatch exampleBatchParams = true := by
    with_unfolding_all decide
  ⟨hsamp, hN, hbatch, hacc, h, hdone,
   (combineResults_SMC_eps_bounds exampleSmcState exampleSmcCompleted exampleBatch
     exampleBatchParams exampleSmcOutput 1 hsamp hN hbatch hacc h hdone).2⟩

/-! ## `distanceModel` -/

/-- C26, divergence: `addDistanceMatrix` on a fresh model and the square matrix
`[[0, 5], [5, 0]]` succeeds and appends `[[0, 5], [0, 5]]`: the entry `(i, j)` of the appended
matrix is `distMat[j]`, the entry `(j, 0)` of `distMat`, so the entries `(1, 0)` and `(1, 1)`
are not those of `distMat`. -/
theorem addDistanceMatrix_not_elementwise_copy :
    addDistanceMatrix (distanceModel.new : distanceModel ℚ) exampleDistances
      = AddResult.ok { numLocations := 2, dm_list := [exampleDistancesAdded] } ∧
    exampleDistances.get? 1 0 = some 5 ∧ exampleDistancesAdded.get? 1 0 = some 0 ∧
    exampleDistances.get? 1 1 = some 0 ∧ exampleDistancesAdded.get? 1 1 = some 5 ∧
    (∀ i j, i < 2 → j < 2 → exampleDistancesAdded.get? i j = exampleDistances.get? j 0) := by
  refine ⟨by with_unfolding_all decide, by with_unfolding_all decide,
    by with_unfolding_all decide, by with_unfolding_all decide, by with_unfolding_all decide,
    ?_⟩
  intro i j hi hj
  interval_cases i <;> interval_cases j <;> with_unfolding_all decide

/-- A write inside a square matrix succeeds and leaves it square. -/
theorem set?_square {α : Type} (M : NumericMatrix α) (n i j : Nat) (v : α)
    (hM : IsSquare M n) (hi : i < n) (hj : j < n) :
    ∃ M1, M.set? i j v = some M1 ∧ IsSquare M1 n := by
  obtain ⟨hc, hr, hrows⟩ := hM
  have hirow : i < M.rows.length := by omega
  have hlen : M.rows[i].length = n := hrows _ (List.getElem_mem _)
  refine ⟨{ ncol := M.ncol, rows := M.rows.set i (M.rows[i].set j v) }, ?_, hc, ?_, ?_⟩
  · unfold NumericMatrix.set?
    rw [if_pos (by omega), List.getElem?_eq_getElem hirow]
    simp only []
    rw [if_pos (by omega)]
  · simpa using hr
  · intro r hr1
    rcases List.mem_or_eq_of_mem_set hr1 with hr1 | hr1
    · exact hrows r hr1
    · rw [hr1, List.length_set]; exact hlen

/-- In a well-formed square matrix of dimension `n` the linear reads `0 .. n-1` are in bounds:
they are the entries of the first column. -/
theorem linear?_square {α : Type} (D : NumericMatrix α) (n j : Nat) (hD : IsSquare D n)
    (hj : j < n) : ∃ v, D.linear? j = some v ∧ D.get? j 0 = some v := by
  obtain ⟨hc, hr, hrows⟩ := hD
  have hjrow : j < D.rows.length := by omega
  have hlen : D.rows[j].length = n := hrows _ (List.getElem_mem _)
  have h0 : 0 < D.rows[j].length := by omega
  have hget : D.get? j 0 = some (D.rows[j][0]) := by
    unfold NumericMatrix.get?
    rw [if_pos (by omega), List.getElem?_eq_getElem hjrow]
    simp only [Option.some_bind]
    exact List.getElem?_eq_getElem h0
  refine ⟨D.rows[j][0], ?_, hget⟩
  unfold NumericMatrix.linear?
  have hn : D.nrow = n := hr
  rw [if_pos (by omega), hn, Nat.mod_eq_of_lt hj, Nat.div_eq_of_lt hj]
  exact hget

theorem addMatrixRow_square {α : Type} (D : NumericMatrix α) (n i : Nat) (hD : IsSquare D n)
    (hi : i < n) :
    ∀ (remaining j : Nat) (M : NumericMatrix α), IsSquare M n → j + remaining ≤ n →
      ∃ M1, addMatrixRow D i remaining j M = some M1 ∧ IsSquare M1 n
  | 0, _, M, hM, _ => ⟨M, rfl, hM⟩
  | remaining + 1, j, M, hM, h => by
    obtain ⟨v, hv, -⟩ := linear?_square D n j hD (by omega)
    obtain ⟨M0, hM0, hsq⟩ := set?_square M n i j v hM hi (by omega)
    obtain ⟨M1, hM1, hsq1⟩ := addMatrixRow_square D n i hD hi remaining (j + 1) M0 hsq
      (by omega)
    exact ⟨M1, by simp only [addMatrixRow, hv, hM0, hM1], hsq1⟩

theorem addMatrixRows_square {α : Type} (D : NumericMatrix α) (n : Nat) (hD : IsSquare D n) :
    ∀ (remaining i : Nat) (M : NumericMatrix α), IsSquare M n → i + remaining ≤ n →
      ∃ M1, addMatrixRows D remaining i M = some M1 ∧ IsSquare M1 n
  | 0, _, M, hM, _ => ⟨M, rfl, hM⟩
  | remaining + 1, i, M, hM, h => by
    obtain ⟨M0, hM0, hsq⟩ := addMatrixRow_square D n i hD (by omega) D.ncol 0 M hM
      (by rw [hD.1]; omega)
    obtain ⟨M1, hM1, hsq1⟩ := addMatrixRows_square D n hD remaining (i + 1) M0 hsq (by omega)
    exact ⟨M1, by simp only [addMatrixRows, hM0, hM1], hsq1⟩

/-- The three ways a call of `addDistanceMatrix` with a well-formed matrix ends. -/
theorem addDistanceMatrix_cases {α : Type} [Zero α] (m : distanceModel α)
    (D : NumericMatrix α) (hwf : WellFormedMatrix D) :
    (D.nrow ≠ D.ncol → addDistanceMatrix m D = AddResult.error DistanceError.notSquare m) ∧
    (D.nrow = D.ncol → m.numLocations ≠ -1 → (D.nrow : Int) ≠ m.numLocations →
      addDistanceMatrix m D = AddResult.error DistanceError.dimensionMismatch m) ∧
    (D.nrow = D.ncol → (m.numLocations = -1 ∨ (D.nrow : Int) = m.numLocations) →
      ∃ A, addDistanceMatrix m D
          = AddResult.ok { numLocations := (D.nrow : Int), dm_list := m.dm_list ++ [A] } ∧
        IsSquare A D.nrow) := by
  refine ⟨?_, ?_, ?_⟩
  · intro hne
    unfold addDistanceMatrix
    rw [if_pos hne]
  · intro hsq h1 h2
    unfold addDistanceMatrix
    rw [if_neg (by simpa using hsq), if_pos ⟨h1, h2⟩]
  · intro hsq hdim
    have hD : IsSquare D D.nrow := ⟨hsq.symm, rfl, fun r hr => by rw [hwf r hr, hsq]⟩
    have hinit : IsSquare
        (NumericMatrix.mk D.ncol (List.replicate D.nrow (List.replicate D.ncol (0 : α))))
        D.nrow := by
      refine ⟨hsq.symm, by simp, ?_⟩
      intro r hr
      rw [List.eq_of_mem_replicate hr, List.length_replicate, hsq]
    obtain ⟨A, hA, hAsq⟩ := addMatrixRows_square D D.nrow hD D.nrow 0 _ hinit (by omega)
    refine ⟨A, ?_, hAsq⟩
    unfold addDistanceMatrix
    rw [if_neg (by simpa using hsq), if_neg (by
      rintro ⟨h1, h2⟩
      rcases hdim with h | h
      · exact h1 h
      · exact h2 h)]
    simp only [hA]

/-- A call of `addDistanceMatrix` with a well-formed matrix has an outcome, and the model it
leaves has every matrix of `dm_list` square with dimension `numLocations` if the model it
started from has. -/
theorem addDistanceMatrix_inv {α : Type} [Zero α] (m : distanceModel α)
    (D : NumericMatrix α) (hwf : WellFormedMatrix D) (hinv : DistanceInv m)
    (hfresh : m.numLocations = -1 → m.dm_list = []) :
    ∃ m1, (addDistanceMatrix m D = AddResult.ok m1 ∨
        ∃ message, addDistanceMatrix m D = AddResult.error message m1) ∧
      DistanceInv m1 ∧ (m1.numLocations = -1 → m1.dm_list = []) := by
  obtain ⟨h1, h2, h3⟩ := addDistanceMatrix_cases m D hwf
  by_cases hsq : D.nrow = D.ncol
  · by_cases hdim : m.numLocations = -1 ∨ (D.nrow : Int) = m.numLocations
    · obtain ⟨A, hA, hAsq⟩ := h3 hsq hdim
      refine ⟨_, Or.inl hA, ?_, ?_⟩
      · intro B hB
        simp only [List.mem_append, List.mem_singleton] at hB
        rcases hB with hB | hB
        · rcases hdim with hd | hd
          · rw [hfresh hd] at hB
            simp at hB
          · obtain ⟨n, hn, hBsq⟩ := hinv B hB
            have : n = D.nrow := by
              have : (n : Int) = (D.nrow : Int) := by rw [hn, hd]
              exact_mod_cast this
            exact ⟨D.nrow, rfl, this ▸ hBsq⟩
        · exact ⟨D.nrow, rfl, hB ▸ hAsq⟩
      · intro hneg
        simp only [] at hneg
        omega
    · have hd1 : m.numLocations ≠ -1 := fun h => hdim (Or.inl h)
      have hd2 : (D.nrow : Int) ≠ m.numLocations := fun h => hdim (Or.inr h)
      exact ⟨m, Or.inr ⟨_, h2 hsq hd1 hd2⟩, hinv, hfresh⟩
  · exact ⟨m, Or.inr ⟨_, h1 hsq⟩, hinv, hfresh⟩

/-- Along a sequence of calls with well-formed matrices every call has an outcome and the
invariant persists. -/
theorem addDistanceMatrices_inv {α : Type} [Zero α] :
    ∀ (Ds : List (NumericMatrix α)) (m : distanceModel α),
      (∀ D ∈ Ds, WellFormedMatrix D) → DistanceInv m →
      (m.numLocations = -1 → m.dm_list = []) →
      ∃ m1, addDistanceMatrices m Ds = some m1 ∧ DistanceInv m1
  | [], m, _, hinv, _ => ⟨m, rfl, hinv⟩
  | D :: Ds, m, hwf, hinv, hfresh => by
    obtain ⟨m0, hcall, hinv0, hfresh0⟩ :=
      addDistanceMatrix_inv m D (hwf D (List.mem_cons_self _ _)) hinv hfresh
    obtain ⟨m1, hm1, hinv1⟩ := addDistanceMatrices_inv Ds m0
      (fun E hE => hwf E (List.mem_cons_of_mem _ hE)) hinv0 hfresh0
    refine ⟨m1, ?_, hinv1⟩
    rcases hcall with hcall | ⟨message, hcall⟩
    · simp only [addDistanceMatrices, hcall, hm1]
    · simp only [addDistanceMatrices, hcall, hm1]

/-- C27: starting from a freshly constructed `distanceModel`, after any sequence of calls of
`addDistanceMatrix` (with well-formed matrices) every matrix of `dm_list` is square with
dimension `numLocations`.  A call with a non-square matrix, or with a dimension different
from that of a previously added matrix, raises an error and leaves the model as it is; any
other call appends exactly one matrix, square of the dimension of its argument, and sets
`numLocations` to that dimension. -/
theorem addDistanceMatrix_keeps_dimensions {α : Type} [Zero α] :
    (∀ Ds : List (NumericMatrix α), (∀ D ∈ Ds, WellFormedMatrix D) →
      ∃ m, addDistanceMatrices distanceModel.new Ds = some m ∧ DistanceInv m) ∧
    (∀ (m : distanceModel α) (D : NumericMatrix α), WellFormedMatrix D →
      (D.nrow ≠ D.ncol → addDistanceMatrix m D = AddResult.error DistanceError.notSquare m) ∧
      (D.nrow = D.ncol → m.numLocations ≠ -1 → (D.nrow : Int) ≠ m.numLocations →
        addDistanceMatrix m D = AddResult.error DistanceError.dimensionMismatch m) ∧
      (D.nrow = D.ncol → (m.numLocations = -1 ∨ (D.nrow : Int) = m.numLocations) →
        ∃ A, addDistanceMatrix m D
            = AddResult.ok { numLocations := (D.nrow : Int), dm_list := m.dm_list ++ [A] } ∧
          IsSquare A D.nrow)) := by
  constructor
  · intro Ds hwf
    exact addDistanceMatrices_inv Ds distanceModel.new hwf
      (fun D hD => by simp [distanceModel.new] at hD) (fun _ => rfl)
  · intro m D hwf
    exact addDistanceMatrix_cases m D hwf

/-- C27, instance: a square matrix, a non-square one, a square one of another dimension and
the first one again, added to a fresh model, leave two matrices of dimension two. -/
theorem addDistanceMatrix_keeps_dimensions_witness :
    (∀ D ∈ [exampleDistances, exampleNotSquare, exampleDistancesThree, exampleDistances],
      WellFormedMatrix D) ∧
    addDistanceMatrices distanceModel.new
        [exampleDistances, exampleNotSquare, exampleDistancesThree, exampleDistances]
      = some { numLocations := 2, dm_list := [exampleDistancesAdded, exampleDistancesAdded] } ∧
    ∃ m, addDistanceMatrices distanceModel.new
        [exampleDistances, exampleNotSquare, exampleDistancesThree, exampleDistances]
      = some m ∧ DistanceInv m :=
  have hwf : ∀ D ∈ [exampleDistances, exampleNotSquare, exampleDistancesThree,
      exampleDistances], WellFormedMatrix D := by
    intro D hD
    simp only [List.mem_cons, List.mem_singleton, List.not_mem_nil, or_false] at hD
    rcases hD with rfl | rfl | rfl | rfl <;>
      simp [WellFormedMatrix, exampleDistances, exampleNotSquare, exampleDistancesThree]
  ⟨hwf, by with_unfolding_all decide,
   (@addDistanceMatrix_keeps_dimensions ℚ _).1 _ hwf⟩

/-! ## `updateParams_prior` -/

/-- C22, divergence: with one exposure coefficient and one active reinfection coefficient,
`updateParams_prior` reads the mean and the precision of the reinfection coefficient `0`
(stored in column `nBeta + 0 = 1`) at the index `1`, the column, not at the index `0`.  With
one mean and one precision the read is out of bounds and there is no result; with a second
entry in both (`3` and `2`) column `1` receives `3 + z / 2 = 4` for the draw `z = 2`, not
`7 + z / 1 = 9`.  The exposure coefficient of column `0` is `0 + 1 / 1 = 1`, as claimed. -/
theorem updateParams_prior_reinfection_index :
    hasReinfection exampleReinfectionComponents = some true ∧
    nBeta exampleReinfectionComponents = 1 ∧
    nBetaRS exampleReinfectionComponents true = 1 ∧
    updateParams_prior exampleReinfectionComponents exampleSingleControl exampleDraws
      examplePriorState = none ∧
    (updateParams_prior examplePaddedComponents exampleSingleControl exampleDraws
        examplePriorState).map (fun s => s.param_matrix.rows)
      = some [[1, 4, 1 / 2, 1 / 3]] ∧
    exampleDraws.standardNormal 1 = 2 ∧
    (3 : ℚ) + exampleDraws.standardNormal 1 / 2 = 4 ∧
    (7 : ℚ) + exampleDraws.standardNormal 1 / 1 = 9 := by
  refine ⟨by with_unfolding_all decide, by decide, by decide, by with_unfolding_all decide,
    by with_unfolding_all decide, ?_, ?_, ?_⟩ <;> norm_num [exampleDraws]

/-- A write inside a well-formed matrix succeeds, keeps the shape, stores the value and leaves
the other entries. -/
theorem set?_spec {α : Type} (M : NumericMatrix α) (i j : Nat) (v : α)
    (hM : WellFormedMatrix M) (hi : i < M.rows.length) (hj : j < M.ncol) :
    ∃ M1, M.set? i j v = some M1 ∧ WellFormedMatrix M1 ∧ M1.ncol = M.ncol ∧
      M1.rows.length = M.rows.length ∧ M1.get? i j = some v ∧
      ∀ a b, (a ≠ i ∨ b ≠ j) → M1.get? a b = M.get? a b := by
  have hlen : M.rows[i].length = M.ncol := hM _ (List.getElem_mem _)
  refine ⟨{ ncol := M.ncol, rows := M.rows.set i (M.rows[i].set j v) }, ?_, ?_, rfl,
    by simp, ?_, ?_⟩
  · unfold NumericMatrix.set?
    rw [if_pos hj, List.getElem?_eq_getElem hi]
    simp only []
    rw [if_pos (by omega)]
  · intro r hr
    rcases List.mem_or_eq_of_mem_set hr with hr | hr
    · exact hM r hr
    · rw [hr, List.length_set]; exact hlen
  · unfold NumericMatrix.get?
    rw [if_pos hj, List.getElem?_set_self hi]
    simp only [Option.some_bind]
    rw [List.getElem?_set_self (by omega)]
  · intro a b hab
    unfold NumericMatrix.get?
    simp only []
    by_cases hb : b < M.ncol
    · rw [if_pos hb, if_pos hb]
      by_cases ha : a = i
      · subst ha
        have hbj : b ≠ j := by
          rcases hab with h | h
          · exact absurd rfl h
          · exact h
        rw [List.getElem?_set_self hi, List.getElem?_eq_getElem hi]
        simp only [Option.some_bind]
        rw [List.getElem?_set_ne (fun h => hbj h.symm)]
      · rw [List.getElem?_set_ne (fun h => ha h.symm)]
    · rw [if_neg hb, if_neg hb]

/-- One attempt of the spatial-weight loop on a well-formed matrix: it draws `remaining`
values, stores them in the columns `j .. j + remaining - 1` of row `i`, adds them to
`rhoTot`, and leaves the other entries and the other counters. -/
theorem drawRhoAttempt_spec {α : Type} [LinearOrderedField α] (draws : PriorDraws α)
    (i : Nat) :
    ∀ (remaining j : Nat) (s : PriorState α) (rhoTot : α),
      WellFormedMatrix s.param_matrix → i < s.param_matrix.rows.length →
      j + remaining ≤ s.param_matrix.ncol →
      ∃ s1, drawRhoAttempt draws i remaining j s rhoTot
          = some (s1, rhoTot + ((List.range' s.nRhoDraws remaining).map draws.rhoDist).sum) ∧
        WellFormedMatrix s1.param_matrix ∧ s1.param_matrix.ncol = s.param_matrix.ncol ∧
        s1.param_matrix.rows.length = s.param_matrix.rows.length ∧
        s1.nRhoDraws = s.nRhoDraws + remaining ∧
        (∀ t, t < remaining →
          s1.param_matrix.get? i (j + t) = some (draws.rhoDist (s.nRhoDraws + t))) ∧
        ∀ a b, (a ≠ i ∨ b < j ∨ j + remaining ≤ b) →
          s1.param_matrix.get? a b = s.param_matrix.get? a b
  | 0, j, s, rhoTot, hM, _, _ => by
    refine ⟨s, by simp [drawRhoAttempt], hM, rfl, rfl, rfl, ?_, fun _ _ _ => rfl⟩
    intro t ht
    exact absurd ht (Nat.not_lt_zero t)
  | remaining + 1, j, s, rhoTot, hM, hi, hj => by
    obtain ⟨P, hP, hPwf, hPc, hPr, hPget, hPother⟩ :=
      set?_spec s.param_matrix i j (draws.rhoDist s.nRhoDraws) hM hi (by omega)
    obtain ⟨s1, hs1, hwf1, hc1, hr1, hn1, hget1, hother1⟩ :=
      drawRhoAttempt_spec draws i remaining (j + 1)
        { s with param_matrix := P, nRhoDraws := s.nRhoDraws + 1 }
        (rhoTot + draws.rhoDist s.nRhoDraws) hPwf (by rw [hPr]; exact hi)
        (by rw [hPc]; omega)
    simp only [] at hs1 hc1 hr1 hn1 hget1 hother1
    refine ⟨s1, ?_, hwf1, by rw [hc1, hPc], by rw [hr1, hPr], by rw [hn1]; omega, ?_, ?_⟩
    · simp only [drawRhoAttempt, hP, hs1, List.range'_succ, List.map_cons, List.sum_cons,
        add_assoc]
    · intro t ht
      cases t with
      | zero =>
        rw [Nat.add_zero, Nat.add_zero, hother1 i j (Or.inr (Or.inl (by omega)))]
        exact hPget
      | succ t =>
        have := hget1 t (by omega)
        rw [show j + (t + 1) = j + 1 + t by omega,
          show s.nRhoDraws + (t + 1) = s.nRhoDraws + 1 + t by omega]
        exact this
    · intro a b hab
      rw [hother1 a b (by
        rcases hab with h | h | h
        · exact Or.inl h
        · exact Or.inr (Or.inl (by omega))
        · exact Or.inr (Or.inr (by omega)))]
      apply hPother
      rcases hab with h | h | h
      · exact Or.inl h
      · exact Or.inr (by omega)
      · exact Or.inr (by omega)

/-- The loop of attempts on a well-formed matrix, with fuel for the attempts that are left:
it makes `m` attempts, each of `nRho` draws; without an attempt nothing changes; otherwise
`rhoTot` was above one, every attempt but the last summed to more than one, and the sum and
the values of the last attempt are what is left; and it stops early only on a sum of at most
one. -/
theorem drawRhoLoop_spec {α : Type} [LinearOrderedField α] (draws : PriorDraws α)
    (i nRho first : Nat) :
    ∀ (fuel rhoItrs : Nat) (s : PriorState α) (rhoTot : α),
      WellFormedMatrix s.param_matrix → i < s.param_matrix.rows.length →
      first + nRho ≤ s.param_matrix.ncol → rhoItrs + fuel = 100 →
      ∃ s1 tot m, drawRhoLoop draws i nRho first fuel rhoItrs s rhoTot
          = some (s1, tot, rhoItrs + m) ∧ m ≤ fuel ∧
        s1.nRhoDraws = s.nRhoDraws + m * nRho ∧
        (m = 0 → s1 = s ∧ tot = rhoTot) ∧
        (0 < m → rhoTot > 1 ∧
          tot = attemptSum draws (s.nRhoDraws + (m - 1) * nRho) nRho ∧
          (∀ a, a < m - 1 → attemptSum draws (s.nRhoDraws + a * nRho) nRho > 1) ∧
          ∀ t, t < nRho → s1.param_matrix.get? i (first + t)
            = some (draws.rhoDist (s.nRhoDraws + (m - 1) * nRho + t))) ∧
        (m < fuel → tot ≤ 1)
  | 0, rhoItrs, s, rhoTot, _, _, _, hfuel => by
    refine ⟨s, rhoTot, 0, ?_, le_refl _, by simp, fun _ => ⟨rfl, rfl⟩,
      fun h => absurd h (Nat.lt_irrefl 0), fun h => absurd h (Nat.lt_irrefl 0)⟩
    simp only [drawRhoLoop, Nat.add_zero]
    rw [if_neg (by omega)]
  | fuel + 1, rhoItrs, s, rhoTot, hM, hi, hcol, hfuel => by
    by_cases hc : rhoTot > 1 ∧ rhoItrs < 100
    · obtain ⟨s0, hs0, hwf0, hc0, hr0, hn0, hget0, -⟩ :=
        drawRhoAttempt_spec draws i nRho first s 0 hM hi hcol
      rw [zero_add] at hs0
      obtain ⟨s1, tot, m, hloop, hm, hn1, hzero, hpos, hearly⟩ :=
        drawRhoLoop_spec draws i nRho first fuel (rhoItrs + 1) s0
          (((List.range' s.nRhoDraws nRho).map draws.rhoDist).sum) hwf0
          (by rw [hr0]; exact hi) (by rw [hc0]; exact hcol) (by omega)
      refine ⟨s1, tot, m + 1, ?_, by omega, ?_, fun h => absurd h (Nat.succ_ne_zero m), ?_,
        fun h => hearly (by omega)⟩
      · simp only [drawRhoLoop, if_pos hc, hs0, hloop]
        rw [show rhoItrs + 1 + m = rhoItrs + (m + 1) by omega]
      · rw [hn1, hn0, Nat.add_mul, Nat.one_mul]
        omega
      · intro _
        refine ⟨hc.1, ?_⟩
        simp only [Nat.add_sub_cancel]
        rcases Nat.eq_zero_or_pos m with hm0 | hm0
        · obtain ⟨hs1, htot⟩ := hzero hm0
          subst hm0
          subst hs1
          simp only [Nat.zero_mul, Nat.add_zero]
          exact ⟨htot, fun a ha => absurd ha (Nat.not_lt_zero a), hget0⟩
        · obtain ⟨hgt, htot, hprev, hget⟩ := hpos hm0
          have hidx : s0.nRhoDraws + (m - 1) * nRho = s.nRhoDraws + m * nRho := by
            rw [hn0]
            have : m = (m - 1) + 1 := by omega
            conv_rhs => rw [this, Nat.add_mul, Nat.one_mul]
            omega
          rw [hidx] at htot hget
          refine ⟨htot, ?_, hget⟩
          intro a ha
          cases a with
          | zero =>
            simp only [Nat.zero_mul, Nat.add_zero]
            exact hgt
          | succ a =>
            have := hprev a (by omega)
            rw [hn0] at this
            rw [show s.nRhoDraws + (a + 1) * nRho = s.nRhoDraws + nRho + a * nRho by
              rw [Nat.add_mul, Nat.one_mul]; omega]
            exact this
    · refine ⟨s, rhoTot, 0, ?_, Nat.zero_le _, by simp, fun _ => ⟨rfl, rfl⟩,
        fun h => absurd h (Nat.lt_irrefl 0), ?_⟩
      · simp only [drawRhoLoop, if_neg hc, Nat.add_zero]
      · intro _
        have : rhoItrs < 100 := by omega
        exact le_of_not_lt (fun h => hc ⟨h, this⟩)

/-- C23: for every candidate row `i` of a well-formed `param_matrix` that has the columns of
the spatial weights, and every stream of Gamma draws, the spatial-weight loop of
`updateParams_prior` returns after `k` attempts with `1 ≤ k ≤ 100`, each of `nRho` draws.
Every attempt before the last summed to more than one, the loop stops before the hundredth
attempt only on a sum of at most one, and the stored weights are the values of the last
attempt.  Hence the stored weights sum to more than one only if all hundred attempts did. -/
theorem drawRhoLoop_attempts {α : Type} [LinearOrderedField α] (draws : PriorDraws α)
    (i nRho first : Nat) (s : PriorState α) (hM : WellFormedMatrix s.param_matrix)
    (hi : i < s.param_matrix.rows.length) (hcol : first + nRho ≤ s.param_matrix.ncol) :
    ∃ s1 rhoTot k, drawRhoLoop draws i nRho first 100 0 s 2 = some (s1, rhoTot, k) ∧
      1 ≤ k ∧ k ≤ 100 ∧ s1.nRhoDraws = s.nRhoDraws + k * nRho ∧
      (∀ a, a < k - 1 → attemptSum draws (s.nRhoDraws + a * nRho) nRho > 1) ∧
      (k < 100 → attemptSum draws (s.nRhoDraws + (k - 1) * nRho) nRho ≤ 1) ∧
      rhoTot = attemptSum draws (s.nRhoDraws + (k - 1) * nRho) nRho ∧
      (∀ t, t < nRho → s1.param_matrix.get? i (first + t)
        = some (draws.rhoDist (s.nRhoDraws + (k - 1) * nRho + t))) ∧
      (rhoTot > 1 → k = 100 ∧ ∀ a, a < 100 →
        attemptSum draws (s.nRhoDraws + a * nRho) nRho > 1) := by
  obtain ⟨s1, tot, m, hloop, hm, hn, hzero, hpos, hearly⟩ :=
    drawRhoLoop_spec draws i nRho first 100 0 s 2 hM hi hcol (by omega)
  rw [Nat.zero_add] at hloop
  have hm1 : 0 < m := by
    rcases Nat.eq_zero_or_pos m with h0 | h0
    · have htot := (hzero h0).2
      have hle := hearly (by omega)
      rw [htot] at hle
      exact absurd hle (by norm_num)
    · exact h0
  obtain ⟨-, htot, hprev, hget⟩ := hpos hm1
  refine ⟨s1, tot, m, hloop, hm1, hm, hn, hprev, ?_, htot, hget, ?_⟩
  · intro hk
    rw [← htot]
    exact hearly hk
  · intro hgt
    have hk : m = 100 := by
      by_contra hne
      exact absurd (hearly (by omega)) (not_le.mpr hgt)
    refine ⟨hk, ?_⟩
    intro a ha
    by_cases hlast : a = m - 1
    · rw [hlast, ← htot]
      exact hgt
    · exact hprev a (by omega)

/-- C23, instance on the example draws: the first attempt sums to `3/2`, the second to `1/2`,
so the loop makes two attempts and stores `1/4, 1/4`. -/
theorem drawRhoLoop_attempts_witness :
    WellFormedMatrix examplePriorState.param_matrix ∧
    0 < examplePriorState.param_matrix.rows.length ∧
    1 + 2 ≤ examplePriorState.param_matrix.ncol ∧
    (drawRhoLoop exampleDraws 0 2 1 100 0 examplePriorState 2).map
        (fun r => (r.1.param_matrix.rows, r.2.1, r.2.2))
      = some ([[0, 1 / 4, 1 / 4, 0]], 1 / 2, 2) ∧
    ∃ s1 rhoTot k, drawRhoLoop exampleDraws 0 2 1 100 0 examplePriorState 2
        = some (s1, rhoTot, k) ∧
      1 ≤ k ∧ k ≤ 100 ∧ s1.nRhoDraws = examplePriorState.nRhoDraws + k * 2 ∧
      (∀ a, a < k - 1 →
        attemptSum exampleDraws (examplePriorState.nRhoDraws + a * 2) 2 > 1) ∧
      (k < 100 → attemptSum exampleDraws (examplePriorState.nRhoDraws + (k - 1) * 2) 2 ≤ 1) ∧
      rhoTot = attemptSum exampleDraws (examplePriorState.nRhoDraws + (k - 1) * 2) 2 ∧
      (∀ t, t < 2 → s1.param_matrix.get? 0 (1 + t)
        = some (exampleDraws.rhoDist (examplePriorState.nRhoDraws + (k - 1) * 2 + t))) ∧
      (rhoTot > 1 → k = 100 ∧ ∀ a, a < 100 →
        attemptSum exampleDraws (examplePriorState.nRhoDraws + a * 2) 2 > 1) :=
  have hM : WellFormedMatrix examplePriorState.param_matrix := by
    simp [WellFormedMatrix, examplePriorState]
  have hi : 0 < examplePriorState.param_matrix.rows.length := by decide
  have hcol : 1 + 2 ≤ examplePriorState.param_matrix.ncol := by decide
  ⟨hM, hi, hcol, by with_unfolding_all decide,
   drawRhoLoop_attempts exampleDraws 0 2 1 examplePriorState hM hi hcol⟩

end AFSEIR
